import Mathlib

/-!
LAYNII: geodesic distance propagation (`LN2_GEODISTANCE.cpp`)

A shallow embedding of the flooding loop of `LN2_GEODISTANCE` and of the
passes that prepare it (domain index, seed labelling, initialisation).

Conventions of the embedding
* distances live in a linearly ordered field `α` (exact arithmetic); the
  library routine `sqrt` is a parameter `sq : α → α`;
* the flat image buffers are total functions on `Nat`; only the indices
  below `nr_voxels` belong to a buffer;
* `uint32_t`/`int32_t` quantities are `Nat`/`Int`; the grids considered hold
  fewer than `2^32` voxels, so none of the index computations wraps;
* the default `max_dist` (the largest finite `float`) is `none`: a bound that
  no distance reaches;
* where a claim depends on the rounding of `float` sums or on the width of
  `uint32_t`, the machine arithmetic is made explicit: `round32`, the loop
  `geodistance_fl` with every `float` operation rounded, and
  `Grid.nr_voxels_u32` (section "Machine arithmetic").
-/

namespace Laynii

/-! ## Grid geometry (lines 111-130) -/

/-- Sizes `nx, ny, nz` and voxel spacings `pixdim[1..3]` of the input image. -/
structure Grid (α : Type) where
  size_x : Nat
  size_y : Nat
  size_z : Nat
  dX : α
  dY : α
  dZ : α

section Geometry

variable {α : Type} [LinearOrderedField α]

/-- Line 115: `end_x = size_x - 1`.  (It differs from the `uint32_t` value only
for `size_x = 0`, a grid without voxels, on which no block is ever run.) -/
def Grid.end_x (G : Grid α) : Nat := G.size_x - 1

/-- Line 116: `end_y = size_y - 1`. -/
def Grid.end_y (G : Grid α) : Nat := G.size_y - 1

/-- Line 117: `end_z = size_z - 1`. -/
def Grid.end_z (G : Grid α) : Nat := G.size_z - 1

/-- Line 119: `nr_voxels = size_z * size_y * size_x`. -/
def Grid.nr_voxels (G : Grid α) : Nat := G.size_z * G.size_y * G.size_x

/-- Line 126: short diagonal in the xy plane. -/
def Grid.dia_xy (sq : α → α) (G : Grid α) : α := sq (G.dX * G.dX + G.dY * G.dY)

/-- Line 127: short diagonal in the xz plane. -/
def Grid.dia_xz (sq : α → α) (G : Grid α) : α := sq (G.dX * G.dX + G.dZ * G.dZ)

/-- Line 128: short diagonal in the yz plane. -/
def Grid.dia_yz (sq : α → α) (G : Grid α) : α := sq (G.dY * G.dY + G.dZ * G.dZ)

/-- Line 130: long diagonal. -/
def Grid.dia_xyz (sq : α → α) (G : Grid α) : α :=
  sq (G.dX * G.dX + G.dY * G.dY + G.dZ * G.dZ)

/-- Line 218: `dist_to_axes = ((dX + dY + dZ) / 3) / 2`, half a voxel. -/
def Grid.dist_to_axes (G : Grid α) : α := ((G.dX + G.dY + G.dZ) / 3) / 2

/-- Positive voxel spacings. -/
def Grid.Pos (G : Grid α) : Prop := 0 < G.dX ∧ 0 < G.dY ∧ 0 < G.dZ

/-- The property of `sqrt` that the proofs use: it is positive on positive
arguments. -/
def SqrtPos (sq : α → α) : Prop := ∀ x, 0 < x → 0 < sq x

end Geometry

/-- Modelled from the spec: `sub2ind_3D` of `dep/laynii_lib`, the explicit
linear-index function from 3D coordinates (x runs fastest, then y, then z). -/
def sub2ind_3D (x y z size_x size_y : Nat) : Nat :=
  size_x * size_y * z + size_x * y + x

/-- Modelled from the spec: `ind2sub_3D` of `dep/laynii_lib`, which decodes a
linear index into grid coordinates `(ix, iy, iz)`. -/
def ind2sub_3D (i size_x size_y : Nat) : Nat × Nat × Nat :=
  (i % (size_x * size_y) % size_x, i % (size_x * size_y) / size_x, i / (size_x * size_y))

/-! ## Domain index (lines 157-175) -/

/-- Lines 157-162: the first pass counts the voxels of interest. -/
def count_voi (dom : Nat → Int) (nr_voxels : Nat) : Nat :=
  (List.range nr_voxels).foldl (fun nr_voi i => if dom i > 0 then nr_voi + 1 else nr_voi) 0

/-- Lines 169-175: the second pass writes the index `i` at position `ii` of
the buffer `voi_id` and advances `ii`.  The result is the buffer and the final
`ii`. -/
def fill_voi (dom : Nat → Int) (nr_voxels : Nat) (buf : List Nat) : List Nat × Nat :=
  (List.range nr_voxels).foldl
    (fun p i => if dom i > 0 then (p.1.set p.2 i, p.2 + 1) else p) (buf, 0)

/-- Lines 157-175 together: `voi_id`, filled into a buffer of `nr_voi`
entries. -/
def voi_id (dom : Nat → Int) (nr_voxels : Nat) : List Nat :=
  (fill_voi dom nr_voxels (List.replicate (count_voi dom nr_voxels) 0)).1

/-! ## Seed labelling (lines 177-192) -/

/-- Lines 179-192, one iteration: with `-init_val L` the init buffer is
rewritten to 0/1, without it the buffer is left alone; matching voxels are
counted. -/
def label_step (mode_init_val : Option Int) (p : (Nat → Int) × Nat) (i : Nat) :
    (Nat → Int) × Nat :=
  match mode_init_val with
  | some init_val =>
      if p.1 i ≠ init_val then (Function.update p.1 i 0, p.2)
      else (Function.update p.1 i 1, p.2 + 1)
  | none => if p.1 i ≠ 0 then (p.1, p.2 + 1) else p

/-- Lines 178-192: the relabelled init buffer and `nr_init_voxels`. -/
def label_init (mode_init_val : Option Int) (nii_init_data : Nat → Int) (nr_voxels : Nat) :
    (Nat → Int) × Nat :=
  (List.range nr_voxels).foldl (label_step mode_init_val) (nii_init_data, 0)

/-! ## State of the flooding loop -/

/-- The mutable state of the loop: the two flood volumes, the sweep counter,
the number of voxels expanded in the running sweep and the running maximum. -/
structure Flood (α : Type) where
  flood_dist : Nat → α
  flood_step : Nat → Int
  grow_step : Int
  voxel_counter : Nat
  temp_max_dist : α

section Propagation

variable {α : Type} [LinearOrderedField α]

/-- Lines 146-149: both flood volumes are set to zero. -/
def set_zero (nr_voxels : Nat) (p : (Nat → Int) × (Nat → α)) : (Nat → Int) × (Nat → α) :=
  (List.range nr_voxels).foldl
    (fun q i => (Function.update q.1 i 0, Function.update q.2 i 0)) p

/-- Lines 221-226: every voxel with a non-zero init value gets step 1 and
half a voxel of distance. -/
def init_grow (init : Nat → Int) (dist_to_axes : α) (nr_voxels : Nat)
    (p : (Nat → Int) × (Nat → α)) : (Nat → Int) × (Nat → α) :=
  (List.range nr_voxels).foldl
    (fun q i => if init i ≠ 0 then (Function.update q.1 i 1, Function.update q.2 i dist_to_axes)
      else q) p

/-- The state on entry to the `while` loop (lines 140-149, 210-226).  The
flood volumes start as copies of the raw init image, are zeroed, and are then
seeded from the labelled init buffer `init`. -/
def init_flood (G : Grid α) (raw init : Nat → Int) : Flood α :=
  let p := init_grow init G.dist_to_axes G.nr_voxels
    (set_zero G.nr_voxels (raw, fun i => ((raw i : Int) : α)))
  { flood_dist := p.2, flood_step := p.1, grow_step := 1,
    voxel_counter := G.nr_voxels, temp_max_dist := 0 }

/-- Lines 241-248 (and the 25 copies): the relaxation of neighbour `j` from
the active voxel `i` with neighbour weight `w`. -/
def relax (dom : Nat → Int) (i j : Nat) (w : α) (s : Flood α) : Flood α :=
  if dom j > 0 then
    if s.flood_dist i + w < s.flood_dist j ∨ s.flood_dist j = 0 then
      { s with flood_dist := Function.update s.flood_dist j (s.flood_dist i + w),
               flood_step := Function.update s.flood_step j (s.grow_step + 1) }
    else s
  else s

/-- Lines 233-557: the expansion of one active voxel `i`: the counter, the 26
neighbour blocks in source order, and the update of the running maximum. -/
def expand (sq : α → α) (G : Grid α) (dom : Nat → Int) (i : Nat) (s : Flood α) : Flood α :=
  let ix := (ind2sub_3D i G.size_x G.size_y).1
  let iy := (ind2sub_3D i G.size_x G.size_y).2.1
  let iz := (ind2sub_3D i G.size_x G.size_y).2.2
  let sx := G.size_x
  let sy := G.size_y
  let s := { s with voxel_counter := s.voxel_counter + 1 }
  -- 1-jump neighbours
  let s := if ix > 0 then relax dom i (sub2ind_3D (ix-1) iy iz sx sy) G.dX s else s
  let s := if ix < G.end_x then relax dom i (sub2ind_3D (ix+1) iy iz sx sy) G.dX s else s
  let s := if iy > 0 then relax dom i (sub2ind_3D ix (iy-1) iz sx sy) G.dY s else s
  let s := if iy < G.end_y then relax dom i (sub2ind_3D ix (iy+1) iz sx sy) G.dY s else s
  let s := if iz > 0 then relax dom i (sub2ind_3D ix iy (iz-1) sx sy) G.dZ s else s
  let s := if iz < G.end_z then relax dom i (sub2ind_3D ix iy (iz+1) sx sy) G.dZ s else s
  -- 2-jump neighbours
  let s := if ix > 0 ∧ iy > 0 then
    relax dom i (sub2ind_3D (ix-1) (iy-1) iz sx sy) (G.dia_xy sq) s else s
  let s := if ix > 0 ∧ iy < G.end_y then
    relax dom i (sub2ind_3D (ix-1) (iy+1) iz sx sy) (G.dia_xy sq) s else s
  let s := if ix < G.end_x ∧ iy > 0 then
    relax dom i (sub2ind_3D (ix+1) (iy-1) iz sx sy) (G.dia_xy sq) s else s
  let s := if ix < G.end_x ∧ iy < G.end_y then
    relax dom i (sub2ind_3D (ix+1) (iy+1) iz sx sy) (G.dia_xy sq) s else s
  let s := if iy > 0 ∧ iz > 0 then
    relax dom i (sub2ind_3D ix (iy-1) (iz-1) sx sy) (G.dia_yz sq) s else s
  let s := if iy > 0 ∧ iz < G.end_z then
    relax dom i (sub2ind_3D ix (iy-1) (iz+1) sx sy) (G.dia_yz sq) s else s
  let s := if iy < G.end_y ∧ iz > 0 then
    relax dom i (sub2ind_3D ix (iy+1) (iz-1) sx sy) (G.dia_yz sq) s else s
  let s := if iy < G.end_y ∧ iz < G.end_z then
    relax dom i (sub2ind_3D ix (iy+1) (iz+1) sx sy) (G.dia_yz sq) s else s
  let s := if ix > 0 ∧ iz > 0 then
    relax dom i (sub2ind_3D (ix-1) iy (iz-1) sx sy) (G.dia_xz sq) s else s
  let s := if ix < G.end_x ∧ iz > 0 then
    relax dom i (sub2ind_3D (ix+1) iy (iz-1) sx sy) (G.dia_xz sq) s else s
  let s := if ix > 0 ∧ iz < G.end_z then
    relax dom i (sub2ind_3D (ix-1) iy (iz+1) sx sy) (G.dia_xz sq) s else s
  let s := if ix < G.end_x ∧ iz < G.end_z then
    relax dom i (sub2ind_3D (ix+1) iy (iz+1) sx sy) (G.dia_xz sq) s else s
  -- 3-jump neighbours
  let s := if ix > 0 ∧ iy > 0 ∧ iz > 0 then
    relax dom i (sub2ind_3D (ix-1) (iy-1) (iz-1) sx sy) (G.dia_xyz sq) s else s
  let s := if ix > 0 ∧ iy > 0 ∧ iz < G.end_z then
    relax dom i (sub2ind_3D (ix-1) (iy-1) (iz+1) sx sy) (G.dia_xyz sq) s else s
  let s := if ix > 0 ∧ iy < G.end_y ∧ iz > 0 then
    relax dom i (sub2ind_3D (ix-1) (iy+1) (iz-1) sx sy) (G.dia_xyz sq) s else s
  let s := if ix < G.end_x ∧ iy > 0 ∧ iz > 0 then
    relax dom i (sub2ind_3D (ix+1) (iy-1) (iz-1) sx sy) (G.dia_xyz sq) s else s
  let s := if ix > 0 ∧ iy < G.end_y ∧ iz < G.end_z then
    relax dom i (sub2ind_3D (ix-1) (iy+1) (iz+1) sx sy) (G.dia_xyz sq) s else s
  let s := if ix < G.end_x ∧ iy > 0 ∧ iz < G.end_z then
    relax dom i (sub2ind_3D (ix+1) (iy-1) (iz+1) sx sy) (G.dia_xyz sq) s else s
  let s := if ix < G.end_x ∧ iy < G.end_y ∧ iz > 0 then
    relax dom i (sub2ind_3D (ix+1) (iy+1) (iz-1) sx sy) (G.dia_xyz sq) s else s
  let s := if ix < G.end_x ∧ iy < G.end_y ∧ iz < G.end_z then
    relax dom i (sub2ind_3D (ix+1) (iy+1) (iz+1) sx sy) (G.dia_xyz sq) s else s
  -- Update maximum distance reached
  if s.flood_dist i > s.temp_max_dist then { s with temp_max_dist := s.flood_dist i } else s

/-- Lines 231-558: the body of the inner `for` loop for one entry `i` of
`voi_id`. -/
def visit (sq : α → α) (G : Grid α) (dom : Nat → Int) (s : Flood α) (i : Nat) : Flood α :=
  if s.flood_step i = s.grow_step then expand sq G dom i s else s

/-- Lines 229-560: one sweep, the body of the `while` loop. -/
def sweep (sq : α → α) (G : Grid α) (dom : Nat → Int) (voi : List Nat) (s : Flood α) :
    Flood α :=
  let s := voi.foldl (visit sq G dom) { s with voxel_counter := 0 }
  { s with grow_step := s.grow_step + 1 }

/-- Line 228, second conjunct: `temp_max_dist < max_dist`. -/
def below_cutoff (t : α) : Option α → Bool
  | none => true
  | some max_dist => decide (t < max_dist)

/-- Line 228: the loop condition. -/
def continues (max_dist : Option α) (s : Flood α) : Bool :=
  decide (s.voxel_counter ≠ 0) && below_cutoff s.temp_max_dist max_dist

/-- Lines 228-561: the `while` loop, run with a bound on the number of
sweeps; `none` when the bound is used up before the loop condition fails. -/
def flood_loop (sq : α → α) (G : Grid α) (dom : Nat → Int) (voi : List Nat)
    (max_dist : Option α) : Nat → Flood α → Option (Flood α)
  | 0, s => if continues max_dist s then none else some s
  | fuel + 1, s =>
      if continues max_dist s then flood_loop sq G dom voi max_dist fuel (sweep sq G dom voi s)
      else some s

/-- Lines 134-561: the state when the `while` loop is left, for the domain
image `dom`, the raw init image `raw`, the optional `-init_val` and the
optional `-max_dist`. -/
def geodistance (sq : α → α) (G : Grid α) (dom raw : Nat → Int) (mode_init_val : Option Int)
    (max_dist : Option α) (fuel : Nat) : Option (Flood α) :=
  flood_loop sq G dom (voi_id dom G.nr_voxels) max_dist fuel
    (init_flood G raw (label_init mode_init_val raw G.nr_voxels).1)

end Propagation

/-! ## The neighbour table

The 26 unrolled blocks of `expand`, as a table of offsets and weights in
source order.  `expand_table` runs the table; `expand_eq_table` (below) shows
that it is the same function as the unrolled `expand`. -/

/-- One neighbour block: the offset on each axis (`-1`, `0` or `1`) and the
weight the block adds. -/
structure Nbr (α : Type) where
  a : Int
  b : Int
  c : Int
  w : α

/-- The bounds test of a block on one axis: `i > 0` for offset `-1`,
`i < end` for offset `+1`, nothing for offset `0`. -/
def guard_axis (o : Int) (i e : Nat) : Prop := (o < 0 → 0 < i) ∧ (0 < o → i < e)

instance (o : Int) (i e : Nat) : Decidable (guard_axis o i e) := by
  unfold guard_axis; infer_instance

/-- The coordinate a block passes to `sub2ind_3D` on one axis. -/
def shift_axis (o : Int) (i : Nat) : Nat := if o < 0 then i - 1 else if 0 < o then i + 1 else i

section Table

variable {α : Type} [LinearOrderedField α]

/-- The blocks of lines 239-552, in source order. -/
def nbr_table (sq : α → α) (G : Grid α) : List (Nbr α) :=
  [ ⟨-1, 0, 0, G.dX⟩, ⟨1, 0, 0, G.dX⟩, ⟨0, -1, 0, G.dY⟩, ⟨0, 1, 0, G.dY⟩,
    ⟨0, 0, -1, G.dZ⟩, ⟨0, 0, 1, G.dZ⟩,
    ⟨-1, -1, 0, G.dia_xy sq⟩, ⟨-1, 1, 0, G.dia_xy sq⟩, ⟨1, -1, 0, G.dia_xy sq⟩,
    ⟨1, 1, 0, G.dia_xy sq⟩,
    ⟨0, -1, -1, G.dia_yz sq⟩, ⟨0, -1, 1, G.dia_yz sq⟩, ⟨0, 1, -1, G.dia_yz sq⟩,
    ⟨0, 1, 1, G.dia_yz sq⟩,
    ⟨-1, 0, -1, G.dia_xz sq⟩, ⟨1, 0, -1, G.dia_xz sq⟩, ⟨-1, 0, 1, G.dia_xz sq⟩,
    ⟨1, 0, 1, G.dia_xz sq⟩,
    ⟨-1, -1, -1, G.dia_xyz sq⟩, ⟨-1, -1, 1, G.dia_xyz sq⟩, ⟨-1, 1, -1, G.dia_xyz sq⟩,
    ⟨1, -1, -1, G.dia_xyz sq⟩, ⟨-1, 1, 1, G.dia_xyz sq⟩, ⟨1, -1, 1, G.dia_xyz sq⟩,
    ⟨1, 1, -1, G.dia_xyz sq⟩, ⟨1, 1, 1, G.dia_xyz sq⟩ ]

/-- The index of the neighbour of `i` that the block `e` addresses. -/
def nbr_index (G : Grid α) (i : Nat) (e : Nbr α) : Nat :=
  sub2ind_3D (shift_axis e.a (ind2sub_3D i G.size_x G.size_y).1)
    (shift_axis e.b (ind2sub_3D i G.size_x G.size_y).2.1)
    (shift_axis e.c (ind2sub_3D i G.size_x G.size_y).2.2) G.size_x G.size_y

/-- The bounds test of the block `e` at the voxel `i`. -/
def nbr_guard (G : Grid α) (i : Nat) (e : Nbr α) : Prop :=
  guard_axis e.a (ind2sub_3D i G.size_x G.size_y).1 G.end_x ∧
  guard_axis e.b (ind2sub_3D i G.size_x G.size_y).2.1 G.end_y ∧
  guard_axis e.c (ind2sub_3D i G.size_x G.size_y).2.2 G.end_z

instance (G : Grid α) (i : Nat) (e : Nbr α) : Decidable (nbr_guard G i e) := by
  unfold nbr_guard; infer_instance

/-- One block, driven by its table entry. -/
def relax_nbr (G : Grid α) (dom : Nat → Int) (i : Nat) (s : Flood α) (e : Nbr α) : Flood α :=
  if nbr_guard G i e then relax dom i (nbr_index G i e) e.w s else s

/-- Line 554-557: the update of the running maximum. -/
def update_max (i : Nat) (s : Flood α) : Flood α :=
  if s.flood_dist i > s.temp_max_dist then { s with temp_max_dist := s.flood_dist i } else s

/-- The expansion of one active voxel as a loop over the table. -/
def expand_table (sq : α → α) (G : Grid α) (dom : Nat → Int) (i : Nat) (s : Flood α) :
    Flood α :=
  update_max i ((nbr_table sq G).foldl (relax_nbr G dom i)
    { s with voxel_counter := s.voxel_counter + 1 })

end Table

/-! ## Paths in the domain

The vocabulary of the claims about shortest paths: 26-adjacency inside the
grid, the weight of one step, and the lengths of the paths that lead from an
in-domain seed to a voxel without leaving the domain. -/

/-- Two coordinates that differ by at most one. -/
def near (a b : Nat) : Prop := a ≤ b + 1 ∧ b ≤ a + 1

instance (a b : Nat) : Decidable (near a b) := by unfold near; infer_instance

section Paths

variable {α : Type} [LinearOrderedField α]

/-- The voxels `u` and `v` of the grid are distinct 26-neighbours: their
coordinates differ by at most one on every axis. -/
def Adj (G : Grid α) (u v : Nat) : Prop :=
  u < G.nr_voxels ∧ v < G.nr_voxels ∧ u ≠ v ∧
  near (ind2sub_3D u G.size_x G.size_y).1 (ind2sub_3D v G.size_x G.size_y).1 ∧
  near (ind2sub_3D u G.size_x G.size_y).2.1 (ind2sub_3D v G.size_x G.size_y).2.1 ∧
  near (ind2sub_3D u G.size_x G.size_y).2.2 (ind2sub_3D v G.size_x G.size_y).2.2

instance (G : Grid α) (u v : Nat) : Decidable (Adj G u v) := by unfold Adj; infer_instance

/-- The weight of a step, by the axes on which it moves: the spacing for a
face step, the short diagonal for an edge step, the long diagonal for a corner
step. -/
def class_weight (sq : α → α) (G : Grid α) : Bool → Bool → Bool → α
  | true, false, false => G.dX
  | false, true, false => G.dY
  | false, false, true => G.dZ
  | true, true, false => G.dia_xy sq
  | true, false, true => G.dia_xz sq
  | false, true, true => G.dia_yz sq
  | true, true, true => G.dia_xyz sq
  | false, false, false => 0

/-- The weight of the step between the neighbours `u` and `v`. -/
def step_weight (sq : α → α) (G : Grid α) (u v : Nat) : α :=
  class_weight sq G
    (decide ((ind2sub_3D u G.size_x G.size_y).1 ≠ (ind2sub_3D v G.size_x G.size_y).1))
    (decide ((ind2sub_3D u G.size_x G.size_y).2.1 ≠ (ind2sub_3D v G.size_x G.size_y).2.1))
    (decide ((ind2sub_3D u G.size_x G.size_y).2.2 ≠ (ind2sub_3D v G.size_x G.size_y).2.2))

/-- The relation `Reach sq G dom init v l`: some 26-connected path that starts
at an in-domain seed (`init ≠ 0`), stays inside the domain and ends at `v` has
the summed weight `l` (the weight 0 for the path that is a seed alone). -/
inductive Reach (sq : α → α) (G : Grid α) (dom init : Nat → Int) : Nat → α → Prop
  | seed (v : Nat) : v < G.nr_voxels → dom v > 0 → init v ≠ 0 → Reach sq G dom init v 0
  | step (u v : Nat) (l : α) : Reach sq G dom init u l → Adj G u v → dom v > 0 →
      Reach sq G dom init v (l + step_weight sq G u v)

end Paths

/-! ## Invariants of the flooding loop -/

section Invariants

variable {α : Type} [LinearOrderedField α]

/-- The smallest of the seven neighbour weights. -/
def w_min (sq : α → α) (G : Grid α) : α :=
  min G.dX (min G.dY (min G.dZ (min (G.dia_xy sq) (min (G.dia_xz sq)
    (min (G.dia_yz sq) (G.dia_xyz sq))))))

/-- The largest of the seven neighbour weights. -/
def w_max (sq : α → α) (G : Grid α) : α :=
  max G.dX (max G.dY (max G.dZ (max (G.dia_xy sq) (max (G.dia_xz sq)
    (max (G.dia_yz sq) (G.dia_xyz sq))))))

/-- The number of voxels of the grid whose distance is not zero. -/
def reached (n : Nat) (s : Flood α) : Nat :=
  (List.range n).countP (fun v => decide (s.flood_dist v ≠ 0))

/-- What holds of the flood volumes at every point of the run: the sweep
counter is positive; no generation is ahead of the next sweep; a voxel of
generation `g ≥ 1` is at least `g - 1` smallest steps away from a seed; seeds
keep half a voxel; every non-zero distance in the domain is half a voxel plus
the weight of a path from a seed; and a non-zero distance is bounded through
the number of voxels reached. -/
structure Inv (sq : α → α) (G : Grid α) (dom init : Nat → Int) (s : Flood α) : Prop where
  grow_pos : 1 ≤ s.grow_step
  step_le : ∀ v, v < G.nr_voxels → s.flood_step v ≤ s.grow_step + 1
  lower : ∀ v, v < G.nr_voxels → s.flood_step v ≠ 0 →
    1 ≤ s.flood_step v ∧
    G.dist_to_axes + (((s.flood_step v : Int) : α) - 1) * w_min sq G ≤ s.flood_dist v
  seed : ∀ v, v < G.nr_voxels → init v ≠ 0 → s.flood_dist v = G.dist_to_axes
  sound : ∀ v, v < G.nr_voxels → dom v > 0 → s.flood_dist v ≠ 0 →
    Reach sq G dom init v (s.flood_dist v - G.dist_to_axes)
  upper : ∀ v, v < G.nr_voxels → s.flood_dist v ≠ 0 →
    s.flood_dist v + w_max sq G ≤ G.dist_to_axes + (reached G.nr_voxels s : α) * w_max sq G

/-- The voxel `u` has been relaxed against all its in-domain neighbours with
its present distance. -/
def SettledAt (sq : α → α) (G : Grid α) (dom : Nat → Int) (s : Flood α) (u : Nat) : Prop :=
  ∀ v, Adj G u v → dom v > 0 →
    s.flood_dist v ≠ 0 ∧ s.flood_dist v ≤ s.flood_dist u + step_weight sq G u v

/-- Every reached in-domain voxel whose generation is older than the running
sweep, or equal to it when the sweep has already passed the voxel (`done`),
is settled. -/
def Settled (sq : α → α) (G : Grid α) (dom : Nat → Int) (done : Nat → Prop) (s : Flood α) :
    Prop :=
  ∀ u, u < G.nr_voxels → dom u > 0 → s.flood_dist u ≠ 0 →
    (s.flood_step u < s.grow_step ∨ (s.flood_step u = s.grow_step ∧ done u)) →
    SettledAt sq G dom s u

end Invariants

section Boundary

variable {α : Type} [LinearOrderedField α]

/-- What holds between two sweeps: the running invariant; every reached
in-domain voxel of an older generation is settled; no generation is ahead of
the sweep counter; and when the last sweep expanded no voxel, every in-domain
generation is older than the sweep counter. -/
structure BInv (sq : α → α) (G : Grid α) (dom init : Nat → Int) (s : Flood α) : Prop where
  inv : Inv sq G dom init s
  settled : Settled sq G dom (fun _ => False) s
  step_le : ∀ v, v < G.nr_voxels → s.flood_step v ≤ s.grow_step
  conv : s.voxel_counter = 0 → ∀ v, v < G.nr_voxels → dom v > 0 → s.flood_step v < s.grow_step

end Boundary

/-! ## The states of a run

Every state the program passes through, from the state `s0` on entry to the
`while` loop, arises by the steps below: a relaxation of one neighbour block
from an active voxel of the index set, a change of the counter of expanded
voxels, a change of the running maximum, or an increment of the sweep
counter.  (The closure is larger than the set of states really visited: it
ignores the order of the steps.) -/

section RunStates

variable {α : Type} [LinearOrderedField α]

/-- The states reachable from `s0` by the steps of the loop. -/
inductive Run (sq : α → α) (G : Grid α) (dom : Nat → Int) (s0 : Flood α) : Flood α → Prop
  | start : Run sq G dom s0 s0
  | relax (s : Flood α) (i : Nat) (e : Nbr α) : Run sq G dom s0 s → i < G.nr_voxels →
      dom i > 0 → s.flood_step i = s.grow_step → e ∈ nbr_table sq G → nbr_guard G i e →
      Run sq G dom s0 (relax dom i (nbr_index G i e) e.w s)
  | counter (s : Flood α) (c : Nat) : Run sq G dom s0 s →
      Run sq G dom s0 { s with voxel_counter := c }
  | tmax (s : Flood α) (t : α) : Run sq G dom s0 s →
      Run sq G dom s0 { s with temp_max_dist := t }
  | grow (s : Flood α) : Run sq G dom s0 s →
      Run sq G dom s0 { s with grow_step := s.grow_step + 1 }

end RunStates

/-! ## Hop distance in the domain

The vocabulary of the claim about the number of sweeps: the domain voxels
within `k` hops of a voxel, and a bound on the hop diameter of the domain. -/

section Hops

variable {α : Type} [LinearOrderedField α]

/-- The domain voxels that a 26-connected path of at most `k` hops inside the
domain joins to `u`. -/
def hop_ball (G : Grid α) (dom : Nat → Int) (u : Nat) : Nat → List Nat
  | 0 => [u]
  | k + 1 => (List.range G.nr_voxels).filter (fun v =>
      decide (dom v > 0) && (hop_ball G dom u k).any (fun x => decide (x = v ∨ Adj G x v)))

/-- Any two domain voxels are at most `D` hops apart: the domain is connected
and its hop diameter is at most `D`. -/
def hop_diameter_le (G : Grid α) (dom : Nat → Int) (D : Nat) : Prop :=
  ∀ u ∈ voi_id dom G.nr_voxels, ∀ v ∈ voi_id dom G.nr_voxels, v ∈ hop_ball G dom u D

instance (G : Grid α) (dom : Nat → Int) (D : Nat) : Decidable (hop_diameter_le G dom D) := by
  unfold hop_diameter_le; infer_instance

end Hops

/-! ## Command line (lines 28-92) and output (lines 563-575) -/

/-- The variables that option processing sets (lines 30-36).  The arguments of
`-max_dist` and `-init_val` are kept as the text handed to `atof`. -/
structure Options where
  fin1 : Option String
  fin2 : Option String
  fout : Option String
  use_outpath : Bool
  mode_smooth : Bool
  mode_init_val : Bool
  mode_max_dist : Bool
  max_dist_text : Option String
  init_val_text : Option String
  deriving DecidableEq

/-- Lines 30-36: the initial values. -/
def Options.initial : Options :=
  { fin1 := none, fin2 := none, fout := none, use_outpath := false, mode_smooth := true,
    mode_init_val := false, mode_max_dist := false, max_dist_text := none,
    init_val_text := none }

/-- What option processing ends with: a `return` with an exit code, or the
options with which the program goes on to read its inputs. -/
inductive Outcome where
  | exit (code : Nat)
  | proceed (o : Options)
  deriving DecidableEq

/-- Line 41: `!strncmp(argv[ac], "-h", 2)`, the first two characters are `-h`. -/
def starts_help (t : String) : Bool := t.data.take 2 == ['-', 'h']

/-- Lines 40-83: the option loop over the arguments that follow `argv[0]`. -/
def parse_loop : List String → Options → Outcome
  | [], o => Outcome.proceed o
  | [t], o =>
      if starts_help t then Outcome.exit 0
      else if t = "-init" then Outcome.exit 1
      else if t = "-domain" then Outcome.exit 1
      else if t = "-max_dist" then Outcome.exit 1
      else if t = "-init_val" then Outcome.exit 1
      else if t = "-output" then Outcome.exit 1
      else if t = "-no_smooth" then Outcome.proceed { o with mode_smooth := false }
      else Outcome.exit 1
  | t :: v :: rest, o =>
      if starts_help t then Outcome.exit 0
      else if t = "-init" then parse_loop rest { o with fin1 := some v, fout := some v }
      else if t = "-domain" then parse_loop rest { o with fin2 := some v }
      else if t = "-max_dist" then
        parse_loop rest { o with mode_max_dist := true, max_dist_text := some v }
      else if t = "-init_val" then
        parse_loop rest { o with mode_init_val := true, init_val_text := some v }
      else if t = "-output" then parse_loop rest { o with fout := some v, use_outpath := true }
      else if t = "-no_smooth" then parse_loop (v :: rest) { o with mode_smooth := false }
      else Outcome.exit 1

/-- Lines 39-92: option processing for the arguments `args` that follow
`argv[0]` (so `argc = args.length + 1`). -/
def process_options (args : List String) : Outcome :=
  if args.length + 1 < 2 then Outcome.exit 0
  else
    match parse_loop args Options.initial with
    | Outcome.exit code => Outcome.exit code
    | Outcome.proceed o =>
        if o.fin1.isNone then Outcome.exit 1
        else if o.fin2.isNone then Outcome.exit 1
        else Outcome.proceed o

/-- Lines 563-570: whether the smoothing pass is run. -/
def smooth_decision (o : Options) : Bool :=
  if o.mode_max_dist then false else o.mode_smooth

/-- Lines 563-575: the field handed to `save_output_nifti`; the library
routine `iterative_smoothing` is a parameter. -/
def saved_field {α : Type} (iterative_smoothing : (Nat → α) → Nat → (Nat → Int) → Int → Nat → α)
    (o : Options) (nii_domain : Nat → Int) (flood_dist : Nat → α) : Nat → α :=
  if smooth_decision o then iterative_smoothing flood_dist 3 nii_domain 1 else flood_dist

/-! ### The vocabulary of the claims about the command line -/

/-- The options that are followed by a value. -/
def takes_value (t : String) : Bool :=
  t = "-init" || t = "-domain" || t = "-max_dist" || t = "-init_val" || t = "-output"

/-- The six options of the program. -/
def known_option (t : String) : Bool := takes_value t || t = "-no_smooth"

/-- The tokens in option position, scanning left to right: the token after a
value-taking option is its value and is skipped. -/
def option_tokens : List String → List String
  | [] => []
  | [t] => [t]
  | t :: v :: rest =>
      if takes_value t then t :: option_tokens rest else t :: option_tokens (v :: rest)

/-- A value-taking option in option position is the last token. -/
def dangling : List String → Bool
  | [] => false
  | [t] => takes_value t
  | t :: v :: rest => if takes_value t then dangling rest else dangling (v :: rest)

/-! ## Diffusion weights (`LN3_NOLAD.cpp`)

The weights that `LN3_NOLAD` derives from the three eigenvalues of the
Hessian at one voxel, in exact arithmetic. -/

section DiffusionWeights

variable {α : Type} [LinearOrderedField α]

/-- The call `std::copysignf(1.0f, x)` of lines 233-235: 1 with the sign of
`x`.  A `float` zero carries a sign bit that its value does not show; `neg` is
that bit, read only when `x` is zero. -/
def copysignf_one (neg : Bool) (x : α) : α :=
  if x < 0 ∨ (x = 0 ∧ neg = true) then -1 else 1

/-- Lines 232-254 of `LN3_NOLAD.cpp`, the body of the loop for one voxel: the
signs, the compositional closure, the reclosure and the reassignment of the
signs.  The result is `(data_diffw1[i], data_diffw2[i], data_diffw3[i])`;
`neg1`, `neg2`, `neg3` are the sign bits of the eigenvalues. -/
def diffusion_weights (neg1 neg2 neg3 : Bool) (eigval1 eigval2 eigval3 : α) : α × α × α :=
  let sign1 := copysignf_one neg1 eigval1
  let sign2 := copysignf_one neg2 eigval2
  let sign3 := copysignf_one neg3 eigval3
  let eigvalsum := |eigval1| + |eigval2| + |eigval3|
  if eigvalsum = 0 then (0, 0, 0)
  else
    let diffw1 := 1 - |eigval1| / eigvalsum
    let diffw2 := 1 - |eigval2| / eigvalsum
    let diffw3 := 1 - |eigval3| / eigvalsum
    let eigvalsum := diffw1 + diffw2 + diffw3
    let diffw1 := diffw1 / eigvalsum
    let diffw2 := diffw2 / eigvalsum
    let diffw3 := diffw3 / eigvalsum
    (diffw1 * sign1, diffw2 * sign2, diffw3 * sign3)

end DiffusionWeights

/-! ## Functional sensitivity (`LN2_SENSITIVITY.cpp`)

The voxel-wise loop of `LN2_SENSITIVITY`: the input is the flat 4D buffer
`nii_input1_data`, in which the response of voxel `i` to task `t` is stored at
`i + nr_voxels * t`. -/

section Sensitivity

variable {α : Type} [LinearOrderedField α]

/-- Lines 119-126 of `LN2_SENSITIVITY.cpp`: the loop across time points for
the voxel `i`; a negative value is zeroed before it is squared and added. -/
def sum_sq (nii_input1_data : Nat → α) (nr_voxels size_time i : Nat) : α :=
  (List.range size_time).foldl (fun sum_sq t =>
    let val := nii_input1_data (i + nr_voxels * t)
    let val := if val < 0 then 0 else val
    sum_sq + val * val) 0

/-- Lines 100-102 of `LN2_SENSITIVITY.cpp`: the output buffer, a copy of the
input, is set to zero at the voxels of the volume. -/
def zero_output (nii_sensitivity_data : Nat → α) (nr_voxels : Nat) : Nat → α :=
  (List.range nr_voxels).foldl (fun out i => Function.update out i 0) nii_sensitivity_data

/-- Lines 117-130 of `LN2_SENSITIVITY.cpp`: the loop across voxels, which
stores `sqrt(sum_sq)` at every voxel of the output. -/
def sensitivity (sq : α → α) (nii_input1_data : Nat → α) (nr_voxels size_time : Nat) :
    Nat → α :=
  (List.range nr_voxels).foldl
    (fun out i => Function.update out i (sq (sum_sq nii_input1_data nr_voxels size_time i)))
    (zero_output nii_input1_data nr_voxels)

end Sensitivity

/-! ## The sweep with checked buffer accesses

The flood volumes, the domain image and the init image are buffers of
`nr_voxels` entries.  The functions below are the sweep with every access to
a buffer checked: they return `none` as soon as a block or the test of the
generation would read or write at an index that is not below `nr_voxels`. -/

section Checked

variable {α : Type} [LinearOrderedField α]

/-- Lines 241-248 with the accesses checked: the block reads `flood_dist[i]`,
`nii_domain_data[j]` and `flood_dist[j]` and writes `flood_dist[j]` and
`flood_step[j]`. -/
def relax_checked (nr_voxels : Nat) (dom : Nat → Int) (i j : Nat) (w : α) (s : Flood α) :
    Option (Flood α) :=
  if i < nr_voxels ∧ j < nr_voxels then some (relax dom i j w s) else none

/-- One block of the table with the accesses checked. -/
def relax_nbr_checked (G : Grid α) (dom : Nat → Int) (i : Nat) (t : Option (Flood α))
    (e : Nbr α) : Option (Flood α) :=
  t.bind (fun s =>
    if nbr_guard G i e then relax_checked G.nr_voxels dom i (nbr_index G i e) e.w s
    else some s)

/-- Lines 231-558 with the accesses checked: the test of the generation reads
`flood_step[i]`, the blocks follow, and the running maximum reads
`flood_dist[i]`. -/
def visit_checked (sq : α → α) (G : Grid α) (dom : Nat → Int) (t : Option (Flood α))
    (i : Nat) : Option (Flood α) :=
  t.bind (fun s =>
    if i < G.nr_voxels then
      if s.flood_step i = s.grow_step then
        ((nbr_table sq G).foldl (relax_nbr_checked G dom i)
          (some { s with voxel_counter := s.voxel_counter + 1 })).map (update_max i)
      else some s
    else none)

/-- Lines 229-560 with the accesses checked. -/
def sweep_checked (sq : α → α) (G : Grid α) (dom : Nat → Int) (voi : List Nat) (s : Flood α) :
    Option (Flood α) :=
  (voi.foldl (visit_checked sq G dom) (some { s with voxel_counter := 0 })).map
    (fun s => { s with grow_step := s.grow_step + 1 })

end Checked

/-! ## The log of the expansions

The sweep again, with a log that the program does not keep: whenever a voxel
is expanded, the distance it holds at that moment is appended to the log.
The first component of the result is the state of the program. -/

section ExpansionLog

variable {α : Type} [LinearOrderedField α]

/-- Lines 231-558 with the log: the body of the inner `for` loop. -/
def visit_log (sq : α → α) (G : Grid α) (dom : Nat → Int) (p : Flood α × List α) (i : Nat) :
    Flood α × List α :=
  if p.1.flood_step i = p.1.grow_step then
    (expand sq G dom i p.1, p.2 ++ [p.1.flood_dist i])
  else p

/-- Lines 229-560 with the log: one sweep. -/
def sweep_log (sq : α → α) (G : Grid α) (dom : Nat → Int) (voi : List Nat)
    (p : Flood α × List α) : Flood α × List α :=
  let q := voi.foldl (visit_log sq G dom) ({ p.1 with voxel_counter := 0 }, p.2)
  ({ q.1 with grow_step := q.1.grow_step + 1 }, q.2)

end ExpansionLog
/-! ## What the cutoff bounds -/

section CutoffInvariant

variable {α : Type} [LinearOrderedField α]

/-- The state in the middle of the sweep with counter `g`, entered with the
running maximum `T0`, for a cutoff `M` and a bound `W` on the neighbour
weights; `c` is the distance of the voxel under expansion (`T0` between two
expansions).  The voxels of the running generation lie within `T0 + W`, the
voxels of the next generation within `W` of the running maximum or of `c`,
and every distance is below `M + 2 W`. -/
structure CutInv (G : Grid α) (W M T0 c : α) (g : Int) (s : Flood α) : Prop where
  grow : s.grow_step = g
  tmax : T0 ≤ s.temp_max_dist
  step_le : ∀ v, v < G.nr_voxels → s.flood_step v ≤ g + 1
  cur : ∀ v, v < G.nr_voxels → s.flood_step v = g → s.flood_dist v ≤ T0 + W
  next : ∀ v, v < G.nr_voxels → s.flood_step v = g + 1 →
    s.flood_dist v ≤ max s.temp_max_dist c + W
  all : ∀ v, v < G.nr_voxels → s.flood_dist v < M + 2 * W

/-- The state between two sweeps, with the log of the expansions: no
generation is ahead of the sweep counter, the voxels of the generation to be
expanded lie within `W` of the running maximum, every distance is below
`M + 2 W` and every logged distance below `M + W`. -/
structure CutBound (G : Grid α) (W M : α) (p : Flood α × List α) : Prop where
  step_le : ∀ v, v < G.nr_voxels → p.1.flood_step v ≤ p.1.grow_step
  cur : ∀ v, v < G.nr_voxels → p.1.flood_step v = p.1.grow_step →
    p.1.flood_dist v ≤ p.1.temp_max_dist + W
  all : ∀ v, v < G.nr_voxels → p.1.flood_dist v < M + 2 * W
  logged : ∀ d ∈ p.2, d < M + W

end CutoffInvariant

/-! ## Agreement inside the domain -/

section DomainAgreement

variable {α : Type} [LinearOrderedField α]

/-- Two states of the loop agree on the counters, on the running maximum and
on the distance and the generation of every in-domain voxel of the grid. -/
def DomEq (G : Grid α) (dom : Nat → Int) (s t : Flood α) : Prop :=
  s.grow_step = t.grow_step ∧ s.voxel_counter = t.voxel_counter ∧
  s.temp_max_dist = t.temp_max_dist ∧
  ∀ v, v < G.nr_voxels → dom v > 0 →
    s.flood_dist v = t.flood_dist v ∧ s.flood_step v = t.flood_step v

end DomainAgreement

/-! ## Machine arithmetic

The definitions above compute the distances in an exact field and the number
of voxels in `Nat`.  The program computes the distances in `float` and the
number of voxels in `uint32_t`.  Below are the number of voxels as line 119
computes it, the rounding of `float` operations, and the loop again with the
rounding of every `float` operation made explicit.  They serve the claims
whose truth depends on the rounding or on the width of the integers. -/

section MachineIntegers

variable {α : Type} [LinearOrderedField α]

/-- Line 119 in `uint32_t` arithmetic: `nr_voxels = size_z * size_y * size_x`
modulo `2^32`. -/
def Grid.nr_voxels_u32 (G : Grid α) : Nat :=
  ((G.size_z * G.size_y) % 2 ^ 32 * G.size_x) % 2 ^ 32

end MachineIntegers

/-- The binary exponent of a positive rational `a`, found by doubling or
halving `a` at most `fuel` times: started at `e = 0` it returns the `e` with
`2^e <= a < 2^(e+1)`. -/
def float_exponent : Nat → ℚ → Int → Int
  | 0, _, e => e
  | fuel + 1, a, e =>
      if a < 1 then float_exponent fuel (a * 2) (e - 1)
      else if 2 ≤ a then float_exponent fuel (a / 2) (e + 1)
      else e

/-- The power `2^e` of an integer exponent. -/
def two_pow (e : Int) : ℚ := if 0 ≤ e then 2 ^ e.toNat else 1 / 2 ^ (-e).toNat

/-- The integer nearest to `a`, the even one of the two when `a` lies
half-way. -/
def round_half_even (a : ℚ) : Int :=
  if a - ⌊a⌋ < 1 / 2 then ⌊a⌋
  else if 1 / 2 < a - ⌊a⌋ then ⌊a⌋ + 1
  else if ⌊a⌋ % 2 = 0 then ⌊a⌋ else ⌊a⌋ + 1

/-- The `float` (IEEE 754 binary32, 24 significant bits, least exponent
`-126`) nearest to `x`, ties to even: what a `float` operation with the exact
result `x` returns.  Overflow to infinity is not modelled. -/
def round32 (x : ℚ) : ℚ :=
  if x = 0 then 0
  else
    (round_half_even (x / two_pow (max (float_exponent 400 |x| 0) (-126) - 23)) : ℚ)
      * two_pow (max (float_exponent 400 |x| 0) (-126) - 23)

section SinglePrecision

variable {α : Type} [LinearOrderedField α]

/-- Line 126 in `float`: the products, the sum and the root are `float`
operations; `sq` is the root of `float`s. -/
def Grid.dia_xy_fl (fl sq : α → α) (G : Grid α) : α :=
  sq (fl (fl (G.dX * G.dX) + fl (G.dY * G.dY)))

/-- Line 127 in `float`. -/
def Grid.dia_xz_fl (fl sq : α → α) (G : Grid α) : α :=
  sq (fl (fl (G.dX * G.dX) + fl (G.dZ * G.dZ)))

/-- Line 128 in `float`. -/
def Grid.dia_yz_fl (fl sq : α → α) (G : Grid α) : α :=
  sq (fl (fl (G.dY * G.dY) + fl (G.dZ * G.dZ)))

/-- Line 130 in `float`. -/
def Grid.dia_xyz_fl (fl sq : α → α) (G : Grid α) : α :=
  sq (fl (fl (fl (G.dX * G.dX) + fl (G.dY * G.dY)) + fl (G.dZ * G.dZ)))

/-- Line 218 in `float`: two sums and two quotients, each rounded. -/
def Grid.dist_to_axes_fl (fl : α → α) (G : Grid α) : α :=
  fl (fl (fl (fl (G.dX + G.dY) + G.dZ) / 3) / 2)

/-- The state on entry to the `while` loop, with the half voxel of line 218
computed in `float`. -/
def init_flood_fl (fl : α → α) (G : Grid α) (raw init : Nat → Int) : Flood α :=
  let p := init_grow init (G.dist_to_axes_fl fl) G.nr_voxels
    (set_zero G.nr_voxels (raw, fun i => ((raw i : Int) : α)))
  { flood_dist := p.2, flood_step := p.1, grow_step := 1,
    voxel_counter := G.nr_voxels, temp_max_dist := 0 }

/-- Lines 241-248 in `float`: the candidate `d` is the rounded sum. -/
def relax_fl (fl : α → α) (dom : Nat → Int) (i j : Nat) (w : α) (s : Flood α) : Flood α :=
  if dom j > 0 then
    if fl (s.flood_dist i + w) < s.flood_dist j ∨ s.flood_dist j = 0 then
      { s with flood_dist := Function.update s.flood_dist j (fl (s.flood_dist i + w)),
               flood_step := Function.update s.flood_step j (s.grow_step + 1) }
    else s
  else s

/-- Lines 233-557 in `float`: the expansion of one active voxel. -/
def expand_fl (fl sq : α → α) (G : Grid α) (dom : Nat → Int) (i : Nat) (s : Flood α) :
    Flood α :=
  let ix := (ind2sub_3D i G.size_x G.size_y).1
  let iy := (ind2sub_3D i G.size_x G.size_y).2.1
  let iz := (ind2sub_3D i G.size_x G.size_y).2.2
  let sx := G.size_x
  let sy := G.size_y
  let s := { s with voxel_counter := s.voxel_counter + 1 }
  -- 1-jump neighbours
  let s := if ix > 0 then relax_fl fl dom i (sub2ind_3D (ix-1) iy iz sx sy) G.dX s else s
  let s := if ix < G.end_x then relax_fl fl dom i (sub2ind_3D (ix+1) iy iz sx sy) G.dX s else s
  let s := if iy > 0 then relax_fl fl dom i (sub2ind_3D ix (iy-1) iz sx sy) G.dY s else s
  let s := if iy < G.end_y then relax_fl fl dom i (sub2ind_3D ix (iy+1) iz sx sy) G.dY s else s
  let s := if iz > 0 then relax_fl fl dom i (sub2ind_3D ix iy (iz-1) sx sy) G.dZ s else s
  let s := if iz < G.end_z then relax_fl fl dom i (sub2ind_3D ix iy (iz+1) sx sy) G.dZ s else s
  -- 2-jump neighbours
  let s := if ix > 0 ∧ iy > 0 then
    relax_fl fl dom i (sub2ind_3D (ix-1) (iy-1) iz sx sy) (G.dia_xy_fl fl sq) s else s
  let s := if ix > 0 ∧ iy < G.end_y then
    relax_fl fl dom i (sub2ind_3D (ix-1) (iy+1) iz sx sy) (G.dia_xy_fl fl sq) s else s
  let s := if ix < G.end_x ∧ iy > 0 then
    relax_fl fl dom i (sub2ind_3D (ix+1) (iy-1) iz sx sy) (G.dia_xy_fl fl sq) s else s
  let s := if ix < G.end_x ∧ iy < G.end_y then
    relax_fl fl dom i (sub2ind_3D (ix+1) (iy+1) iz sx sy) (G.dia_xy_fl fl sq) s else s
  let s := if iy > 0 ∧ iz > 0 then
    relax_fl fl dom i (sub2ind_3D ix (iy-1) (iz-1) sx sy) (G.dia_yz_fl fl sq) s else s
  let s := if iy > 0 ∧ iz < G.end_z then
    relax_fl fl dom i (sub2ind_3D ix (iy-1) (iz+1) sx sy) (G.dia_yz_fl fl sq) s else s
  let s := if iy < G.end_y ∧ iz > 0 then
    relax_fl fl dom i (sub2ind_3D ix (iy+1) (iz-1) sx sy) (G.dia_yz_fl fl sq) s else s
  let s := if iy < G.end_y ∧ iz < G.end_z then
    relax_fl fl dom i (sub2ind_3D ix (iy+1) (iz+1) sx sy) (G.dia_yz_fl fl sq) s else s
  let s := if ix > 0 ∧ iz > 0 then
    relax_fl fl dom i (sub2ind_3D (ix-1) iy (iz-1) sx sy) (G.dia_xz_fl fl sq) s else s
  let s := if ix < G.end_x ∧ iz > 0 then
    relax_fl fl dom i (sub2ind_3D (ix+1) iy (iz-1) sx sy) (G.dia_xz_fl fl sq) s else s
  let s := if ix > 0 ∧ iz < G.end_z then
    relax_fl fl dom i (sub2ind_3D (ix-1) iy (iz+1) sx sy) (G.dia_xz_fl fl sq) s else s
  let s := if ix < G.end_x ∧ iz < G.end_z then
    relax_fl fl dom i (sub2ind_3D (ix+1) iy (iz+1) sx sy) (G.dia_xz_fl fl sq) s else s
  -- 3-jump neighbours
  let s := if ix > 0 ∧ iy > 0 ∧ iz > 0 then
    relax_fl fl dom i (sub2ind_3D (ix-1) (iy-1) (iz-1) sx sy) (G.dia_xyz_fl fl sq) s else s
  let s := if ix > 0 ∧ iy > 0 ∧ iz < G.end_z then
    relax_fl fl dom i (sub2ind_3D (ix-1) (iy-1) (iz+1) sx sy) (G.dia_xyz_fl fl sq) s else s
  let s := if ix > 0 ∧ iy < G.end_y ∧ iz > 0 then
    relax_fl fl dom i (sub2ind_3D (ix-1) (iy+1) (iz-1) sx sy) (G.dia_xyz_fl fl sq) s else s
  let s := if ix < G.end_x ∧ iy > 0 ∧ iz > 0 then
    relax_fl fl dom i (sub2ind_3D (ix+1) (iy-1) (iz-1) sx sy) (G.dia_xyz_fl fl sq) s else s
  let s := if ix > 0 ∧ iy < G.end_y ∧ iz < G.end_z then
    relax_fl fl dom i (sub2ind_3D (ix-1) (iy+1) (iz+1) sx sy) (G.dia_xyz_fl fl sq) s else s
  let s := if ix < G.end_x ∧ iy > 0 ∧ iz < G.end_z then
    relax_fl fl dom i (sub2ind_3D (ix+1) (iy-1) (iz+1) sx sy) (G.dia_xyz_fl fl sq) s else s
  let s := if ix < G.end_x ∧ iy < G.end_y ∧ iz > 0 then
    relax_fl fl dom i (sub2ind_3D (ix+1) (iy+1) (iz-1) sx sy) (G.dia_xyz_fl fl sq) s else s
  let s := if ix < G.end_x ∧ iy < G.end_y ∧ iz < G.end_z then
    relax_fl fl dom i (sub2ind_3D (ix+1) (iy+1) (iz+1) sx sy) (G.dia_xyz_fl fl sq) s else s
  -- Update maximum distance reached
  if s.flood_dist i > s.temp_max_dist then { s with temp_max_dist := s.flood_dist i } else s

/-- Lines 231-558 in `float`: the body of the inner `for` loop. -/
def visit_fl (fl sq : α → α) (G : Grid α) (dom : Nat → Int) (s : Flood α) (i : Nat) :
    Flood α :=
  if s.flood_step i = s.grow_step then expand_fl fl sq G dom i s else s

/-- Lines 229-560 in `float`: one sweep. -/
def sweep_fl (fl sq : α → α) (G : Grid α) (dom : Nat → Int) (voi : List Nat) (s : Flood α) :
    Flood α :=
  let s := voi.foldl (visit_fl fl sq G dom) { s with voxel_counter := 0 }
  { s with grow_step := s.grow_step + 1 }

/-- Lines 228-561 in `float`: the `while` loop, run with a bound on the number
of sweeps. -/
def flood_loop_fl (fl sq : α → α) (G : Grid α) (dom : Nat → Int) (voi : List Nat)
    (max_dist : Option α) : Nat → Flood α → Option (Flood α)
  | 0, s => if continues max_dist s then none else some s
  | fuel + 1, s =>
      if continues max_dist s then
        flood_loop_fl fl sq G dom voi max_dist fuel (sweep_fl fl sq G dom voi s)
      else some s

/-- Lines 134-561 in `float`: the state when the `while` loop is left. -/
def geodistance_fl (fl sq : α → α) (G : Grid α) (dom raw : Nat → Int)
    (mode_init_val : Option Int) (max_dist : Option α) (fuel : Nat) : Option (Flood α) :=
  flood_loop_fl fl sq G dom (voi_id dom G.nr_voxels) max_dist fuel
    (init_flood_fl fl G raw (label_init mode_init_val raw G.nr_voxels).1)

end SinglePrecision

/-! ## Domain index -/

theorem count_voi_succ (dom : Nat → Int) (n : Nat) :
    count_voi dom (n + 1) = if dom n > 0 then count_voi dom n + 1 else count_voi dom n := by
  simp [count_voi, List.range_succ, List.foldl_append]

theorem fill_voi_succ (dom : Nat → Int) (n : Nat) (buf : List Nat) :
    fill_voi dom (n + 1) buf =
      if dom n > 0 then ((fill_voi dom n buf).1.set (fill_voi dom n buf).2 n,
        (fill_voi dom n buf).2 + 1) else fill_voi dom n buf := by
  simp [fill_voi, List.range_succ, List.foldl_append]

theorem count_voi_eq_length (dom : Nat → Int) (n : Nat) :
    count_voi dom n = ((List.range n).filter (fun i => decide (dom i > 0))).length := by
  induction n with
  | zero => simp [count_voi]
  | succ n ih =>
    rw [count_voi_succ, List.range_succ, List.filter_append, List.length_append, ← ih]
    by_cases h : dom n > 0 <;> simp [h]

theorem take_set_self {β : Type} (l : List β) (k : Nat) (a : β) :
    (l.set k a).take k = l.take k :=
  List.ext_getElem? fun i => by
    rw [List.getElem?_take, List.getElem?_take]
    split
    · rw [List.getElem?_set_ne (by omega)]
    · rfl

theorem fill_voi_take (dom : Nat → Int) (buf : List Nat) (n : Nat)
    (h : count_voi dom n ≤ buf.length) :
    (fill_voi dom n buf).2 = count_voi dom n ∧
    (fill_voi dom n buf).1.length = buf.length ∧
    (fill_voi dom n buf).1.take (count_voi dom n)
      = (List.range n).filter (fun i => decide (dom i > 0)) := by
  induction n with
  | zero => simp [fill_voi, count_voi]
  | succ n ih =>
    rw [count_voi_succ] at h
    rw [count_voi_succ, fill_voi_succ]
    by_cases hd : dom n > 0
    · simp only [hd, if_true] at h ⊢
      obtain ⟨h1, h2, h3⟩ := ih (by omega)
      refine ⟨by rw [h1], by simp [h2], ?_⟩
      rw [h1, List.take_succ, List.range_succ, List.filter_append, ← h3]
      have hlt : count_voi dom n < (fill_voi dom n buf).1.length := by omega
      simp [take_set_self, hd, hlt]
    · simp only [hd, if_false] at h ⊢
      obtain ⟨h1, h2, h3⟩ := ih h
      refine ⟨h1, h2, ?_⟩
      rw [h3, List.range_succ, List.filter_append]
      simp [hd]

theorem fill_voi_eq_filter (dom : Nat → Int) (buf : List Nat) (n : Nat)
    (h : buf.length = count_voi dom n) :
    (fill_voi dom n buf).1 = (List.range n).filter (fun i => decide (dom i > 0)) := by
  obtain ⟨_, h2, h3⟩ := fill_voi_take dom buf n (le_of_eq h.symm)
  rw [← h3, List.take_of_length_le]
  omega

theorem voi_id_eq_filter (dom : Nat → Int) (n : Nat) :
    voi_id dom n = (List.range n).filter (fun i => decide (dom i > 0)) :=
  fill_voi_eq_filter dom _ n (by simp)

/-- C6: for every domain mask, the buffer `voi_id` left by the fill pass is the
strictly increasing sequence of exactly the indices `i < nr_voxels` with
`mask[i] > 0`; it has `nr_voi` entries and the fill pass ends with
`ii = nr_voi`, for any initial content of the `nr_voi` allocated entries. -/
theorem domain_index_exact (dom : Nat → Int) (nr_voxels : Nat) (buf : List Nat)
    (hbuf : buf.length = count_voi dom nr_voxels) :
    (fill_voi dom nr_voxels buf).1.Sorted (· < ·) ∧
    (∀ i, i ∈ (fill_voi dom nr_voxels buf).1 ↔ i < nr_voxels ∧ dom i > 0) ∧
    (fill_voi dom nr_voxels buf).1.length = count_voi dom nr_voxels ∧
    (fill_voi dom nr_voxels buf).2 = count_voi dom nr_voxels := by
  have hf := fill_voi_eq_filter dom buf nr_voxels hbuf
  obtain ⟨h1, h2, _⟩ := fill_voi_take dom buf nr_voxels (le_of_eq hbuf.symm)
  refine ⟨?_, ?_, by rw [h2, hbuf], h1⟩
  · rw [hf]
    exact List.Pairwise.sublist (List.filter_sublist _) (List.pairwise_lt_range nr_voxels)
  · intro i
    rw [hf]
    simp [List.mem_filter]

theorem domain_index_exact_witness :
    (fill_voi (fun i => if i = 1 then 0 else 1) 3 [7, 7]).1 = [0, 2] ∧
    (fill_voi (fun i => if i = 1 then 0 else 1) 3 [7, 7]).1.Sorted (· < ·) :=
  ⟨by decide, (domain_index_exact (fun i => if i = 1 then 0 else 1) 3 [7, 7] (by decide)).1⟩

/-! ## Seed labelling and initialisation -/

theorem label_init_succ (m : Option Int) (raw : Nat → Int) (n : Nat) :
    label_init m raw (n + 1) = label_step m (label_init m raw n) n := by
  simp [label_init, List.range_succ, List.foldl_append]

/-- The value the labelling pass leaves for a raw init value `v`. -/
theorem label_init_fst (m : Option Int) (raw : Nat → Int) (n i : Nat) :
    (label_init m raw n).1 i =
      if i < n then
        (match m with
          | some init_val => if raw i ≠ init_val then 0 else 1
          | none => raw i)
      else raw i := by
  induction n with
  | zero => simp [label_init]
  | succ n ih =>
    rw [label_init_succ]
    rcases Nat.lt_trichotomy i n with h | h | h
    · have h1 : i < n + 1 := by omega
      have h2 : i ≠ n := by omega
      rw [if_pos h] at ih
      rw [if_pos h1, ← ih]
      cases m with
      | none => simp only [label_step]; split <;> rfl
      | some L => simp only [label_step]; split <;> simp [Function.update_noteq h2]
    · subst h
      have h1 : ¬ i < i := by omega
      rw [if_neg h1] at ih
      rw [if_pos (Nat.lt_succ_self i)]
      cases m with
      | none => simp only [label_step]; split <;> simp [ih]
      | some L => simp only [label_step, ih]; split <;> simp
    · have h1 : ¬ i < n + 1 := by omega
      have h0 : ¬ i < n := by omega
      have h2 : i ≠ n := by omega
      rw [if_neg h0] at ih
      rw [if_neg h1, ← ih]
      cases m with
      | none => simp only [label_step]; split <;> rfl
      | some L => simp only [label_step]; split <;> simp [Function.update_noteq h2]

theorem label_init_ne_zero_iff (m : Option Int) (raw : Nat → Int) (n i : Nat) (hi : i < n) :
    (label_init m raw n).1 i ≠ 0 ↔
      (m = none ∧ raw i ≠ 0) ∨ (∃ L, m = some L ∧ raw i = L) := by
  rw [label_init_fst, if_pos hi]
  cases m with
  | none => simp
  | some L =>
    by_cases h : raw i = L <;> simp [h]

theorem label_init_snd (m : Option Int) (raw : Nat → Int) (n : Nat) :
    (label_init m raw n).2 =
      ((List.range n).filter (fun i => decide ((label_init m raw n).1 i ≠ 0))).length := by
  have key : ∀ k, k ≤ n → (label_init m raw k).2 =
      ((List.range k).filter (fun i => decide ((label_init m raw n).1 i ≠ 0))).length := by
    intro k
    induction k with
    | zero => intro _; simp [label_init]
    | succ k ih =>
      intro hk
      have ih := ih (by omega)
      have hkn : k < n := by omega
      have hfin := label_init_fst m raw n k
      have hcur := label_init_fst m raw k k
      rw [if_pos hkn] at hfin
      rw [if_neg (lt_irrefl k)] at hcur
      rw [label_init_succ, List.range_succ, List.filter_append, List.length_append, ← ih]
      cases m with
      | none =>
        simp only [label_step, hcur] at hfin ⊢
        by_cases h : raw k = 0 <;> simp [h, hfin]
      | some L =>
        simp only [label_step, hcur] at hfin ⊢
        by_cases h : raw k = L <;> simp [h, hfin]
  exact key n le_rfl

/-- C7: a voxel of the init volume is treated as a seed (its relabelled init
value is non-zero, the test of line 222) iff either no `-init_val` was given
and its raw value is non-zero, or `-init_val L` was given and its raw value is
`L` (also for `L = 0`); and `nr_init_voxels` is the number of seed voxels. -/
theorem seed_labeler (mode_init_val : Option Int) (raw : Nat → Int) (nr_voxels i : Nat)
    (hi : i < nr_voxels) :
    ((label_init mode_init_val raw nr_voxels).1 i ≠ 0 ↔
      (mode_init_val = none ∧ raw i ≠ 0) ∨ (∃ L, mode_init_val = some L ∧ raw i = L)) ∧
    (label_init mode_init_val raw nr_voxels).2 =
      ((List.range nr_voxels).filter
        (fun k => decide ((label_init mode_init_val raw nr_voxels).1 k ≠ 0))).length :=
  ⟨label_init_ne_zero_iff mode_init_val raw nr_voxels i hi,
   label_init_snd mode_init_val raw nr_voxels⟩

theorem seed_labeler_witness :
    ((label_init (some 0) (fun k => if k = 1 then 0 else 2) 3).1 1 ≠ 0 ↔
      ((some 0 : Option Int) = none ∧ (fun k => if k = 1 then (0 : Int) else 2) 1 ≠ 0) ∨
      (∃ L, (some 0 : Option Int) = some L ∧ (fun k => if k = 1 then (0 : Int) else 2) 1 = L)) ∧
    (label_init (some 0) (fun k => if k = 1 then 0 else 2) 3).2 =
      ((List.range 3).filter
        (fun k => decide ((label_init (some 0) (fun k => if k = 1 then 0 else 2) 3).1 k ≠ 0))).length :=
  seed_labeler (some 0) (fun k => if k = 1 then 0 else 2) 3 1 (by decide)

section InitProofs

variable {α : Type} [LinearOrderedField α]

theorem set_zero_apply (n : Nat) (p : (Nat → Int) × (Nat → α)) (i : Nat) :
    (set_zero n p).1 i = (if i < n then 0 else p.1 i) ∧
    (set_zero n p).2 i = (if i < n then 0 else p.2 i) := by
  induction n with
  | zero => simp [set_zero]
  | succ n ih =>
    have hs : set_zero (n + 1) p =
        (Function.update (set_zero n p).1 n 0, Function.update (set_zero n p).2 n 0) := by
      simp [set_zero, List.range_succ, List.foldl_append]
    rw [hs]
    by_cases h : i = n
    · subst h; simp
    · simp only [Function.update_noteq h, ih]
      by_cases h1 : i < n
      · simp [h1, Nat.lt_succ_of_lt h1]
      · have : ¬ i < n + 1 := by omega
        simp [h1, this]

omit [LinearOrderedField α] in
theorem init_grow_apply (init : Nat → Int) (d : α) (n : Nat) (p : (Nat → Int) × (Nat → α))
    (i : Nat) :
    (init_grow init d n p).1 i = (if i < n ∧ init i ≠ 0 then 1 else p.1 i) ∧
    (init_grow init d n p).2 i = (if i < n ∧ init i ≠ 0 then d else p.2 i) := by
  induction n with
  | zero => simp [init_grow]
  | succ n ih =>
    have hs : init_grow init d (n + 1) p =
        if init n ≠ 0 then (Function.update (init_grow init d n p).1 n 1,
          Function.update (init_grow init d n p).2 n d) else init_grow init d n p := by
      simp [init_grow, List.range_succ, List.foldl_append]
    rw [hs]
    by_cases h : i = n
    · subst h
      by_cases hz : init i = 0
      · simp [hz, ih]
      · simp [hz]
    · have hiff : (i < n + 1 ∧ init i ≠ 0) ↔ (i < n ∧ init i ≠ 0) := by
        constructor
        · rintro ⟨a, b⟩; exact ⟨by omega, b⟩
        · rintro ⟨a, b⟩; exact ⟨by omega, b⟩
      by_cases hz : init n = 0
      · simp [hz, ih, hiff]
      · simp [hz, Function.update_noteq h, ih, hiff]

theorem init_flood_dist (G : Grid α) (raw init : Nat → Int) (i : Nat) (hi : i < G.nr_voxels) :
    (init_flood G raw init).flood_dist i = if init i ≠ 0 then G.dist_to_axes else 0 := by
  simp only [init_flood]
  rw [(init_grow_apply init G.dist_to_axes G.nr_voxels _ i).2, (set_zero_apply _ _ i).2]
  simp [hi]

theorem init_flood_step (G : Grid α) (raw init : Nat → Int) (i : Nat) (hi : i < G.nr_voxels) :
    (init_flood G raw init).flood_step i = if init i ≠ 0 then 1 else 0 := by
  simp only [init_flood]
  rw [(init_grow_apply init G.dist_to_axes G.nr_voxels _ i).1, (set_zero_apply _ _ i).1]
  simp [hi]

/-- C8: before the first sweep every voxel `i < nr_voxels` has
`(distance, generation) = (((dx+dy+dz)/3)/2, 1)` if it is a seed and `(0, 0)`
otherwise, and the sweep counter is 1. -/
theorem initial_state (G : Grid α) (raw : Nat → Int) (mode_init_val : Option Int) (i : Nat)
    (hi : i < G.nr_voxels) :
    (((mode_init_val = none ∧ raw i ≠ 0) ∨ (∃ L, mode_init_val = some L ∧ raw i = L)) →
      (init_flood G raw (label_init mode_init_val raw G.nr_voxels).1).flood_dist i
          = ((G.dX + G.dY + G.dZ) / 3) / 2 ∧
      (init_flood G raw (label_init mode_init_val raw G.nr_voxels).1).flood_step i = 1) ∧
    (¬ ((mode_init_val = none ∧ raw i ≠ 0) ∨ (∃ L, mode_init_val = some L ∧ raw i = L)) →
      (init_flood G raw (label_init mode_init_val raw G.nr_voxels).1).flood_dist i = 0 ∧
      (init_flood G raw (label_init mode_init_val raw G.nr_voxels).1).flood_step i = 0) ∧
    (init_flood G raw (label_init mode_init_val raw G.nr_voxels).1).grow_step = 1 := by
  have hseed := label_init_ne_zero_iff mode_init_val raw G.nr_voxels i hi
  rw [init_flood_dist G raw _ i hi, init_flood_step G raw _ i hi]
  refine ⟨fun h => ?_, fun h => ?_, rfl⟩
  · rw [if_pos (hseed.mpr h), if_pos (hseed.mpr h)]; exact ⟨rfl, rfl⟩
  · have : ¬ (label_init mode_init_val raw G.nr_voxels).1 i ≠ 0 := fun h' => h (hseed.mp h')
    rw [if_neg this, if_neg this]; exact ⟨rfl, rfl⟩

theorem initial_state_witness :
    (init_flood (⟨2, 1, 1, 1, 1, 1⟩ : Grid ℚ) (fun k => if k = 0 then 5 else 0)
      (label_init none (fun k => if k = 0 then 5 else 0) 2).1).flood_dist 0 = 1 / 2 ∧
    (init_flood (⟨2, 1, 1, 1, 1, 1⟩ : Grid ℚ) (fun k => if k = 0 then 5 else 0)
      (label_init none (fun k => if k = 0 then 5 else 0) 2).1).flood_step 0 = 1 := by
  have h := (initial_state (⟨2, 1, 1, 1, 1, 1⟩ : Grid ℚ) (fun k => if k = 0 then 5 else 0)
    none 0 (by decide)).1 (Or.inl ⟨rfl, by decide⟩)
  exact ⟨h.1.trans (by norm_num), h.2⟩

end InitProofs

/-! ## The relaxation step -/

section RelaxProofs

variable {α : Type} [LinearOrderedField α]

theorem relax_of_accept (dom : Nat → Int) (i j : Nat) (w : α) (s : Flood α)
    (hd : dom j > 0) (h : s.flood_dist i + w < s.flood_dist j ∨ s.flood_dist j = 0) :
    relax dom i j w s =
      { s with flood_dist := Function.update s.flood_dist j (s.flood_dist i + w),
               flood_step := Function.update s.flood_step j (s.grow_step + 1) } := by
  simp only [relax, if_pos hd, if_pos h]

theorem relax_of_reject (dom : Nat → Int) (i j : Nat) (w : α) (s : Flood α)
    (h : ¬ (s.flood_dist i + w < s.flood_dist j ∨ s.flood_dist j = 0)) :
    relax dom i j w s = s := by
  simp only [relax, if_neg h]
  split <;> rfl

theorem relax_of_outside (dom : Nat → Int) (i j : Nat) (w : α) (s : Flood α)
    (hd : ¬ dom j > 0) : relax dom i j w s = s := by
  simp only [relax, if_neg hd]

/-- C9: the relaxation of an in-domain neighbour `j` from the active voxel `i`
with candidate `d = distance[i] + weight` sets `distance[j] = d` and
`generation[j] = g + 1` when `d < distance[j]` or `distance[j] == 0`;
otherwise, in particular on a tie `d == distance[j] != 0`, the whole state is
left unchanged; a neighbour with `mask[j] <= 0` is never modified; and no
other voxel is touched in either case. -/
theorem relaxation_rule (dom : Nat → Int) (i j : Nat) (w : α) (s : Flood α) :
    (dom j > 0 → (s.flood_dist i + w < s.flood_dist j ∨ s.flood_dist j = 0) →
      (relax dom i j w s).flood_dist j = s.flood_dist i + w ∧
      (relax dom i j w s).flood_step j = s.grow_step + 1) ∧
    (dom j > 0 → ¬ (s.flood_dist i + w < s.flood_dist j ∨ s.flood_dist j = 0) →
      (relax dom i j w s).flood_dist j = s.flood_dist j ∧
      (relax dom i j w s).flood_step j = s.flood_step j) ∧
    (dom j > 0 → s.flood_dist i + w = s.flood_dist j → s.flood_dist j ≠ 0 →
      relax dom i j w s = s) ∧
    (dom j ≤ 0 → relax dom i j w s = s) ∧
    (∀ k, k ≠ j → (relax dom i j w s).flood_dist k = s.flood_dist k ∧
      (relax dom i j w s).flood_step k = s.flood_step k) := by
  refine ⟨fun hd h => ?_, fun _ h => ?_, fun _ h h0 => ?_, fun hd => ?_, fun k hk => ?_⟩
  · rw [relax_of_accept dom i j w s hd h]
    simp
  · rw [relax_of_reject dom i j w s h]
    exact ⟨rfl, rfl⟩
  · apply relax_of_reject
    rintro (h1 | h1)
    · rw [h] at h1; exact lt_irrefl _ h1
    · exact h0 h1
  · exact relax_of_outside dom i j w s (not_lt.mpr hd)
  · by_cases hd : dom j > 0
    · by_cases h : s.flood_dist i + w < s.flood_dist j ∨ s.flood_dist j = 0
      · rw [relax_of_accept dom i j w s hd h]
        simp [Function.update_noteq hk]
      · rw [relax_of_reject dom i j w s h]
        exact ⟨rfl, rfl⟩
    · rw [relax_of_outside dom i j w s hd]
      exact ⟨rfl, rfl⟩

theorem relaxation_rule_witness :
    (relax (fun _ => 1) 0 1 (1 : ℚ) ⟨fun k => if k = 0 then 1 / 2 else 0, fun _ => 0, 1, 0, 0⟩).flood_dist 1
      = 1 / 2 + 1 ∧
    relax (fun _ => 1) 0 1 (1 : ℚ) ⟨fun k => if k = 0 then 1 / 2 else 3 / 2, fun _ => 0, 1, 0, 0⟩
      = ⟨fun k => if k = 0 then 1 / 2 else 3 / 2, fun _ => 0, 1, 0, 0⟩ ∧
    relax (fun _ => 0) 0 1 (1 : ℚ) ⟨fun k => if k = 0 then 1 / 2 else 0, fun _ => 0, 1, 0, 0⟩
      = ⟨fun k => if k = 0 then 1 / 2 else 0, fun _ => 0, 1, 0, 0⟩ :=
  ⟨((relaxation_rule (fun _ => 1) 0 1 (1 : ℚ)
      ⟨fun k => if k = 0 then 1 / 2 else 0, fun _ => 0, 1, 0, 0⟩).1 (by decide)
      (Or.inr (by simp))).1,
   (relaxation_rule (fun _ => 1) 0 1 (1 : ℚ)
      ⟨fun k => if k = 0 then 1 / 2 else 3 / 2, fun _ => 0, 1, 0, 0⟩).2.2.1 (by decide)
      (by norm_num) (by norm_num),
   (relaxation_rule (fun _ => 0) 0 1 (1 : ℚ)
      ⟨fun k => if k = 0 then 1 / 2 else 0, fun _ => 0, 1, 0, 0⟩).2.2.2.1 (by decide)⟩

end RelaxProofs

/-! ## Index arithmetic -/

theorem sub2ind_ind2sub (i sx sy : Nat) :
    sub2ind_3D (ind2sub_3D i sx sy).1 (ind2sub_3D i sx sy).2.1 (ind2sub_3D i sx sy).2.2 sx sy
      = i := by
  simp only [sub2ind_3D, ind2sub_3D]
  have h1 := Nat.div_add_mod i (sx * sy)
  have h2 := Nat.div_add_mod (i % (sx * sy)) sx
  omega

theorem ind2sub_sub2ind (x y z sx sy : Nat) (hx : x < sx) (hy : y < sy) :
    ind2sub_3D (sub2ind_3D x y z sx sy) sx sy = (x, y, z) := by
  have hxy : sx * y + x < sx * sy := by
    calc sx * y + x < sx * y + sx := by omega
      _ = sx * (y + 1) := by ring
      _ ≤ sx * sy := Nat.mul_le_mul_left sx hy
  have hpos : 0 < sx * sy := by omega
  have e : sub2ind_3D x y z sx sy = (sx * y + x) + sx * sy * z := by
    simp only [sub2ind_3D]; omega
  have hmod : sub2ind_3D x y z sx sy % (sx * sy) = sx * y + x := by
    rw [e, Nat.add_mul_mod_self_left, Nat.mod_eq_of_lt hxy]
  have hdiv : sub2ind_3D x y z sx sy / (sx * sy) = z := by
    rw [e, Nat.add_mul_div_left _ _ hpos, Nat.div_eq_of_lt hxy, Nat.zero_add]
  have h3 : (sx * y + x) % sx = x := by
    rw [Nat.add_comm, Nat.add_mul_mod_self_left, Nat.mod_eq_of_lt hx]
  have h4 : (sx * y + x) / sx = y := by
    rw [Nat.add_comm, Nat.add_mul_div_left _ _ (by omega : 0 < sx), Nat.div_eq_of_lt hx,
      Nat.zero_add]
  simp only [ind2sub_3D, hmod, hdiv, h3, h4]

theorem sub2ind_lt (x y z sx sy sz : Nat) (hx : x < sx) (hy : y < sy) (hz : z < sz) :
    sub2ind_3D x y z sx sy < sz * sy * sx := by
  have hxy : sx * y + x < sx * sy := by
    calc sx * y + x < sx * y + sx := by omega
      _ = sx * (y + 1) := by ring
      _ ≤ sx * sy := Nat.mul_le_mul_left sx hy
  calc sub2ind_3D x y z sx sy = sx * sy * z + (sx * y + x) := by simp only [sub2ind_3D]; omega
    _ < sx * sy * z + sx * sy := by omega
    _ = sx * sy * (z + 1) := by ring
    _ ≤ sx * sy * sz := Nat.mul_le_mul_left _ hz
    _ = sz * sy * sx := by ring

theorem ind2sub_lt (i sx sy sz : Nat) (hi : i < sz * sy * sx) :
    (ind2sub_3D i sx sy).1 < sx ∧ (ind2sub_3D i sx sy).2.1 < sy ∧
    (ind2sub_3D i sx sy).2.2 < sz := by
  have hsx : 0 < sx := by
    rcases Nat.eq_zero_or_pos sx with h | h
    · subst h; simp at hi
    · exact h
  have hsy : 0 < sy := by
    rcases Nat.eq_zero_or_pos sy with h | h
    · subst h; simp at hi
    · exact h
  have hpos : 0 < sx * sy := Nat.mul_pos hsx hsy
  refine ⟨Nat.mod_lt _ hsx, ?_, ?_⟩
  · simp only [ind2sub_3D]
    rw [Nat.div_lt_iff_lt_mul hsx]
    have := Nat.mod_lt i hpos
    calc i % (sx * sy) < sx * sy := this
      _ = sy * sx := Nat.mul_comm _ _
  · simp only [ind2sub_3D]
    rw [Nat.div_lt_iff_lt_mul hpos]
    calc i < sz * sy * sx := hi
      _ = sz * (sx * sy) := by ring

/-! ## The table and the 26-neighbourhood -/

section TableProofs
variable {α : Type} [LinearOrderedField α]

theorem expand_eq_table (sq : α → α) (G : Grid α) (dom : Nat → Int) (i : Nat) (s : Flood α) :
    expand sq G dom i s = expand_table sq G dom i s := by
  simp [expand, expand_table, nbr_table, relax_nbr, nbr_guard, nbr_index, guard_axis, shift_axis,
    update_max]

/-- Every table entry has offsets in `{-1, 0, 1}`, not all zero, and carries
the weight of its class. -/
theorem nbr_table_spec (sq : α → α) (G : Grid α) :
    ∀ e ∈ nbr_table sq G,
    (e.a = -1 ∨ e.a = 0 ∨ e.a = 1) ∧ (e.b = -1 ∨ e.b = 0 ∨ e.b = 1) ∧
    (e.c = -1 ∨ e.c = 0 ∨ e.c = 1) ∧ ¬ (e.a = 0 ∧ e.b = 0 ∧ e.c = 0) ∧
    e.w = class_weight sq G (decide (e.a ≠ 0)) (decide (e.b ≠ 0)) (decide (e.c ≠ 0)) := by
  simp [nbr_table, class_weight]

/-- Every non-zero offset triple occurs in the table. -/
theorem mem_nbr_table (sq : α → α) (G : Grid α) (a b c : Int)
    (ha : a = -1 ∨ a = 0 ∨ a = 1) (hb : b = -1 ∨ b = 0 ∨ b = 1) (hc : c = -1 ∨ c = 0 ∨ c = 1)
    (hne : ¬ (a = 0 ∧ b = 0 ∧ c = 0)) :
    (⟨a, b, c, class_weight sq G (decide (a ≠ 0)) (decide (b ≠ 0)) (decide (c ≠ 0))⟩ : Nbr α)
      ∈ nbr_table sq G := by
  rcases ha with rfl | rfl | rfl <;> rcases hb with rfl | rfl | rfl <;>
    rcases hc with rfl | rfl | rfl <;>
    first
    | (simp only [nbr_table, class_weight, List.mem_cons, Nbr.mk.injEq]; norm_num; done)
    | exact (hne ⟨rfl, rfl, rfl⟩).elim

theorem class_weight_pos (sq : α → α) (G : Grid α) (hG : G.Pos) (hsq : SqrtPos sq)
    (x y z : Bool) (h : ¬ (x = false ∧ y = false ∧ z = false)) :
    0 < class_weight sq G x y z := by
  obtain ⟨hx, hy, hz⟩ := hG
  have hxx := mul_pos hx hx
  have hyy := mul_pos hy hy
  have hzz := mul_pos hz hz
  cases x <;> cases y <;> cases z <;>
    simp only [class_weight, Grid.dia_xy, Grid.dia_xz, Grid.dia_yz, Grid.dia_xyz] <;>
    first
    | assumption
    | (apply hsq; positivity)
    | exact (h ⟨rfl, rfl, rfl⟩).elim

end TableProofs

/-! ## Blocks and adjacency -/

theorem shift_axis_spec (o : Int) (i n : Nat) (ho : o = -1 ∨ o = 0 ∨ o = 1) (hi : i < n)
    (hg : guard_axis o i (n - 1)) :
    shift_axis o i < n ∧ near i (shift_axis o i) ∧ (i ≠ shift_axis o i ↔ o ≠ 0) := by
  rcases ho with rfl | rfl | rfl <;> simp [shift_axis, guard_axis, near] at hg ⊢ <;> omega

theorem exists_offset (i v n : Nat) (hv : v < n) (hn : near i v) :
    ∃ o : Int, (o = -1 ∨ o = 0 ∨ o = 1) ∧ guard_axis o i (n - 1) ∧ shift_axis o i = v ∧
      (o = 0 ↔ i = v) := by
  unfold near at hn
  rcases Nat.lt_trichotomy v i with h | h | h
  · refine ⟨-1, Or.inl rfl, ?_, ?_, ?_⟩ <;> simp [shift_axis, guard_axis] <;> omega
  · refine ⟨0, Or.inr (Or.inl rfl), ?_, ?_, ?_⟩ <;> simp [shift_axis, guard_axis] <;> omega
  · refine ⟨1, Or.inr (Or.inr rfl), ?_, ?_, ?_⟩ <;> simp [shift_axis, guard_axis] <;> omega

section BlockProofs
variable {α : Type} [LinearOrderedField α]

/-- A block whose bounds test passes addresses a 26-neighbour of `i` inside
the grid, with the weight of the step. -/
theorem nbr_sound (sq : α → α) (G : Grid α) (i : Nat) (hi : i < G.nr_voxels) (e : Nbr α)
    (he : e ∈ nbr_table sq G) (hg : nbr_guard G i e) :
    Adj G i (nbr_index G i e) ∧ e.w = step_weight sq G i (nbr_index G i e) := by
  obtain ⟨ha, hb, hc, hne, hw⟩ := nbr_table_spec sq G e he
  obtain ⟨hx, hy, hz⟩ := ind2sub_lt i G.size_x G.size_y G.size_z hi
  obtain ⟨gx, gy, gz⟩ := hg
  obtain ⟨x1, x2, x3⟩ := shift_axis_spec e.a _ _ ha hx gx
  obtain ⟨y1, y2, y3⟩ := shift_axis_spec e.b _ _ hb hy gy
  obtain ⟨z1, z2, z3⟩ := shift_axis_spec e.c _ _ hc hz gz
  have hrt := ind2sub_sub2ind _ _ (shift_axis e.c (ind2sub_3D i G.size_x G.size_y).2.2) _ _ x1 y1
  have hj : nbr_index G i e < G.nr_voxels := sub2ind_lt _ _ _ _ _ _ x1 y1 z1
  have hcoord : ind2sub_3D (nbr_index G i e) G.size_x G.size_y =
      (shift_axis e.a (ind2sub_3D i G.size_x G.size_y).1,
       shift_axis e.b (ind2sub_3D i G.size_x G.size_y).2.1,
       shift_axis e.c (ind2sub_3D i G.size_x G.size_y).2.2) := hrt
  refine ⟨⟨hi, hj, ?_, ?_, ?_, ?_⟩, ?_⟩
  · intro h
    rw [← h] at hcoord
    apply hne
    refine ⟨?_, ?_, ?_⟩
    · by_contra h0
      exact x3.mpr h0 (congrArg Prod.fst hcoord)
    · by_contra h0
      exact y3.mpr h0 (congrArg (fun p => p.2.1) hcoord)
    · by_contra h0
      exact z3.mpr h0 (congrArg (fun p => p.2.2) hcoord)
  · rw [hcoord]; exact x2
  · rw [hcoord]; exact y2
  · rw [hcoord]; exact z2
  · rw [hw, step_weight, hcoord]
    congr 1
    · exact (decide_eq_decide.mpr x3).symm
    · exact (decide_eq_decide.mpr y3).symm
    · exact (decide_eq_decide.mpr z3).symm

/-- Every 26-neighbour of `i` inside the grid is addressed by a block whose
bounds test passes. -/
theorem nbr_complete (sq : α → α) (G : Grid α) (i v : Nat) (h : Adj G i v) :
    ∃ e ∈ nbr_table sq G, nbr_guard G i e ∧ nbr_index G i e = v := by
  obtain ⟨_, hv, hne, nx, ny, nz⟩ := h
  obtain ⟨hx, hy, hz⟩ := ind2sub_lt v G.size_x G.size_y G.size_z hv
  obtain ⟨a, ha, ga, sa, za⟩ := exists_offset _ _ _ hx nx
  obtain ⟨b, hb, gb, sb, zb⟩ := exists_offset _ _ _ hy ny
  obtain ⟨c, hc, gc, sc, zc⟩ := exists_offset _ _ _ hz nz
  refine ⟨⟨a, b, c, class_weight sq G (decide (a ≠ 0)) (decide (b ≠ 0)) (decide (c ≠ 0))⟩,
    mem_nbr_table sq G a b c ha hb hc ?_, ⟨ga, gb, gc⟩, ?_⟩
  · rintro ⟨h1, h2, h3⟩
    apply hne
    rw [← sub2ind_ind2sub i G.size_x G.size_y, ← sub2ind_ind2sub v G.size_x G.size_y,
      za.mp h1, zb.mp h2, zc.mp h3]
  · simp only [nbr_index, sa, sb, sc]
    exact sub2ind_ind2sub v G.size_x G.size_y

end BlockProofs

/-! ## Weights and counting -/

section WeightProofs
variable {α : Type} [LinearOrderedField α]

theorem class_weight_bounds (sq : α → α) (G : Grid α) (x y z : Bool)
    (h : ¬ (x = false ∧ y = false ∧ z = false)) :
    w_min sq G ≤ class_weight sq G x y z ∧ class_weight sq G x y z ≤ w_max sq G := by
  cases x <;> cases y <;> cases z <;>
    first
    | exact (h ⟨rfl, rfl, rfl⟩).elim
    | simp [class_weight, w_min, w_max]

theorem w_min_pos (sq : α → α) (G : Grid α) (hG : G.Pos) (hsq : SqrtPos sq) :
    0 < w_min sq G := by
  have h1 := class_weight_pos sq G hG hsq true false false (by simp)
  have h2 := class_weight_pos sq G hG hsq false true false (by simp)
  have h3 := class_weight_pos sq G hG hsq false false true (by simp)
  have h4 := class_weight_pos sq G hG hsq true true false (by simp)
  have h5 := class_weight_pos sq G hG hsq true false true (by simp)
  have h6 := class_weight_pos sq G hG hsq false true true (by simp)
  have h7 := class_weight_pos sq G hG hsq true true true (by simp)
  simp only [class_weight] at h1 h2 h3 h4 h5 h6 h7
  simp only [w_min, lt_min_iff]
  exact ⟨h1, h2, h3, h4, h5, h6, h7⟩

theorem w_min_le_w_max (sq : α → α) (G : Grid α) : w_min sq G ≤ w_max sq G :=
  le_trans (min_le_left _ _) (le_max_left _ _)

theorem dist_to_axes_pos (G : Grid α) (hG : G.Pos) : 0 < G.dist_to_axes := by
  obtain ⟨hx, hy, hz⟩ := hG
  unfold Grid.dist_to_axes
  positivity

theorem nbr_weight_bounds (sq : α → α) (G : Grid α) (e : Nbr α) (he : e ∈ nbr_table sq G) :
    w_min sq G ≤ e.w ∧ e.w ≤ w_max sq G := by
  obtain ⟨_, _, _, hne, hw⟩ := nbr_table_spec sq G e he
  rw [hw]
  apply class_weight_bounds
  simpa using hne

theorem reached_succ (n : Nat) (s : Flood α) :
    reached (n + 1) s = reached n s + if s.flood_dist n ≠ 0 then 1 else 0 := by
  simp [reached, List.range_succ, List.countP_append, List.countP_singleton]

theorem reached_le (n : Nat) (s : Flood α) : reached n s ≤ n := by
  have := List.countP_le_length (fun v => decide (s.flood_dist v ≠ 0)) (l := List.range n)
  simpa [reached] using this

theorem reached_pos (n : Nat) (s : Flood α) (v : Nat) (hv : v < n) (h : s.flood_dist v ≠ 0) :
    1 ≤ reached n s := by
  induction n with
  | zero => omega
  | succ n ih =>
    rw [reached_succ]
    by_cases hvn : v = n
    · subst hvn; simp [h]
    · have := ih (by omega); omega

theorem reached_update_claim (n : Nat) (s t : Flood α) (j : Nat) (d : α) (hj : j < n)
    (ht : t.flood_dist = Function.update s.flood_dist j d) (h0 : s.flood_dist j = 0)
    (hd : d ≠ 0) : reached n t = reached n s + 1 := by
  have key : ∀ m, reached m t = reached m s + if j < m then 1 else 0 := by
    intro m
    induction m with
    | zero => simp [reached]
    | succ m ih =>
      rw [reached_succ, reached_succ, ih, ht]
      rcases Nat.lt_trichotomy j m with h | h | h
      · have h1 : j < m + 1 := by omega
        have h2 : m ≠ j := by omega
        simp only [h, h1, Function.update_noteq h2, if_true]
        omega
      · subst h
        simp [h0, hd]
      · have h1 : ¬ j < m + 1 := by omega
        have h2 : ¬ j < m := by omega
        have h3 : m ≠ j := by omega
        simp [h1, h2, Function.update_noteq h3]
  rw [key n, if_pos hj]

theorem reached_update_improve (n : Nat) (s t : Flood α) (j : Nat) (d : α)
    (ht : t.flood_dist = Function.update s.flood_dist j d) (h0 : s.flood_dist j ≠ 0)
    (hd : d ≠ 0) : reached n t = reached n s := by
  unfold reached
  apply List.countP_congr
  intro v _
  rw [ht]
  by_cases h : v = j
  · subst h; simp [h0, hd]
  · simp [Function.update_noteq h]

end WeightProofs

/-! ## Relaxation preserves the invariants -/

section RelaxInv
variable {α : Type} [LinearOrderedField α]

/-- The distance of an active voxel is at least half a voxel plus
`grow_step - 1` smallest steps. -/
theorem Inv.active_lower {sq : α → α} {G : Grid α} {dom init : Nat → Int} {s : Flood α}
    (h : Inv sq G dom init s) (i : Nat) (hi : i < G.nr_voxels)
    (hs : s.flood_step i = s.grow_step) :
    G.dist_to_axes + (((s.grow_step : Int) : α) - 1) * w_min sq G ≤ s.flood_dist i := by
  have h1 := h.grow_pos
  have h2 := (h.lower i hi (by rw [hs]; omega)).2
  rwa [hs] at h2

theorem Inv.active_pos {sq : α → α} {G : Grid α} {dom init : Nat → Int} {s : Flood α}
    (h : Inv sq G dom init s) (hG : G.Pos) (hsq : SqrtPos sq) (i : Nat) (hi : i < G.nr_voxels)
    (hs : s.flood_step i = s.grow_step) :
    G.dist_to_axes ≤ s.flood_dist i ∧ 0 < s.flood_dist i := by
  have h1 := h.active_lower i hi hs
  have h2 : (1 : α) ≤ ((s.grow_step : Int) : α) := by exact_mod_cast h.grow_pos
  have h3 := w_min_pos sq G hG hsq
  have h4 := dist_to_axes_pos G hG
  have h5 : 0 ≤ (((s.grow_step : Int) : α) - 1) * w_min sq G :=
    mul_nonneg (by linarith) h3.le
  constructor <;> linarith

theorem relax_inv (sq : α → α) (G : Grid α) (dom init : Nat → Int) (hG : G.Pos)
    (hsq : SqrtPos sq) (s : Flood α) (i j : Nat) (w : α) (h : Inv sq G dom init s)
    (hi : i < G.nr_voxels) (hdi : dom i > 0) (hs : s.flood_step i = s.grow_step)
    (hadj : Adj G i j) (hw : w = step_weight sq G i j) (hw0 : w_min sq G ≤ w)
    (hw1 : w ≤ w_max sq G) :
    Inv sq G dom init (relax dom i j w s) := by
  by_cases hd : dom j > 0
  swap
  · rw [relax_of_outside dom i j w s hd]; exact h
  by_cases hc : s.flood_dist i + w < s.flood_dist j ∨ s.flood_dist j = 0
  swap
  · rw [relax_of_reject dom i j w s hc]; exact h
  rw [relax_of_accept dom i j w s hd hc]
  have hj : j < G.nr_voxels := hadj.2.1
  have hmin := w_min_pos sq G hG hsq
  have hhalf := dist_to_axes_pos G hG
  have hwpos : 0 < w := lt_of_lt_of_le hmin hw0
  have hmax : 0 < w_max sq G := lt_of_lt_of_le hwpos hw1
  obtain ⟨hi1, hi2⟩ := h.active_pos hG hsq i hi hs
  have hlow := h.active_lower i hi hs
  have hdpos : s.flood_dist i + w ≠ 0 := by
    have : 0 < s.flood_dist i + w := by linarith
    exact ne_of_gt this
  have hcount : reached G.nr_voxels s ≤ reached G.nr_voxels
      ({ s with flood_dist := Function.update s.flood_dist j (s.flood_dist i + w),
                flood_step := Function.update s.flood_step j (s.grow_step + 1) } : Flood α) := by
    by_cases h0 : s.flood_dist j = 0
    · rw [reached_update_claim G.nr_voxels s
        ({ s with flood_dist := Function.update s.flood_dist j (s.flood_dist i + w),
                  flood_step := Function.update s.flood_step j (s.grow_step + 1) } : Flood α)
        j _ hj rfl h0 hdpos]
      omega
    · rw [reached_update_improve G.nr_voxels s
        ({ s with flood_dist := Function.update s.flood_dist j (s.flood_dist i + w),
                  flood_step := Function.update s.flood_step j (s.grow_step + 1) } : Flood α)
        j _ rfl h0 hdpos]
  have hcount' : (reached G.nr_voxels s : α) * w_max sq G ≤ (reached G.nr_voxels
      ({ s with flood_dist := Function.update s.flood_dist j (s.flood_dist i + w),
                flood_step := Function.update s.flood_step j (s.grow_step + 1) } : Flood α) : α)
        * w_max sq G :=
    mul_le_mul_of_nonneg_right (by exact_mod_cast hcount) hmax.le
  constructor
  · exact h.grow_pos
  · intro v hv
    by_cases hvj : v = j
    · subst hvj; simp
    · simp only [Function.update_noteq hvj]; exact h.step_le v hv
  · intro v hv
    by_cases hvj : v = j
    · subst hvj
      intro _
      have := h.grow_pos
      simp only [Function.update_same]
      refine ⟨by omega, ?_⟩
      push_cast
      linarith
    · simp only [Function.update_noteq hvj]; exact h.lower v hv
  · intro v hv hinit
    by_cases hvj : v = j
    · subst hvj
      exfalso
      have hseed := h.seed v hv hinit
      rcases hc with hc | hc
      · rw [hseed] at hc; linarith
      · rw [hseed] at hc; exact (ne_of_gt hhalf) hc
    · simp only [Function.update_noteq hvj]; exact h.seed v hv hinit
  · intro v hv hdv
    by_cases hvj : v = j
    · subst hvj
      intro _
      simp only [Function.update_same]
      have hr := h.sound i hi hdi (ne_of_gt hi2)
      have hstep := Reach.step i v _ hr hadj hdv
      have e : s.flood_dist i + w - G.dist_to_axes
          = s.flood_dist i - G.dist_to_axes + step_weight sq G i v := by rw [hw]; ring
      rw [e]; exact hstep
    · simp only [Function.update_noteq hvj]; exact h.sound v hv hdv
  · intro v hv
    by_cases hvj : v = j
    · subst hvj
      intro _
      simp only [Function.update_same]
      by_cases h0 : s.flood_dist v = 0
      · rw [reached_update_claim G.nr_voxels s
          ({ s with flood_dist := Function.update s.flood_dist v (s.flood_dist i + w),
                    flood_step := Function.update s.flood_step v (s.grow_step + 1) } : Flood α)
          v _ hj rfl h0 hdpos]
        have := h.upper i hi (ne_of_gt hi2)
        push_cast
        linarith
      · rw [reached_update_improve G.nr_voxels s
          ({ s with flood_dist := Function.update s.flood_dist v (s.flood_dist i + w),
                    flood_step := Function.update s.flood_step v (s.grow_step + 1) } : Flood α)
          v _ rfl h0 hdpos]
        have := h.upper v hv h0
        rcases hc with hc | hc
        · linarith
        · exact absurd hc h0
    · simp only [Function.update_noteq hvj]
      intro hne
      have := h.upper v hv hne
      linarith

end RelaxInv

/-! ## Relaxation and settledness -/

section RelaxSettled
variable {α : Type} [LinearOrderedField α]

theorem relax_grow_step (dom : Nat → Int) (i j : Nat) (w : α) (s : Flood α) :
    (relax dom i j w s).grow_step = s.grow_step := by
  unfold relax; split
  · split <;> rfl
  · rfl

theorem relax_voxel_counter (dom : Nat → Int) (i j : Nat) (w : α) (s : Flood α) :
    (relax dom i j w s).voxel_counter = s.voxel_counter := by
  unfold relax; split
  · split <;> rfl
  · rfl

theorem relax_temp_max (dom : Nat → Int) (i j : Nat) (w : α) (s : Flood α) :
    (relax dom i j w s).temp_max_dist = s.temp_max_dist := by
  unfold relax; split
  · split <;> rfl
  · rfl

theorem relax_frame (dom : Nat → Int) (i j : Nat) (w : α) (s : Flood α) (k : Nat)
    (hk : k ≠ j) : (relax dom i j w s).flood_dist k = s.flood_dist k ∧
      (relax dom i j w s).flood_step k = s.flood_step k := by
  by_cases hd : dom j > 0
  · by_cases h : s.flood_dist i + w < s.flood_dist j ∨ s.flood_dist j = 0
    · rw [relax_of_accept dom i j w s hd h]
      simp [Function.update_noteq hk]
    · rw [relax_of_reject dom i j w s h]
      exact ⟨rfl, rfl⟩
  · rw [relax_of_outside dom i j w s hd]
    exact ⟨rfl, rfl⟩

/-- A relaxation never raises a non-zero distance and never resets one to
zero, as long as the candidate is positive. -/
theorem relax_dist_le (dom : Nat → Int) (i j : Nat) (w : α) (s : Flood α)
    (hpos : 0 < s.flood_dist i + w) (k : Nat) (hk : s.flood_dist k ≠ 0) :
    (relax dom i j w s).flood_dist k ≠ 0 ∧ (relax dom i j w s).flood_dist k ≤ s.flood_dist k := by
  by_cases hkj : k = j
  · subst hkj
    by_cases hd : dom k > 0
    · by_cases h : s.flood_dist i + w < s.flood_dist k ∨ s.flood_dist k = 0
      · rw [relax_of_accept dom i k w s hd h]
        simp only [Function.update_same]
        rcases h with h | h
        · exact ⟨ne_of_gt hpos, h.le⟩
        · exact absurd h hk
      · rw [relax_of_reject dom i k w s h]; exact ⟨hk, le_rfl⟩
    · rw [relax_of_outside dom i k w s hd]; exact ⟨hk, le_rfl⟩
  · rw [(relax_frame dom i j w s k hkj).1]; exact ⟨hk, le_rfl⟩

/-- After the relaxation of an in-domain `j` from `i`, the distance of `j`
is non-zero and at most the candidate. -/
theorem relax_establish (dom : Nat → Int) (i j : Nat) (w : α) (s : Flood α) (hij : i ≠ j)
    (hd : dom j > 0) (hpos : 0 < s.flood_dist i + w) :
    (relax dom i j w s).flood_dist j ≠ 0 ∧
    (relax dom i j w s).flood_dist j ≤ (relax dom i j w s).flood_dist i + w := by
  rw [(relax_frame dom i j w s i hij).1]
  by_cases h : s.flood_dist i + w < s.flood_dist j ∨ s.flood_dist j = 0
  · rw [relax_of_accept dom i j w s hd h]
    simp only [Function.update_same]
    exact ⟨ne_of_gt hpos, le_rfl⟩
  · rw [relax_of_reject dom i j w s h]
    push_neg at h
    exact ⟨h.2, h.1⟩

theorem relax_settled (sq : α → α) (G : Grid α) (dom : Nat → Int) (done : Nat → Prop)
    (s : Flood α) (i j : Nat) (w : α) (hpos : 0 < s.flood_dist i + w)
    (h : Settled sq G dom done s) : Settled sq G dom done (relax dom i j w s) := by
  by_cases hd : dom j > 0
  swap
  · rw [relax_of_outside dom i j w s hd]; exact h
  by_cases hc : s.flood_dist i + w < s.flood_dist j ∨ s.flood_dist j = 0
  swap
  · rw [relax_of_reject dom i j w s hc]; exact h
  intro u hu hdu hne hprem v hadj hdv
  have hg := relax_grow_step dom i j w s
  by_cases huj : u = j
  · exfalso
    subst huj
    rw [relax_of_accept dom i u w s hd hc] at hprem
    simp only [Function.update_same] at hprem
    omega
  · obtain ⟨e1, e2⟩ := relax_frame dom i j w s u huj
    rw [e1] at hne ⊢
    rw [e2, hg] at hprem
    obtain ⟨a, b⟩ := h u hu hdu hne hprem v hadj hdv
    obtain ⟨c, d⟩ := relax_dist_le dom i j w s hpos v a
    exact ⟨c, le_trans d b⟩

theorem Inv.core_congr {sq : α → α} {G : Grid α} {dom init : Nat → Int} {s t : Flood α}
    (h : Inv sq G dom init s) (hd : t.flood_dist = s.flood_dist)
    (hs : t.flood_step = s.flood_step) (hg : t.grow_step = s.grow_step) :
    Inv sq G dom init t := by
  have hr : reached G.nr_voxels t = reached G.nr_voxels s := by
    unfold reached; rw [hd]
  constructor
  · rw [hg]; exact h.grow_pos
  · rw [hs, hg]; exact h.step_le
  · rw [hs, hd]; exact h.lower
  · rw [hd]; exact h.seed
  · rw [hd]; exact h.sound
  · rw [hd, hr]; exact h.upper

theorem settled_congr {sq : α → α} {G : Grid α} {dom : Nat → Int} {done : Nat → Prop}
    {s t : Flood α} (h : Settled sq G dom done s) (hd : t.flood_dist = s.flood_dist)
    (hs : t.flood_step = s.flood_step) (hg : t.grow_step = s.grow_step) :
    Settled sq G dom done t := by
  unfold Settled SettledAt at *
  rw [hd, hs, hg]; exact h

end RelaxSettled

/-! ## One expansion -/

/-- Induction along a left fold, with the list of the entries already
processed. -/
theorem foldl_induct {β σ : Type} (f : σ → β → σ) (J : List β → σ → Prop) (L : List β)
    (hstep : ∀ done e s, e ∈ L → J done s → J (done ++ [e]) (f s e)) :
    ∀ (l done : List β) (s : σ), (∀ e ∈ l, e ∈ L) → J done s → J (done ++ l) (l.foldl f s) := by
  intro l
  induction l with
  | nil => intro done s _ h; simpa using h
  | cons e l ih =>
    intro done s hl h
    have h1 := hstep done e s (hl e (List.mem_cons_self _ _)) h
    have h2 := ih (done ++ [e]) (f s e) (fun x hx => hl x (List.mem_cons_of_mem _ hx)) h1
    simpa using h2

section ExpandProofs
variable {α : Type} [LinearOrderedField α]

theorem update_max_core (i : Nat) (s : Flood α) :
    (update_max i s).flood_dist = s.flood_dist ∧ (update_max i s).flood_step = s.flood_step ∧
    (update_max i s).grow_step = s.grow_step ∧
    (update_max i s).voxel_counter = s.voxel_counter := by
  unfold update_max; split <;> exact ⟨rfl, rfl, rfl, rfl⟩

/-- What one expansion of an active in-domain voxel `i` achieves. -/
theorem expand_spec (sq : α → α) (G : Grid α) (dom init : Nat → Int) (hG : G.Pos)
    (hsq : SqrtPos sq) (done : Nat → Prop) (s : Flood α) (i : Nat)
    (h : Inv sq G dom init s) (hS : Settled sq G dom done s)
    (hi : i < G.nr_voxels) (hdi : dom i > 0) (hs : s.flood_step i = s.grow_step) :
    Inv sq G dom init (expand sq G dom i s) ∧
    Settled sq G dom (fun u => done u ∨ u = i) (expand sq G dom i s) ∧
    (expand sq G dom i s).grow_step = s.grow_step ∧
    (expand sq G dom i s).voxel_counter = s.voxel_counter + 1 := by
  rw [expand_eq_table]
  unfold expand_table
  have hmin := w_min_pos sq G hG hsq
  -- the fold over the table
  have key := foldl_induct (relax_nbr G dom i)
    (fun (processed : List (Nbr α)) (t : Flood α) =>
      Inv sq G dom init t ∧ t.flood_step i = t.grow_step ∧ t.grow_step = s.grow_step ∧
      t.voxel_counter = s.voxel_counter + 1 ∧ Settled sq G dom done t ∧
      ∀ e ∈ processed, nbr_guard G i e → dom (nbr_index G i e) > 0 →
        t.flood_dist (nbr_index G i e) ≠ 0 ∧
        t.flood_dist (nbr_index G i e) ≤ t.flood_dist i + step_weight sq G i (nbr_index G i e))
    (nbr_table sq G)
    (by
      intro processed e t he ⟨tI, ts, tg, tc, tS, tE⟩
      unfold relax_nbr
      by_cases hg : nbr_guard G i e
      swap
      · rw [if_neg hg]
        refine ⟨tI, ts, tg, tc, tS, ?_⟩
        intro e' he' hg' hd'
        rcases List.mem_append.mp he' with h1 | h1
        · exact tE e' h1 hg' hd'
        · rw [List.mem_singleton.mp h1] at hg'; exact absurd hg' hg
      rw [if_pos hg]
      obtain ⟨hadj, hw⟩ := nbr_sound sq G i hi e he hg
      obtain ⟨hw0, hw1⟩ := nbr_weight_bounds sq G e he
      have hij : i ≠ nbr_index G i e := hadj.2.2.1
      obtain ⟨_, hipos⟩ := tI.active_pos hG hsq i hi ts
      have hpos : 0 < t.flood_dist i + e.w := by linarith
      obtain ⟨fi1, fi2⟩ := relax_frame dom i (nbr_index G i e) e.w t i hij
      refine ⟨relax_inv sq G dom init hG hsq t i _ e.w tI hi hdi ts hadj hw hw0 hw1, ?_, ?_, ?_,
        relax_settled sq G dom done t i _ e.w hpos tS, ?_⟩
      · rw [fi2, relax_grow_step]; exact ts
      · rw [relax_grow_step]; exact tg
      · rw [relax_voxel_counter]; exact tc
      · intro e' he' hg' hd'
        rcases List.mem_append.mp he' with h1 | h1
        · obtain ⟨a, b⟩ := tE e' h1 hg' hd'
          obtain ⟨c, d⟩ := relax_dist_le dom i (nbr_index G i e) e.w t hpos _ a
          rw [fi1]
          exact ⟨c, le_trans d b⟩
        · rw [List.mem_singleton.mp h1] at hd' ⊢
          have := relax_establish dom i (nbr_index G i e) e.w t hij hd' hpos
          rw [hw] at this ⊢
          exact this)
    (nbr_table sq G) [] { s with voxel_counter := s.voxel_counter + 1 } (fun _ h => h)
    ⟨h.core_congr rfl rfl rfl, hs, rfl, rfl, settled_congr hS rfl rfl rfl, by simp⟩
  simp only [List.nil_append] at key
  obtain ⟨tI, ts, tg, tc, tS, tE⟩ := key
  obtain ⟨m1, m2, m3, m4⟩ := update_max_core i
    ((nbr_table sq G).foldl (relax_nbr G dom i) { s with voxel_counter := s.voxel_counter + 1 })
  refine ⟨tI.core_congr m1 m2 m3, ?_, by rw [m3, tg], by rw [m4, tc]⟩
  have hS' : Settled sq G dom (fun u => done u ∨ u = i)
      ((nbr_table sq G).foldl (relax_nbr G dom i)
        { s with voxel_counter := s.voxel_counter + 1 }) := by
    intro u hu hdu hne hprem
    by_cases hui : u = i
    · subst hui
      intro v hadj hdv
      obtain ⟨e, he, hg, hidx⟩ := nbr_complete sq G u v hadj
      have := tE e he hg (by rw [hidx]; exact hdv)
      rw [hidx] at this
      exact this
    · apply tS u hu hdu hne
      rcases hprem with h1 | ⟨h1, h2⟩
      · exact Or.inl h1
      · rcases h2 with h2 | h2
        · exact Or.inr ⟨h1, h2⟩
        · exact absurd h2 hui
  exact settled_congr hS' m1 m2 m3

end ExpandProofs

/-! ## One sweep -/

section SweepProofs
variable {α : Type} [LinearOrderedField α]

theorem relax_nbr_core (G : Grid α) (dom : Nat → Int) (i : Nat) (s : Flood α) (e : Nbr α) :
    (relax_nbr G dom i s e).grow_step = s.grow_step ∧
    (relax_nbr G dom i s e).voxel_counter = s.voxel_counter ∧
    (relax_nbr G dom i s e).temp_max_dist = s.temp_max_dist := by
  unfold relax_nbr; split
  · exact ⟨relax_grow_step _ _ _ _ _, relax_voxel_counter _ _ _ _ _, relax_temp_max _ _ _ _ _⟩
  · exact ⟨rfl, rfl, rfl⟩

theorem expand_counter (sq : α → α) (G : Grid α) (dom : Nat → Int) (i : Nat) (s : Flood α) :
    (expand sq G dom i s).grow_step = s.grow_step ∧
    (expand sq G dom i s).voxel_counter = s.voxel_counter + 1 := by
  rw [expand_eq_table]
  unfold expand_table
  have key := foldl_induct (relax_nbr G dom i)
    (fun (_ : List (Nbr α)) (t : Flood α) =>
      t.grow_step = s.grow_step ∧ t.voxel_counter = s.voxel_counter + 1)
    (nbr_table sq G)
    (by
      intro _ e t _ ⟨h1, h2⟩
      obtain ⟨a, b, _⟩ := relax_nbr_core G dom i t e
      exact ⟨a.trans h1, b.trans h2⟩)
    (nbr_table sq G) [] { s with voxel_counter := s.voxel_counter + 1 } (fun _ h => h)
    ⟨rfl, rfl⟩
  obtain ⟨_, _, m3, m4⟩ := update_max_core i
    ((nbr_table sq G).foldl (relax_nbr G dom i) { s with voxel_counter := s.voxel_counter + 1 })
  exact ⟨m3.trans key.1, m4.trans key.2⟩

theorem visit_grow_step (sq : α → α) (G : Grid α) (dom : Nat → Int) (s : Flood α) (i : Nat) :
    (visit sq G dom s i).grow_step = s.grow_step := by
  unfold visit; split
  · exact (expand_counter sq G dom i s).1
  · rfl

theorem visit_counter (sq : α → α) (G : Grid α) (dom : Nat → Int) (s : Flood α) (i : Nat) :
    s.voxel_counter ≤ (visit sq G dom s i).voxel_counter ∧
    ((visit sq G dom s i).voxel_counter = s.voxel_counter →
      visit sq G dom s i = s ∧ s.flood_step i ≠ s.grow_step) := by
  unfold visit; split
  · rw [(expand_counter sq G dom i s).2]
    exact ⟨by omega, fun h => by omega⟩
  · next h => exact ⟨le_rfl, fun _ => ⟨rfl, h⟩⟩

/-- A pass over the index set that leaves the counter alone leaves the whole
state alone: none of its voxels was active. -/
theorem foldl_visit_counter (sq : α → α) (G : Grid α) (dom : Nat → Int) (l : List Nat) :
    ∀ s : Flood α, s.voxel_counter ≤ (l.foldl (visit sq G dom) s).voxel_counter ∧
    ((l.foldl (visit sq G dom) s).voxel_counter = s.voxel_counter →
      l.foldl (visit sq G dom) s = s ∧ ∀ i ∈ l, s.flood_step i ≠ s.grow_step) := by
  induction l with
  | nil => intro s; simp
  | cons i l ih =>
    intro s
    obtain ⟨a1, a2⟩ := visit_counter sq G dom s i
    obtain ⟨b1, b2⟩ := ih (visit sq G dom s i)
    simp only [List.foldl_cons]
    refine ⟨le_trans a1 b1, fun h => ?_⟩
    have e1 : (visit sq G dom s i).voxel_counter = s.voxel_counter := by omega
    obtain ⟨c1, c2⟩ := a2 e1
    rw [c1] at b2 h ⊢
    obtain ⟨d1, d2⟩ := b2 h
    refine ⟨d1, fun k hk => ?_⟩
    rcases List.mem_cons.mp hk with rfl | hk
    · exact c2
    · exact d2 k hk

theorem visit_spec (sq : α → α) (G : Grid α) (dom init : Nat → Int) (hG : G.Pos)
    (hsq : SqrtPos sq) (done : Nat → Prop) (s : Flood α) (i : Nat)
    (h : Inv sq G dom init s) (hS : Settled sq G dom done s)
    (hi : i < G.nr_voxels) (hdi : dom i > 0) :
    Inv sq G dom init (visit sq G dom s i) ∧
    Settled sq G dom (fun u => done u ∨ u = i) (visit sq G dom s i) := by
  unfold visit; split
  · next hs =>
    obtain ⟨a, b, _, _⟩ := expand_spec sq G dom init hG hsq done s i h hS hi hdi hs
    exact ⟨a, b⟩
  · next hs =>
    refine ⟨h, ?_⟩
    intro u hu hdu hne hprem
    apply hS u hu hdu hne
    rcases hprem with h1 | ⟨h1, h2⟩
    · exact Or.inl h1
    · rcases h2 with h2 | h2
      · exact Or.inr ⟨h1, h2⟩
      · subst h2; exact absurd h1 hs

theorem mem_voi_id (dom : Nat → Int) (n i : Nat) : i ∈ voi_id dom n ↔ i < n ∧ dom i > 0 := by
  rw [voi_id_eq_filter]
  simp [List.mem_filter]

theorem Inv.next {sq : α → α} {G : Grid α} {dom init : Nat → Int} {s : Flood α}
    (h : Inv sq G dom init s) :
    Inv sq G dom init { s with grow_step := s.grow_step + 1 } := by
  constructor
  · have := h.grow_pos; show 1 ≤ s.grow_step + 1; omega
  · intro v hv; have := h.step_le v hv; show s.flood_step v ≤ s.grow_step + 1 + 1; omega
  · exact h.lower
  · exact h.seed
  · exact h.sound
  · exact h.upper

/-- The state in the middle of a sweep, after the entries `l` of the index
set have been visited. -/
theorem mid_sweep (sq : α → α) (G : Grid α) (dom init : Nat → Int) (hG : G.Pos)
    (hsq : SqrtPos sq) (s : Flood α) (h : BInv sq G dom init s) (l : List Nat)
    (hl : ∀ e ∈ l, e ∈ voi_id dom G.nr_voxels) :
    Inv sq G dom init (l.foldl (visit sq G dom) { s with voxel_counter := 0 }) ∧
    Settled sq G dom (fun u => u ∈ l) (l.foldl (visit sq G dom) { s with voxel_counter := 0 }) ∧
    (l.foldl (visit sq G dom) { s with voxel_counter := 0 }).grow_step = s.grow_step := by
  have key := foldl_induct (visit sq G dom)
    (fun (processed : List Nat) (t : Flood α) =>
      Inv sq G dom init t ∧ Settled sq G dom (fun u => u ∈ processed) t ∧
      t.grow_step = s.grow_step)
    (voi_id dom G.nr_voxels)
    (by
      intro processed i t hi ⟨tI, tS, tg⟩
      obtain ⟨hi1, hi2⟩ := (mem_voi_id dom G.nr_voxels i).mp hi
      obtain ⟨a, b⟩ := visit_spec sq G dom init hG hsq _ t i tI tS hi1 hi2
      refine ⟨a, ?_, (visit_grow_step sq G dom t i).trans tg⟩
      intro u hu hdu hne hprem
      apply b u hu hdu hne
      rcases hprem with h1 | ⟨h1, h2⟩
      · exact Or.inl h1
      · refine Or.inr ⟨h1, ?_⟩
        rcases List.mem_append.mp h2 with h2 | h2
        · exact Or.inl h2
        · exact Or.inr (List.mem_singleton.mp h2))
    l [] { s with voxel_counter := 0 } hl
    ⟨h.inv.core_congr rfl rfl rfl, by
      intro u hu hdu hne hprem
      apply settled_congr h.settled rfl rfl rfl u hu hdu hne
      rcases hprem with h1 | ⟨_, h2⟩
      · exact Or.inl h1
      · simp at h2, rfl⟩
  simpa only [List.nil_append] using key

theorem sweep_binv (sq : α → α) (G : Grid α) (dom init : Nat → Int) (hG : G.Pos)
    (hsq : SqrtPos sq) (s : Flood α) (h : BInv sq G dom init s) :
    BInv sq G dom init (sweep sq G dom (voi_id dom G.nr_voxels) s) := by
  have key := mid_sweep sq G dom init hG hsq s h (voi_id dom G.nr_voxels) (fun _ h => h)
  obtain ⟨tI, tS, tg⟩ := key
  obtain ⟨c1, c2⟩ := foldl_visit_counter sq G dom (voi_id dom G.nr_voxels)
    { s with voxel_counter := 0 }
  unfold sweep
  constructor
  · exact tI.next
  · intro u hu hdu hne hprem
    have hmem := (mem_voi_id dom G.nr_voxels u).mpr ⟨hu, hdu⟩
    apply tS u hu hdu hne
    rcases hprem with h1 | ⟨_, h2⟩
    · have h1' : ((voi_id dom G.nr_voxels).foldl (visit sq G dom)
          { s with voxel_counter := 0 }).flood_step u
          < ((voi_id dom G.nr_voxels).foldl (visit sq G dom)
          { s with voxel_counter := 0 }).grow_step + 1 := h1
      rcases lt_or_ge (((voi_id dom G.nr_voxels).foldl (visit sq G dom)
          { s with voxel_counter := 0 }).flood_step u)
          (((voi_id dom G.nr_voxels).foldl (visit sq G dom)
          { s with voxel_counter := 0 }).grow_step) with h3 | h3
      · exact Or.inl h3
      · exact Or.inr ⟨by omega, hmem⟩
    · exact h2.elim
  · intro v hv
    exact tI.step_le v hv
  · intro hc v hv hdv
    have hc' : ((voi_id dom G.nr_voxels).foldl (visit sq G dom)
        { s with voxel_counter := 0 }).voxel_counter = 0 := hc
    obtain ⟨d1, d2⟩ := c2 hc'
    have hmem := (mem_voi_id dom G.nr_voxels v).mpr ⟨hv, hdv⟩
    have h1 := d2 v hmem
    have h2 := h.step_le v hv
    show ((voi_id dom G.nr_voxels).foldl (visit sq G dom)
        { s with voxel_counter := 0 }).flood_step v
      < ((voi_id dom G.nr_voxels).foldl (visit sq G dom)
        { s with voxel_counter := 0 }).grow_step + 1
    rw [d1]
    show s.flood_step v < s.grow_step + 1
    omega

end SweepProofs

/-! ## The loop -/

section LoopProofs
variable {α : Type} [LinearOrderedField α]

theorem init_binv (sq : α → α) (G : Grid α) (dom raw init : Nat → Int) (hG : G.Pos)
    (hsq : SqrtPos sq) : BInv sq G dom init (init_flood G raw init) := by
  have hd := init_flood_dist G raw init
  have hs := init_flood_step G raw init
  have hhalf := dist_to_axes_pos G hG
  have hmax : 0 < w_max sq G :=
    lt_of_lt_of_le (w_min_pos sq G hG hsq) (w_min_le_w_max sq G)
  have hg : (init_flood G raw init).grow_step = 1 := rfl
  have hseed : ∀ v, v < G.nr_voxels → (init_flood G raw init).flood_dist v ≠ 0 →
      init v ≠ 0 := by
    intro v hv hne h0
    rw [hd v hv, if_neg (by simpa using h0)] at hne
    exact hne rfl
  refine ⟨⟨?_, ?_, ?_, ?_, ?_, ?_⟩, ?_, ?_, ?_⟩
  · rw [hg]
  · intro v hv
    rw [hs v hv, hg]
    split <;> omega
  · intro v hv hne
    rw [hs v hv] at hne ⊢
    by_cases h0 : init v ≠ 0
    · rw [hd v hv, if_pos h0, if_pos h0]
      simp
    · rw [if_neg h0] at hne; exact absurd rfl hne
  · intro v hv h0
    rw [hd v hv, if_pos h0]
  · intro v hv hdv hne
    have h0 := hseed v hv hne
    rw [hd v hv, if_pos h0, sub_self]
    exact Reach.seed v hv hdv h0
  · intro v hv hne
    have h0 := hseed v hv hne
    have hc := reached_pos G.nr_voxels _ v hv hne
    rw [hd v hv, if_pos h0]
    have : (1 : α) ≤ (reached G.nr_voxels (init_flood G raw init) : α) := by exact_mod_cast hc
    nlinarith
  · intro u hu _ hne hprem
    have h0 := hseed u hu hne
    rw [hs u hu, if_pos h0, hg] at hprem
    rcases hprem with h1 | ⟨_, h2⟩
    · omega
    · exact h2.elim
  · intro v hv
    rw [hs v hv, hg]
    split <;> omega
  · intro hc v hv
    have : (init_flood G raw init).voxel_counter = G.nr_voxels := rfl
    omega

/-- The result of the loop is the state after some number of sweeps, and the
loop condition fails there. -/
theorem flood_loop_some (sq : α → α) (G : Grid α) (dom : Nat → Int) (voi : List Nat)
    (max_dist : Option α) (fuel : Nat) :
    ∀ (s r : Flood α), flood_loop sq G dom voi max_dist fuel s = some r →
      ∃ k, k ≤ fuel ∧ r = (sweep sq G dom voi)^[k] s ∧ continues max_dist r = false := by
  induction fuel with
  | zero =>
    intro s r h
    unfold flood_loop at h
    split at h
    · exact absurd h (by simp)
    · next hc =>
      have : s = r := by simpa using h
      subst this
      exact ⟨0, le_rfl, rfl, by simpa using hc⟩
  | succ fuel ih =>
    intro s r h
    unfold flood_loop at h
    split at h
    · obtain ⟨k, hk, e, hc⟩ := ih _ _ h
      exact ⟨k + 1, by omega, by rw [e]; rfl, hc⟩
    · next hc =>
      have : s = r := by simpa using h
      subst this
      exact ⟨0, by omega, rfl, by simpa using hc⟩

theorem iterate_binv (sq : α → α) (G : Grid α) (dom init : Nat → Int) (hG : G.Pos)
    (hsq : SqrtPos sq) (s : Flood α) (h : BInv sq G dom init s) (k : Nat) :
    BInv sq G dom init ((sweep sq G dom (voi_id dom G.nr_voxels))^[k] s) := by
  induction k with
  | zero => exact h
  | succ k ih =>
    rw [Function.iterate_succ_apply']
    exact sweep_binv sq G dom init hG hsq _ ih

theorem Reach.in_domain {sq : α → α} {G : Grid α} {dom init : Nat → Int} {v : Nat} {l : α}
    (h : Reach sq G dom init v l) : v < G.nr_voxels ∧ dom v > 0 := by
  cases h with
  | seed _ h1 h2 _ => exact ⟨h1, h2⟩
  | step u _ _ _ hadj hd => exact ⟨hadj.2.1, hd⟩

/-- In a converged state every path from a seed bounds the distance of its
end point. -/
theorem converged_le (sq : α → α) (G : Grid α) (dom init : Nat → Int) (hG : G.Pos)
    (r : Flood α) (h : BInv sq G dom init r) (hc : r.voxel_counter = 0) (v : Nat) (l : α)
    (hp : Reach sq G dom init v l) :
    r.flood_dist v ≠ 0 ∧ r.flood_dist v ≤ G.dist_to_axes + l := by
  have hhalf := dist_to_axes_pos G hG
  induction hp with
  | seed v hv _ h0 =>
    rw [h.inv.seed v hv h0]
    exact ⟨ne_of_gt hhalf, by simp⟩
  | step u v l hr hadj hdv ih =>
    obtain ⟨hu, hdu⟩ := hr.in_domain
    obtain ⟨a, b⟩ := ih
    obtain ⟨c, d⟩ := h.settled u hu hdu a (Or.inl (h.conv hc u hu hdu)) v hadj hdv
    exact ⟨c, by linarith⟩

/-- In a converged state the distance of an in-domain voxel is half a voxel
plus the least weight of a path from a seed, and zero when there is no
path. -/
theorem converged_least (sq : α → α) (G : Grid α) (dom init : Nat → Int) (hG : G.Pos)
    (r : Flood α) (h : BInv sq G dom init r) (hc : r.voxel_counter = 0) (v : Nat)
    (hv : v < G.nr_voxels) (hdv : dom v > 0) :
    ((∃ l, Reach sq G dom init v l) →
      IsLeast {l | Reach sq G dom init v l} (r.flood_dist v - G.dist_to_axes)) ∧
    (r.flood_dist v = 0 ↔ ¬ ∃ l, Reach sq G dom init v l) := by
  constructor
  · rintro ⟨l, hl⟩
    obtain ⟨a, _⟩ := converged_le sq G dom init hG r h hc v l hl
    refine ⟨h.inv.sound v hv hdv a, fun l' hl' => ?_⟩
    obtain ⟨_, b⟩ := converged_le sq G dom init hG r h hc v l' hl'
    linarith
  · constructor
    · rintro h0 ⟨l, hl⟩
      exact (converged_le sq G dom init hG r h hc v l hl).1 h0
    · intro hno
      by_contra hne
      exact hno ⟨_, h.inv.sound v hv hdv hne⟩

theorem geodistance_binv (sq : α → α) (G : Grid α) (dom raw : Nat → Int)
    (mode_init_val : Option Int) (max_dist : Option α) (fuel : Nat) (r : Flood α)
    (hG : G.Pos) (hsq : SqrtPos sq)
    (hrun : geodistance sq G dom raw mode_init_val max_dist fuel = some r) :
    BInv sq G dom (label_init mode_init_val raw G.nr_voxels).1 r ∧
    continues max_dist r = false := by
  obtain ⟨k, _, e, hc⟩ := flood_loop_some sq G dom _ max_dist fuel _ r hrun
  rw [e]
  refine ⟨iterate_binv sq G dom _ hG hsq _ (init_binv sq G dom raw _ hG hsq) k, ?_⟩
  rw [← e]; exact hc

/-- C1: with positive voxel spacings, when the sweep loop ends because its
last sweep expanded no voxel, every in-domain voxel `v` that some 26-connected
in-domain path joins to an in-domain seed ends with the distance
`half_voxel + M(v)`, where `M(v)` is the least summed weight of such a path,
and an in-domain voxel ends with distance 0 exactly when there is no such
path. -/
theorem geodistance_shortest_path (sq : α → α) (G : Grid α) (dom raw : Nat → Int)
    (mode_init_val : Option Int) (max_dist : Option α) (fuel : Nat) (r : Flood α)
    (hG : G.Pos) (hsq : SqrtPos sq)
    (hrun : geodistance sq G dom raw mode_init_val max_dist fuel = some r)
    (hconv : r.voxel_counter = 0) (v : Nat) (hv : v < G.nr_voxels) (hdv : dom v > 0) :
    ((∃ l, Reach sq G dom (label_init mode_init_val raw G.nr_voxels).1 v l) →
      IsLeast {l | Reach sq G dom (label_init mode_init_val raw G.nr_voxels).1 v l}
        (r.flood_dist v - G.dist_to_axes)) ∧
    (r.flood_dist v = 0 ↔
      ¬ ∃ l, Reach sq G dom (label_init mode_init_val raw G.nr_voxels).1 v l) :=
  converged_least sq G dom _ hG r
    (geodistance_binv sq G dom raw mode_init_val max_dist fuel r hG hsq hrun).1 hconv v hv hdv

end LoopProofs

theorem geodistance_shortest_path_witness :
    ∃ r : Flood ℚ,
      geodistance (fun x => (x + 1) / 2) ⟨2, 1, 1, 1, 1, 1⟩ (fun _ => 1)
        (fun k => if k = 0 then 1 else 0) none none 3 = some r ∧
      (r.flood_dist 1 = 0 ↔
        ¬ ∃ l : ℚ, Reach (fun x : ℚ => (x + 1) / 2) ⟨2, 1, 1, 1, 1, 1⟩ (fun _ => 1)
          (label_init none (fun k => if k = 0 then 1 else 0)
            (⟨2, 1, 1, 1, 1, 1⟩ : Grid ℚ).nr_voxels).1 1 l) := by
  have hsome : (geodistance (fun x : ℚ => (x + 1) / 2) ⟨2, 1, 1, 1, 1, 1⟩ (fun _ => 1)
      (fun k => if k = 0 then 1 else 0) none none 3).isSome = true := by decide!
  obtain ⟨r, hr⟩ := Option.isSome_iff_exists.mp hsome
  have hvc : (geodistance (fun x : ℚ => (x + 1) / 2) ⟨2, 1, 1, 1, 1, 1⟩ (fun _ => 1)
      (fun k => if k = 0 then 1 else 0) none none 3).map (fun s => s.voxel_counter)
        = some 0 := by decide!
  rw [hr] at hvc
  exact ⟨r, hr, (geodistance_shortest_path (fun x : ℚ => (x + 1) / 2) ⟨2, 1, 1, 1, 1, 1⟩
    (fun _ => 1) (fun k => if k = 0 then 1 else 0) none none 3 r
    ⟨by norm_num, by norm_num, by norm_num⟩ (fun x hx => by positivity) hr
    (by simpa using hvc) 1 (by decide) (by decide)).2⟩

/-! ## Voxels outside the domain -/

section OutsideProofs
variable {α : Type} [LinearOrderedField α]

theorem relax_outside_frame (dom : Nat → Int) (i j : Nat) (w : α) (s : Flood α) (v : Nat)
    (hv : dom v ≤ 0) :
    (relax dom i j w s).flood_dist v = s.flood_dist v ∧
    (relax dom i j w s).flood_step v = s.flood_step v := by
  by_cases hvj : v = j
  · subst hvj
    rw [relax_of_outside dom i v w s (not_lt.mpr hv)]
    exact ⟨rfl, rfl⟩
  · exact relax_frame dom i j w s v hvj

theorem expand_outside_frame (sq : α → α) (G : Grid α) (dom : Nat → Int) (i : Nat)
    (s : Flood α) (v : Nat) (hv : dom v ≤ 0) :
    (expand sq G dom i s).flood_dist v = s.flood_dist v ∧
    (expand sq G dom i s).flood_step v = s.flood_step v := by
  rw [expand_eq_table]
  unfold expand_table
  have key := foldl_induct (relax_nbr G dom i)
    (fun (_ : List (Nbr α)) (t : Flood α) =>
      t.flood_dist v = s.flood_dist v ∧ t.flood_step v = s.flood_step v)
    (nbr_table sq G)
    (by
      intro _ e t _ ⟨h1, h2⟩
      unfold relax_nbr
      split
      · obtain ⟨a, b⟩ := relax_outside_frame dom i (nbr_index G i e) e.w t v hv
        exact ⟨a.trans h1, b.trans h2⟩
      · exact ⟨h1, h2⟩)
    (nbr_table sq G) [] { s with voxel_counter := s.voxel_counter + 1 } (fun _ h => h)
    ⟨rfl, rfl⟩
  obtain ⟨m1, m2, _, _⟩ := update_max_core i
    ((nbr_table sq G).foldl (relax_nbr G dom i) { s with voxel_counter := s.voxel_counter + 1 })
  rw [m1, m2]
  exact key

theorem sweep_outside_frame (sq : α → α) (G : Grid α) (dom : Nat → Int) (voi : List Nat)
    (s : Flood α) (v : Nat) (hv : dom v ≤ 0) :
    (sweep sq G dom voi s).flood_dist v = s.flood_dist v ∧
    (sweep sq G dom voi s).flood_step v = s.flood_step v := by
  have key := foldl_induct (visit sq G dom)
    (fun (_ : List Nat) (t : Flood α) =>
      t.flood_dist v = s.flood_dist v ∧ t.flood_step v = s.flood_step v)
    voi
    (by
      intro _ i t _ ⟨h1, h2⟩
      unfold visit
      split
      · obtain ⟨a, b⟩ := expand_outside_frame sq G dom i t v hv
        exact ⟨a.trans h1, b.trans h2⟩
      · exact ⟨h1, h2⟩)
    voi [] { s with voxel_counter := 0 } (fun _ h => h) ⟨rfl, rfl⟩
  exact key

theorem iterate_outside_frame (sq : α → α) (G : Grid α) (dom : Nat → Int) (voi : List Nat)
    (s : Flood α) (v : Nat) (hv : dom v ≤ 0) (k : Nat) :
    ((sweep sq G dom voi)^[k] s).flood_dist v = s.flood_dist v ∧
    ((sweep sq G dom voi)^[k] s).flood_step v = s.flood_step v := by
  induction k with
  | zero => exact ⟨rfl, rfl⟩
  | succ k ih =>
    rw [Function.iterate_succ_apply']
    obtain ⟨a, b⟩ := sweep_outside_frame sq G dom voi ((sweep sq G dom voi)^[k] s) v hv
    exact ⟨a.trans ih.1, b.trans ih.2⟩

/-- C2, as the code has it: a voxel whose domain mask value is `<= 0` keeps,
after every sweep and in the final distance field, the distance that the
initialisation gave it: 0 when it is not a seed, half a voxel when it is a
seed (line 222 does not look at the domain mask). -/
theorem domain_confinement_amended (sq : α → α) (G : Grid α) (dom raw : Nat → Int)
    (mode_init_val : Option Int) (max_dist : Option α) (i : Nat) (hi : i < G.nr_voxels)
    (hd : dom i ≤ 0) :
    (init_flood G raw (label_init mode_init_val raw G.nr_voxels).1).flood_dist i =
      (if (label_init mode_init_val raw G.nr_voxels).1 i ≠ 0 then G.dist_to_axes else 0) ∧
    (∀ k, ((sweep sq G dom (voi_id dom G.nr_voxels))^[k]
        (init_flood G raw (label_init mode_init_val raw G.nr_voxels).1)).flood_dist i =
      (init_flood G raw (label_init mode_init_val raw G.nr_voxels).1).flood_dist i) ∧
    (∀ fuel r, geodistance sq G dom raw mode_init_val max_dist fuel = some r →
      r.flood_dist i =
        (init_flood G raw (label_init mode_init_val raw G.nr_voxels).1).flood_dist i) := by
  refine ⟨init_flood_dist G raw _ i hi, fun k => (iterate_outside_frame sq G dom _ _ i hd k).1,
    fun fuel r hrun => ?_⟩
  obtain ⟨k, _, e, _⟩ := flood_loop_some sq G dom _ max_dist fuel _ r hrun
  rw [e]
  exact (iterate_outside_frame sq G dom _ _ i hd k).1

end OutsideProofs

/-- C2 fails as stated: on a grid of one voxel that is a seed and lies outside
the domain, the voxel has distance 1/2 after the initialisation and in the
final distance field, although its mask value is `<= 0`. -/
theorem domain_confinement_counterexample :
    (fun _ : Nat => (0 : Int)) 0 ≤ 0 ∧
    (init_flood (⟨1, 1, 1, 1, 1, 1⟩ : Grid ℚ) (fun _ => 1)
      (label_init none (fun _ => 1) 1).1).flood_dist 0 = 1 / 2 ∧
    (geodistance (fun x : ℚ => (x + 1) / 2) ⟨1, 1, 1, 1, 1, 1⟩ (fun _ => 0) (fun _ => 1)
      none none 1).map (fun r => r.flood_dist 0) = some (1 / 2) ∧
    (1 / 2 : ℚ) ≠ 0 := by
  decide!

theorem domain_confinement_amended_witness :
    ((sweep (fun x : ℚ => (x + 1) / 2) ⟨1, 1, 1, 1, 1, 1⟩ (fun _ => 0)
        (voi_id (fun _ => 0) 1))^[3]
        (init_flood ⟨1, 1, 1, 1, 1, 1⟩ (fun _ => 1) (label_init none (fun _ => 1) 1).1)).flood_dist 0 =
      (init_flood (⟨1, 1, 1, 1, 1, 1⟩ : Grid ℚ) (fun _ => 1)
        (label_init none (fun _ => 1) 1).1).flood_dist 0 :=
  (domain_confinement_amended (fun x : ℚ => (x + 1) / 2) ⟨1, 1, 1, 1, 1, 1⟩ (fun _ => 0)
    (fun _ => 1) none none 0 (by decide) (by decide)).2.1 3

/-! ## Seeds -/

section SeedProofs
variable {α : Type} [LinearOrderedField α]

end SeedProofs

/-- C4 fails on the code: on a line of five voxels with spacing 1, all in the
domain, a seed at index 0 and `-max_dist 3`, the loop ends after four sweeps
and the last voxel has the final distance 9/2, which exceeds the cutoff. -/
theorem cutoff_exceeded :
    (geodistance (fun x : ℚ => (x + 1) / 2) ⟨5, 1, 1, 1, 1, 1⟩ (fun _ => 1)
      (fun k => if k = 0 then 1 else 0) none (some 3) 4).map
        (fun r => (r.flood_dist 3, r.flood_dist 4, r.grow_step, r.temp_max_dist))
      = some (7 / 2, 9 / 2, 5, 7 / 2) ∧ (3 : ℚ) < 9 / 2 := by
  decide!

/-! ## Termination -/

section TerminationProofs
variable {α : Type} [LinearOrderedField α]

/-- Once the sweep counter is so large that `grow_step` smallest steps exceed
`nr_voxels` largest steps, no relaxation is accepted any more. -/
theorem relax_quiet (sq : α → α) (G : Grid α) (dom init : Nat → Int) (hG : G.Pos)
    (hsq : SqrtPos sq) (s : Flood α) (i j : Nat) (w : α) (h : Inv sq G dom init s)
    (hi : i < G.nr_voxels) (hdi : dom i > 0) (hs : s.flood_step i = s.grow_step)
    (hadj : Adj G i j) (hw : w = step_weight sq G i j) (hw0 : w_min sq G ≤ w)
    (hw1 : w ≤ w_max sq G)
    (hK : (G.nr_voxels : α) * w_max sq G < ((s.grow_step : Int) : α) * w_min sq G) :
    relax dom i j w s = s := by
  by_cases hd : dom j > 0
  swap
  · exact relax_of_outside dom i j w s hd
  by_cases hc : s.flood_dist i + w < s.flood_dist j ∨ s.flood_dist j = 0
  swap
  · exact relax_of_reject dom i j w s hc
  exfalso
  have hI := relax_inv sq G dom init hG hsq s i j w h hi hdi hs hadj hw hw0 hw1
  have hj : j < G.nr_voxels := hadj.2.1
  have hlow := h.active_lower i hi hs
  obtain ⟨_, hipos⟩ := h.active_pos hG hsq i hi hs
  have hmin := w_min_pos sq G hG hsq
  have hmax : 0 < w_max sq G := lt_of_lt_of_le hmin (w_min_le_w_max sq G)
  have hval : (relax dom i j w s).flood_dist j = s.flood_dist i + w := by
    rw [relax_of_accept dom i j w s hd hc]; simp
  have hne : (relax dom i j w s).flood_dist j ≠ 0 := by
    rw [hval]; exact ne_of_gt (by linarith)
  have hup := hI.upper j hj hne
  rw [hval] at hup
  have hcnt : (reached G.nr_voxels (relax dom i j w s) : α) ≤ (G.nr_voxels : α) := by
    exact_mod_cast reached_le G.nr_voxels (relax dom i j w s)
  have hcnt' := mul_le_mul_of_nonneg_right hcnt hmax.le
  nlinarith

theorem expand_quiet (sq : α → α) (G : Grid α) (dom init : Nat → Int) (hG : G.Pos)
    (hsq : SqrtPos sq) (s : Flood α) (i : Nat) (h : Inv sq G dom init s)
    (hi : i < G.nr_voxels) (hdi : dom i > 0) (hs : s.flood_step i = s.grow_step)
    (hK : (G.nr_voxels : α) * w_max sq G < ((s.grow_step : Int) : α) * w_min sq G) :
    (expand sq G dom i s).flood_dist = s.flood_dist ∧
    (expand sq G dom i s).flood_step = s.flood_step := by
  rw [expand_eq_table]
  unfold expand_table
  have key := foldl_induct (relax_nbr G dom i)
    (fun (_ : List (Nbr α)) (t : Flood α) =>
      t.flood_dist = s.flood_dist ∧ t.flood_step = s.flood_step ∧ t.grow_step = s.grow_step)
    (nbr_table sq G)
    (by
      intro _ e t he ⟨h1, h2, h3⟩
      unfold relax_nbr
      split
      · next hg =>
        obtain ⟨hadj, hw⟩ := nbr_sound sq G i hi e he hg
        obtain ⟨hw0, hw1⟩ := nbr_weight_bounds sq G e he
        rw [relax_quiet sq G dom init hG hsq t i _ e.w (h.core_congr h1 h2 h3) hi hdi
          (by rw [h2, h3]; exact hs) hadj hw hw0 hw1 (by rw [h3]; exact hK)]
        exact ⟨h1, h2, h3⟩
      · exact ⟨h1, h2, h3⟩)
    (nbr_table sq G) [] { s with voxel_counter := s.voxel_counter + 1 } (fun _ h => h)
    ⟨rfl, rfl, rfl⟩
  obtain ⟨m1, m2, _, _⟩ := update_max_core i
    ((nbr_table sq G).foldl (relax_nbr G dom i) { s with voxel_counter := s.voxel_counter + 1 })
  exact ⟨m1.trans key.1, m2.trans key.2.1⟩

theorem sweep_quiet (sq : α → α) (G : Grid α) (dom init : Nat → Int) (hG : G.Pos)
    (hsq : SqrtPos sq) (s : Flood α) (h : Inv sq G dom init s)
    (hK : (G.nr_voxels : α) * w_max sq G < ((s.grow_step : Int) : α) * w_min sq G) :
    (sweep sq G dom (voi_id dom G.nr_voxels) s).flood_dist = s.flood_dist ∧
    (sweep sq G dom (voi_id dom G.nr_voxels) s).flood_step = s.flood_step := by
  have key := foldl_induct (visit sq G dom)
    (fun (_ : List Nat) (t : Flood α) =>
      t.flood_dist = s.flood_dist ∧ t.flood_step = s.flood_step ∧ t.grow_step = s.grow_step)
    (voi_id dom G.nr_voxels)
    (by
      intro _ i t hi ⟨h1, h2, h3⟩
      obtain ⟨hi1, hi2⟩ := (mem_voi_id dom G.nr_voxels i).mp hi
      unfold visit
      split
      · next hact =>
        obtain ⟨a, b⟩ := expand_quiet sq G dom init hG hsq t i (h.core_congr h1 h2 h3) hi1 hi2
          hact (by rw [h3]; exact hK)
        exact ⟨a.trans h1, b.trans h2, (expand_counter sq G dom i t).1.trans h3⟩
      · exact ⟨h1, h2, h3⟩)
    (voi_id dom G.nr_voxels) [] { s with voxel_counter := 0 } (fun _ h => h) ⟨rfl, rfl, rfl⟩
  exact ⟨key.1, key.2.1⟩

theorem foldl_visit_idle (sq : α → α) (G : Grid α) (dom : Nat → Int) (l : List Nat) :
    ∀ s : Flood α, (∀ i ∈ l, s.flood_step i ≠ s.grow_step) →
      l.foldl (visit sq G dom) s = s := by
  induction l with
  | nil => intro s _; rfl
  | cons i l ih =>
    intro s h
    have h1 : visit sq G dom s i = s := by
      unfold visit; rw [if_neg (h i (List.mem_cons_self _ _))]
    rw [List.foldl_cons, h1]
    exact ih s (fun k hk => h k (List.mem_cons_of_mem _ hk))

theorem sweep_grow_step (sq : α → α) (G : Grid α) (dom : Nat → Int) (voi : List Nat)
    (s : Flood α) : (sweep sq G dom voi s).grow_step = s.grow_step + 1 := by
  have key := foldl_induct (visit sq G dom)
    (fun (_ : List Nat) (t : Flood α) => t.grow_step = s.grow_step) voi
    (by intro _ i t _ h1; exact (visit_grow_step sq G dom t i).trans h1)
    voi [] { s with voxel_counter := 0 } (fun _ h => h) rfl
  show (voi.foldl (visit sq G dom) { s with voxel_counter := 0 }).grow_step + 1 = _
  rw [key]

/-- The part of the boundary invariant that bounds the number of sweeps:
from sweep `K` on nothing is written, so from sweep `K + 1` on no in-domain
voxel is active and from sweep `K + 2` on the counter of expanded voxels is
zero. -/
theorem sweep_late (sq : α → α) (G : Grid α) (dom init : Nat → Int) (hG : G.Pos)
    (hsq : SqrtPos sq) (K : Int)
    (hK : (G.nr_voxels : α) * w_max sq G < ((K : Int) : α) * w_min sq G) (s : Flood α)
    (h : BInv sq G dom init s)
    (h1 : K + 1 ≤ s.grow_step → ∀ v, v < G.nr_voxels → dom v > 0 → s.flood_step v < s.grow_step)
    (_h2 : K + 2 ≤ s.grow_step → s.voxel_counter = 0) :
    (K + 1 ≤ (sweep sq G dom (voi_id dom G.nr_voxels) s).grow_step →
      ∀ v, v < G.nr_voxels → dom v > 0 →
        (sweep sq G dom (voi_id dom G.nr_voxels) s).flood_step v
          < (sweep sq G dom (voi_id dom G.nr_voxels) s).grow_step) ∧
    (K + 2 ≤ (sweep sq G dom (voi_id dom G.nr_voxels) s).grow_step →
      (sweep sq G dom (voi_id dom G.nr_voxels) s).voxel_counter = 0) := by
  have hmin := w_min_pos sq G hG hsq
  rw [sweep_grow_step]
  constructor
  · intro hg v hv _
    have hKs : (G.nr_voxels : α) * w_max sq G < ((s.grow_step : Int) : α) * w_min sq G := by
      have : ((K : Int) : α) ≤ ((s.grow_step : Int) : α) := by exact_mod_cast (by omega : K ≤ s.grow_step)
      nlinarith
    rw [(sweep_quiet sq G dom init hG hsq s h.inv hKs).2]
    have := h.step_le v hv
    omega
  · intro hg
    have hidle : ∀ i ∈ voi_id dom G.nr_voxels,
        ({ s with voxel_counter := 0 } : Flood α).flood_step i
          ≠ ({ s with voxel_counter := 0 } : Flood α).grow_step := by
      intro i hi
      obtain ⟨hi1, hi2⟩ := (mem_voi_id dom G.nr_voxels i).mp hi
      have := h1 (by omega) i hi1 hi2
      show s.flood_step i ≠ s.grow_step
      omega
    show ((voi_id dom G.nr_voxels).foldl (visit sq G dom)
      { s with voxel_counter := 0 }).voxel_counter = 0
    rw [foldl_visit_idle sq G dom _ _ hidle]

theorem flood_loop_terminates (sq : α → α) (G : Grid α) (dom init : Nat → Int) (hG : G.Pos)
    (hsq : SqrtPos sq) (max_dist : Option α) (K : Int)
    (hK : (G.nr_voxels : α) * w_max sq G < ((K : Int) : α) * w_min sq G) (fuel : Nat) :
    ∀ s : Flood α, BInv sq G dom init s →
      (K + 1 ≤ s.grow_step → ∀ v, v < G.nr_voxels → dom v > 0 →
        s.flood_step v < s.grow_step) →
      (K + 2 ≤ s.grow_step → s.voxel_counter = 0) →
      K + 2 ≤ s.grow_step + fuel →
      ∃ r, flood_loop sq G dom (voi_id dom G.nr_voxels) max_dist fuel s = some r := by
  induction fuel with
  | zero =>
    intro s _ _ h2 hf
    have hc : s.voxel_counter = 0 := h2 (by omega)
    refine ⟨s, ?_⟩
    unfold flood_loop
    simp [continues, hc]
  | succ fuel ih =>
    intro s hb h1 h2 hf
    unfold flood_loop
    split
    · obtain ⟨a, b⟩ := sweep_late sq G dom init hG hsq K hK s hb h1 h2
      exact ih _ (sweep_binv sq G dom init hG hsq s hb) a b
        (by rw [sweep_grow_step]; omega)
    · exact ⟨s, rfl⟩

theorem flood_loop_mono (sq : α → α) (G : Grid α) (dom : Nat → Int) (voi : List Nat)
    (max_dist : Option α) (fuel : Nat) :
    ∀ (s r : Flood α), flood_loop sq G dom voi max_dist fuel s = some r →
      flood_loop sq G dom voi max_dist (fuel + 1) s = some r := by
  induction fuel with
  | zero =>
    intro s r h
    unfold flood_loop at h ⊢
    split at h
    · exact absurd h (by simp)
    · next hc => rw [if_neg hc]; exact h
  | succ fuel ih =>
    intro s r h
    rw [flood_loop] at h ⊢
    split at h
    · next hc => rw [if_pos hc]; exact ih _ _ h
    · next hc => rw [if_neg hc]; exact h

theorem flood_loop_mono_le (sq : α → α) (G : Grid α) (dom : Nat → Int) (voi : List Nat)
    (max_dist : Option α) (s r : Flood α) (fuel fuel' : Nat) (hle : fuel ≤ fuel')
    (h : flood_loop sq G dom voi max_dist fuel s = some r) :
    flood_loop sq G dom voi max_dist fuel' s = some r := by
  induction hle with
  | refl => exact h
  | step _ ih => exact flood_loop_mono sq G dom voi max_dist _ s r ih

theorem continues_false_iff (max_dist : Option α) (r : Flood α) :
    continues max_dist r = false ↔
      (r.voxel_counter = 0 ∨ ∃ m, max_dist = some m ∧ m ≤ r.temp_max_dist) := by
  cases max_dist with
  | none => simp [continues, below_cutoff]
  | some m =>
    simp only [continues, below_cutoff]
    by_cases h : r.voxel_counter = 0 <;> simp [h]

theorem geodistance_terminates [Archimedean α] (sq : α → α) (G : Grid α) (dom raw : Nat → Int)
    (mode_init_val : Option Int) (max_dist : Option α) (hG : G.Pos) (hsq : SqrtPos sq) :
    ∃ fuel r, ∀ fuel', fuel ≤ fuel' →
      geodistance sq G dom raw mode_init_val max_dist fuel' = some r := by
  have hmin := w_min_pos sq G hG hsq
  have hmax : 0 < w_max sq G := lt_of_lt_of_le hmin (w_min_le_w_max sq G)
  obtain ⟨m, hm⟩ := exists_nat_gt ((G.nr_voxels : α) * w_max sq G / w_min sq G)
  have hK : (G.nr_voxels : α) * w_max sq G < (((m : Int) : Int) : α) * w_min sq G := by
    rw [div_lt_iff₀ hmin] at hm
    exact_mod_cast hm
  have hm0 : 0 < m := by
    rcases Nat.eq_zero_or_pos m with h | h
    · subst h
      have : (0 : α) ≤ (G.nr_voxels : α) * w_max sq G := by positivity
      simp at hK
      linarith
    · exact h
  have hb := init_binv sq G dom raw (label_init mode_init_val raw G.nr_voxels).1 hG hsq
  have hg : (init_flood G raw (label_init mode_init_val raw G.nr_voxels).1 : Flood α).grow_step
      = 1 := rfl
  obtain ⟨r, hr⟩ := flood_loop_terminates sq G dom _ hG hsq max_dist (m : Int) hK (m + 1)
    (init_flood G raw (label_init mode_init_val raw G.nr_voxels).1) hb
    (by intro h; rw [hg] at h; omega) (by intro h; rw [hg] at h; omega)
    (by rw [hg]; push_cast; omega)
  exact ⟨m + 1, r, fun fuel' hle => flood_loop_mono_le sq G dom _ max_dist _ r _ _ hle hr⟩

/-- C10: with positive spacings, in exact (Archimedean) arithmetic, the sweep
loop terminates for every grid, domain mask, seed field and cutoff: after
finitely many sweeps it is left, and then either the last sweep expanded no
voxel or the running maximum has reached `max_dist`. -/
theorem sweep_loop_terminates [Archimedean α] (sq : α → α) (G : Grid α) (dom raw : Nat → Int)
    (mode_init_val : Option Int) (max_dist : Option α) (hG : G.Pos) (hsq : SqrtPos sq) :
    ∃ fuel r, (∀ fuel', fuel ≤ fuel' →
        geodistance sq G dom raw mode_init_val max_dist fuel' = some r) ∧
      (r.voxel_counter = 0 ∨ ∃ m, max_dist = some m ∧ m ≤ r.temp_max_dist) := by
  obtain ⟨fuel, r, h⟩ := geodistance_terminates sq G dom raw mode_init_val max_dist hG hsq
  refine ⟨fuel, r, h, ?_⟩
  obtain ⟨_, _, _, hc⟩ := flood_loop_some sq G dom _ max_dist fuel _ r (h fuel le_rfl)
  exact (continues_false_iff max_dist r).mp hc

end TerminationProofs

theorem sweep_loop_terminates_witness :
    ∃ fuel, ∃ r : Flood ℚ, (∀ fuel', fuel ≤ fuel' →
        geodistance (fun x : ℚ => (x + 1) / 2) ⟨5, 4, 3, 1, 2, 3⟩ (fun k => (k : Int) % 3)
          (fun k => if k = 7 then 1 else 0) none (some 4) fuel' = some r) ∧
      (r.voxel_counter = 0 ∨ ∃ m, (some 4 : Option ℚ) = some m ∧ m ≤ r.temp_max_dist) :=
  sweep_loop_terminates (fun x : ℚ => (x + 1) / 2) ⟨5, 4, 3, 1, 2, 3⟩ (fun k => (k : Int) % 3)
    (fun k => if k = 7 then 1 else 0) none (some 4) ⟨by norm_num, by norm_num, by norm_num⟩
    (fun x hx => by positivity)

/-! ## A line of voxels -/

theorem label_init_none (raw : Nat → Int) (n i : Nat) : (label_init none raw n).1 i = raw i := by
  rw [label_init_fst]; split <;> rfl

section LineProofs
variable {α : Type} [LinearOrderedField α]

theorem step_weight_pos (sq : α → α) (G : Grid α) (hG : G.Pos) (hsq : SqrtPos sq) (u v : Nat)
    (hadj : Adj G u v) : 0 < step_weight sq G u v := by
  obtain ⟨e, he, hg, hidx⟩ := nbr_complete sq G u v hadj
  obtain ⟨_, hw⟩ := nbr_sound sq G u hadj.1 e he hg
  rw [hidx] at hw
  rw [← hw]
  exact lt_of_lt_of_le (w_min_pos sq G hG hsq) (nbr_weight_bounds sq G e he).1

/-- The line scenario, for any grid in which the neighbours of a voxel are
the voxels next to it in index order and every step weighs `w`. -/
theorem line_general [Archimedean α] (sq : α → α) (hsq : SqrtPos sq) (G : Grid α) (hG : G.Pos)
    (n : Nat) (dom raw : Nat → Int) (w : α)
    (hdom : ∀ k, k < n → dom k > 0) (hseed : raw 0 ≠ 0)
    (hraw : ∀ k, 0 < k → k < n → raw k = 0)
    (hnv : G.nr_voxels = n)
    (hnear : ∀ u v, Adj G u v → v ≤ u + 1)
    (hnext : ∀ u, u + 1 < n → Adj G u (u + 1))
    (hwt : ∀ u v, Adj G u v → step_weight sq G u v = w) :
    ∃ fuel r, (∀ fuel', fuel ≤ fuel' → geodistance sq G dom raw none none fuel' = some r) ∧
      ∀ k, k < n → r.flood_dist k = G.dist_to_axes + (k : α) * w := by
  obtain ⟨fuel, r, hrun⟩ := geodistance_terminates sq G dom raw none none hG hsq
  refine ⟨fuel, r, hrun, fun k hk => ?_⟩
  obtain ⟨hb, hc⟩ := geodistance_binv sq G dom raw none none fuel r hG hsq (hrun fuel le_rfl)
  have hconv : r.voxel_counter = 0 := by
    rcases (continues_false_iff none r).mp hc with h | ⟨m, hm, _⟩
    · exact h
    · exact absurd hm (by simp)
  have hinit : ∀ i, (label_init none raw G.nr_voxels).1 i = raw i :=
    fun i => label_init_none raw G.nr_voxels i
  -- the straight path
  have hpath : ∀ j, j < n →
      Reach sq G dom (label_init none raw G.nr_voxels).1 j ((j : α) * w) := by
    intro j
    induction j with
    | zero =>
      intro h0
      have := @Reach.seed α _ sq G dom (label_init none raw G.nr_voxels).1 0 (by omega)
        (hdom 0 h0) (by rw [hinit]; exact hseed)
      simpa using this
    | succ j ih =>
      intro hj
      have hadj := hnext j hj
      have := Reach.step j (j + 1) _ (ih (by omega)) hadj (hdom _ hj)
      rw [hwt j (j + 1) hadj] at this
      have e : ((j + 1 : Nat) : α) * w = (j : α) * w + w := by push_cast; ring
      rw [e]; exact this
  -- no path is shorter
  have hlow : ∀ v l, Reach sq G dom (label_init none raw G.nr_voxels).1 v l →
      (v : α) * w ≤ l := by
    intro v l hp
    induction hp with
    | seed v hv _ h0 =>
      rw [hinit] at h0
      have : v = 0 := by
        by_contra hne
        exact h0 (hraw v (by omega) (by omega))
      subst this
      simp
    | step u v l _ hadj _ ih =>
      have hle := hnear u v hadj
      have hpos := step_weight_pos sq G hG hsq u v hadj
      rw [hwt u v hadj] at hpos ⊢
      have h1 : (v : α) ≤ (u : α) + 1 := by exact_mod_cast hle
      nlinarith
  obtain ⟨hleast, _⟩ := converged_least sq G dom _ hG r hb hconv k (by omega) (hdom k hk)
  obtain ⟨hmem, hmin⟩ := hleast ⟨_, hpath k hk⟩
  have h1 := hmin (hpath k hk)
  have h2 := hlow _ _ hmem
  linarith

end LineProofs

section LineAxes
variable {α : Type} [LinearOrderedField α]

theorem line_x [Archimedean α] (sq : α → α) (hsq : SqrtPos sq) (G : Grid α) (hG : G.Pos)
    (n : Nat) (dom raw : Nat → Int) (hdom : ∀ k, k < n → dom k > 0) (hseed : raw 0 ≠ 0)
    (hraw : ∀ k, 0 < k → k < n → raw k = 0)
    (hx : G.size_x = n) (hy : G.size_y = 1) (hz : G.size_z = 1) :
    ∃ fuel r, (∀ fuel', fuel ≤ fuel' → geodistance sq G dom raw none none fuel' = some r) ∧
      ∀ k, k < n → r.flood_dist k = G.dist_to_axes + (k : α) * G.dX := by
  have hnv : G.nr_voxels = n := by simp [Grid.nr_voxels, hx, hy, hz]
  have hco : ∀ u, u < n → ind2sub_3D u G.size_x G.size_y = (u, 0, 0) := by
    intro u hu
    simp [ind2sub_3D, hx, hy, Nat.mod_eq_of_lt hu, Nat.div_eq_of_lt hu]
  apply line_general sq hsq G hG n dom raw G.dX hdom hseed hraw hnv
  · rintro u v ⟨hu, hv, _, h1, _, _⟩
    rw [hnv] at hu hv
    rw [hco u hu, hco v hv] at h1
    exact h1.2
  · intro u hu
    refine ⟨by omega, by omega, by omega, ?_, ?_, ?_⟩ <;>
      (rw [hco u (by omega), hco (u + 1) hu]; simp [near]; try omega)
  · rintro u v ⟨hu, hv, hne, _, _, _⟩
    rw [hnv] at hu hv
    simp [step_weight, hco u hu, hco v hv, hne, class_weight]

theorem line_y [Archimedean α] (sq : α → α) (hsq : SqrtPos sq) (G : Grid α) (hG : G.Pos)
    (n : Nat) (dom raw : Nat → Int) (hdom : ∀ k, k < n → dom k > 0) (hseed : raw 0 ≠ 0)
    (hraw : ∀ k, 0 < k → k < n → raw k = 0)
    (hx : G.size_x = 1) (hy : G.size_y = n) (hz : G.size_z = 1) :
    ∃ fuel r, (∀ fuel', fuel ≤ fuel' → geodistance sq G dom raw none none fuel' = some r) ∧
      ∀ k, k < n → r.flood_dist k = G.dist_to_axes + (k : α) * G.dY := by
  have hnv : G.nr_voxels = n := by simp [Grid.nr_voxels, hx, hy, hz]
  have hco : ∀ u, u < n → ind2sub_3D u G.size_x G.size_y = (0, u, 0) := by
    intro u hu
    simp [ind2sub_3D, hx, hy, Nat.mod_eq_of_lt hu, Nat.div_eq_of_lt hu, Nat.mod_one]
  apply line_general sq hsq G hG n dom raw G.dY hdom hseed hraw hnv
  · rintro u v ⟨hu, hv, _, _, h1, _⟩
    rw [hnv] at hu hv
    rw [hco u hu, hco v hv] at h1
    exact h1.2
  · intro u hu
    refine ⟨by omega, by omega, by omega, ?_, ?_, ?_⟩ <;>
      (rw [hco u (by omega), hco (u + 1) hu]; simp [near]; try omega)
  · rintro u v ⟨hu, hv, hne, _, _, _⟩
    rw [hnv] at hu hv
    simp [step_weight, hco u hu, hco v hv, hne, class_weight]

theorem line_z [Archimedean α] (sq : α → α) (hsq : SqrtPos sq) (G : Grid α) (hG : G.Pos)
    (n : Nat) (dom raw : Nat → Int) (hdom : ∀ k, k < n → dom k > 0) (hseed : raw 0 ≠ 0)
    (hraw : ∀ k, 0 < k → k < n → raw k = 0)
    (hx : G.size_x = 1) (hy : G.size_y = 1) (hz : G.size_z = n) :
    ∃ fuel r, (∀ fuel', fuel ≤ fuel' → geodistance sq G dom raw none none fuel' = some r) ∧
      ∀ k, k < n → r.flood_dist k = G.dist_to_axes + (k : α) * G.dZ := by
  have hnv : G.nr_voxels = n := by simp [Grid.nr_voxels, hx, hy, hz]
  have hco : ∀ u, u < n → ind2sub_3D u G.size_x G.size_y = (0, 0, u) := by
    intro u hu
    simp [ind2sub_3D, hx, hy, Nat.mod_one]
  apply line_general sq hsq G hG n dom raw G.dZ hdom hseed hraw hnv
  · rintro u v ⟨hu, hv, _, _, _, h1⟩
    rw [hnv] at hu hv
    rw [hco u hu, hco v hv] at h1
    exact h1.2
  · intro u hu
    refine ⟨by omega, by omega, by omega, ?_, ?_, ?_⟩ <;>
      (rw [hco u (by omega), hco (u + 1) hu]; simp [near]; try omega)
  · rintro u v ⟨hu, hv, hne, _, _, _⟩
    rw [hnv] at hu hv
    simp [step_weight, hco u hu, hco v hv, hne, class_weight]

/-- C5, in exact arithmetic: on a grid that is a line of `n` voxels along one
axis, all in the domain, with a single seed at index 0 and no cutoff, the loop
ends and the final distance of the voxel at index `k` is `half_voxel + k * s`,
`s` being the (positive) spacing along the axis of the line; with spacing
`(1,1,1)` and `n = 5` the final distances are exactly
`[1/2, 3/2, 5/2, 7/2, 9/2]`.  (The sums of the program are rounded `float`
sums, for which the general formula fails.) -/
theorem line_scenario [Archimedean α] (sq : α → α) (hsq : SqrtPos sq) (G : Grid α) (hG : G.Pos)
    (n : Nat) (dom raw : Nat → Int) (hdom : ∀ k, k < n → dom k > 0) (hseed : raw 0 ≠ 0)
    (hraw : ∀ k, 0 < k → k < n → raw k = 0) :
    (G.size_x = n → G.size_y = 1 → G.size_z = 1 →
      ∃ fuel r, (∀ fuel', fuel ≤ fuel' → geodistance sq G dom raw none none fuel' = some r) ∧
        ∀ k, k < n → r.flood_dist k = ((G.dX + G.dY + G.dZ) / 3) / 2 + (k : α) * G.dX) ∧
    (G.size_x = 1 → G.size_y = n → G.size_z = 1 →
      ∃ fuel r, (∀ fuel', fuel ≤ fuel' → geodistance sq G dom raw none none fuel' = some r) ∧
        ∀ k, k < n → r.flood_dist k = ((G.dX + G.dY + G.dZ) / 3) / 2 + (k : α) * G.dY) ∧
    (G.size_x = 1 → G.size_y = 1 → G.size_z = n →
      ∃ fuel r, (∀ fuel', fuel ≤ fuel' → geodistance sq G dom raw none none fuel' = some r) ∧
        ∀ k, k < n → r.flood_dist k = ((G.dX + G.dY + G.dZ) / 3) / 2 + (k : α) * G.dZ) ∧
    (∀ sq1 : ℚ → ℚ, SqrtPos sq1 →
      ∃ fuel r, (∀ fuel', fuel ≤ fuel' →
          geodistance sq1 ⟨5, 1, 1, 1, 1, 1⟩ (fun _ => 1) (fun k => if k = 0 then 1 else 0)
            none none fuel' = some r) ∧
        (List.range 5).map r.flood_dist = [1 / 2, 3 / 2, 5 / 2, 7 / 2, 9 / 2]) := by
  refine ⟨line_x sq hsq G hG n dom raw hdom hseed hraw,
    line_y sq hsq G hG n dom raw hdom hseed hraw,
    line_z sq hsq G hG n dom raw hdom hseed hraw, fun sq1 hsq1 => ?_⟩
  obtain ⟨fuel, r, hrun, hval⟩ := line_x sq1 hsq1 (⟨5, 1, 1, 1, 1, 1⟩ : Grid ℚ)
    ⟨by norm_num, by norm_num, by norm_num⟩ 5 (fun _ => 1) (fun k => if k = 0 then 1 else 0)
    (fun _ _ => by norm_num) (by decide) (fun k h0 _ => by simp; omega) rfl rfl rfl
  refine ⟨fuel, r, hrun, ?_⟩
  have e : List.range 5 = [0, 1, 2, 3, 4] := by decide
  rw [e]
  simp only [List.map_cons, List.map_nil]
  rw [hval 0 (by omega), hval 1 (by omega), hval 2 (by omega), hval 3 (by omega),
    hval 4 (by omega)]
  norm_num [Grid.dist_to_axes]

end LineAxes

theorem line_scenario_witness :
    ∃ fuel, ∃ r : Flood ℚ, (∀ fuel', fuel ≤ fuel' →
        geodistance (fun x : ℚ => (x + 1) / 2) ⟨1, 4, 1, 1, 2, 3⟩ (fun _ => 1)
          (fun k => if k = 0 then 7 else 0) none none fuel' = some r) ∧
      ∀ k, k < 4 → r.flood_dist k = (((1 : ℚ) + 2 + 3) / 3) / 2 + (k : ℚ) * 2 :=
  (line_scenario (fun x : ℚ => (x + 1) / 2) (fun x hx => by positivity) ⟨1, 4, 1, 1, 2, 3⟩
    ⟨by norm_num, by norm_num, by norm_num⟩ 4 (fun _ => 1) (fun k => if k = 0 then 7 else 0)
    (fun _ _ => by norm_num) (by decide) (fun k h0 _ => by simp; omega)).2.1 rfl rfl rfl

/-! ## The states of a run -/

section RunProofs
variable {α : Type} [LinearOrderedField α]

/-- The states inside one expansion: after the counter and any number of the
first blocks. -/
theorem run_blocks (sq : α → α) (G : Grid α) (dom : Nat → Int) (s0 s : Flood α) (i : Nat)
    (hr : Run sq G dom s0 s) (hi : i < G.nr_voxels) (hdi : dom i > 0)
    (hs : s.flood_step i = s.grow_step) (l : List (Nbr α)) (hl : ∀ e ∈ l, e ∈ nbr_table sq G) :
    Run sq G dom s0 (l.foldl (relax_nbr G dom i) { s with voxel_counter := s.voxel_counter + 1 })
    ∧ (l.foldl (relax_nbr G dom i)
        { s with voxel_counter := s.voxel_counter + 1 }).flood_step i
      = (l.foldl (relax_nbr G dom i)
        { s with voxel_counter := s.voxel_counter + 1 }).grow_step := by
  have key := foldl_induct (relax_nbr G dom i)
    (fun (_ : List (Nbr α)) (t : Flood α) =>
      Run sq G dom s0 t ∧ t.flood_step i = t.grow_step)
    (nbr_table sq G)
    (by
      intro _ e t he ⟨h1, h2⟩
      unfold relax_nbr
      split
      · next hg =>
        obtain ⟨hadj, _⟩ := nbr_sound sq G i hi e he hg
        refine ⟨Run.relax t i e h1 hi hdi h2 he hg, ?_⟩
        rw [(relax_frame dom i _ e.w t i hadj.2.2.1).2, relax_grow_step]
        exact h2
      · exact ⟨h1, h2⟩)
    l [] { s with voxel_counter := s.voxel_counter + 1 } hl
    ⟨Run.counter s _ hr, hs⟩
  simpa only [List.nil_append] using key

theorem run_expand (sq : α → α) (G : Grid α) (dom : Nat → Int) (s0 s : Flood α) (i : Nat)
    (hr : Run sq G dom s0 s) (hi : i < G.nr_voxels) (hdi : dom i > 0)
    (hs : s.flood_step i = s.grow_step) : Run sq G dom s0 (expand sq G dom i s) := by
  rw [expand_eq_table]
  unfold expand_table update_max
  have h := (run_blocks sq G dom s0 s i hr hi hdi hs (nbr_table sq G) (fun _ h => h)).1
  split
  · exact Run.tmax _ _ h
  · exact h

theorem run_visit (sq : α → α) (G : Grid α) (dom : Nat → Int) (s0 s : Flood α) (i : Nat)
    (hr : Run sq G dom s0 s) (hi : i < G.nr_voxels) (hdi : dom i > 0) :
    Run sq G dom s0 (visit sq G dom s i) := by
  unfold visit
  split
  · next hs => exact run_expand sq G dom s0 s i hr hi hdi hs
  · exact hr

/-- The states inside one sweep: after any number of the first entries of the
index set. -/
theorem run_visits (sq : α → α) (G : Grid α) (dom : Nat → Int) (s0 : Flood α) (l : List Nat)
    (hl : ∀ e ∈ l, e ∈ voi_id dom G.nr_voxels) :
    ∀ s : Flood α, Run sq G dom s0 s → Run sq G dom s0 (l.foldl (visit sq G dom) s) := by
  induction l with
  | nil => intro s h; exact h
  | cons i l ih =>
    intro s h
    obtain ⟨hi1, hi2⟩ := (mem_voi_id dom G.nr_voxels i).mp (hl i (List.mem_cons_self _ _))
    exact ih (fun e he => hl e (List.mem_cons_of_mem _ he)) _
      (run_visit sq G dom s0 s i h hi1 hi2)

theorem run_sweep (sq : α → α) (G : Grid α) (dom : Nat → Int) (s0 s : Flood α)
    (hr : Run sq G dom s0 s) : Run sq G dom s0 (sweep sq G dom (voi_id dom G.nr_voxels) s) := by
  unfold sweep
  exact Run.grow _ (run_visits sq G dom s0 _ (fun _ h => h) _ (Run.counter s 0 hr))

theorem run_iterate (sq : α → α) (G : Grid α) (dom : Nat → Int) (s0 : Flood α) (k : Nat) :
    Run sq G dom s0 ((sweep sq G dom (voi_id dom G.nr_voxels))^[k] s0) := by
  induction k with
  | zero => exact Run.start
  | succ k ih =>
    rw [Function.iterate_succ_apply']
    exact run_sweep sq G dom s0 _ ih

theorem run_final (sq : α → α) (G : Grid α) (dom raw : Nat → Int) (mode_init_val : Option Int)
    (max_dist : Option α) (fuel : Nat) (r : Flood α)
    (hrun : geodistance sq G dom raw mode_init_val max_dist fuel = some r) :
    Run sq G dom (init_flood G raw (label_init mode_init_val raw G.nr_voxels).1) r := by
  obtain ⟨k, _, e, _⟩ := flood_loop_some sq G dom _ max_dist fuel _ r hrun
  rw [e]
  exact run_iterate sq G dom _ k

/-- The running invariant holds in every state of a run. -/
theorem run_inv (sq : α → α) (G : Grid α) (dom raw init : Nat → Int) (hG : G.Pos)
    (hsq : SqrtPos sq) (t : Flood α) (h : Run sq G dom (init_flood G raw init) t) :
    Inv sq G dom init t := by
  induction h with
  | start => exact (init_binv sq G dom raw init hG hsq).inv
  | relax s i e _ hi hdi hs he hg ih =>
    obtain ⟨hadj, hw⟩ := nbr_sound sq G i hi e he hg
    obtain ⟨hw0, hw1⟩ := nbr_weight_bounds sq G e he
    exact relax_inv sq G dom init hG hsq s i _ e.w ih hi hdi hs hadj hw hw0 hw1
  | counter s c _ ih => exact ih.core_congr rfl rfl rfl
  | tmax s t _ ih => exact ih.core_congr rfl rfl rfl
  | grow s _ ih => exact ih.next

end RunProofs

/-! ## Degenerate inputs -/

theorem voi_id_nil (dom : Nat → Int) (n : Nat) (h : ∀ i, i < n → dom i ≤ 0) :
    voi_id dom n = [] := by
  rw [voi_id_eq_filter, List.filter_eq_nil_iff]
  intro i hi
  have := h i (List.mem_range.mp hi)
  simp only [decide_eq_true_eq, gt_iff_lt, not_lt]
  exact this

section DegenerateProofs
variable {α : Type} [LinearOrderedField α]

/-- A loop whose next sweep expands no voxel is left after at most that one
sweep. -/
theorem flood_loop_one (sq : α → α) (G : Grid α) (dom : Nat → Int) (voi : List Nat)
    (max_dist : Option α) (s : Flood α) (h : (sweep sq G dom voi s).voxel_counter = 0)
    (fuel : Nat) (hf : 1 ≤ fuel) :
    flood_loop sq G dom voi max_dist fuel s
      = some (if continues max_dist s then sweep sq G dom voi s else s) := by
  apply flood_loop_mono_le sq G dom voi max_dist s _ 1 fuel hf
  unfold flood_loop
  split
  · unfold flood_loop
    have hc : continues max_dist (sweep sq G dom voi s) = false := by
      simp [continues, h]
    rw [hc]; rfl
  · rfl

theorem sweep_nil (sq : α → α) (G : Grid α) (dom : Nat → Int) (s : Flood α) :
    sweep sq G dom [] s = { s with voxel_counter := 0, grow_step := s.grow_step + 1 } := rfl

theorem continues_init (G : Grid α) (raw init : Nat → Int) (max_dist : Option α) :
    continues max_dist (init_flood G raw init)
      = (decide (G.nr_voxels ≠ 0) && below_cutoff (0 : α) max_dist) := rfl

/-- C14: when no voxel has a domain mask value `> 0`, the domain index set is
empty, the loop ends (after at most one sweep, for every cutoff), and the
distance and generation fields are then exactly as the initialisation left
them. -/
theorem empty_domain_noop (sq : α → α) (G : Grid α) (dom raw : Nat → Int)
    (mode_init_val : Option Int) (max_dist : Option α)
    (hdom : ∀ i, i < G.nr_voxels → dom i ≤ 0) :
    voi_id dom G.nr_voxels = [] ∧
    ∃ r, (∀ fuel, 1 ≤ fuel → geodistance sq G dom raw mode_init_val max_dist fuel = some r) ∧
      r.flood_dist = (init_flood G raw (label_init mode_init_val raw G.nr_voxels).1).flood_dist ∧
      r.flood_step = (init_flood G raw (label_init mode_init_val raw G.nr_voxels).1).flood_step := by
  have hv := voi_id_nil dom G.nr_voxels hdom
  refine ⟨hv,
    (if continues max_dist (init_flood G raw (label_init mode_init_val raw G.nr_voxels).1)
      then sweep sq G dom [] (init_flood G raw (label_init mode_init_val raw G.nr_voxels).1)
      else init_flood G raw (label_init mode_init_val raw G.nr_voxels).1),
    fun fuel hf => ?_, ?_, ?_⟩
  · unfold geodistance
    rw [hv]
    exact flood_loop_one sq G dom [] max_dist _ rfl fuel hf
  · split <;> rfl
  · split <;> rfl

theorem empty_domain_noop_witness :
    voi_id (fun _ => 0) (⟨2, 1, 1, 1, 1, 1⟩ : Grid ℚ).nr_voxels = [] ∧
    ∃ r : Flood ℚ, (∀ fuel, 1 ≤ fuel →
        geodistance (fun x : ℚ => (x + 1) / 2) ⟨2, 1, 1, 1, 1, 1⟩ (fun _ => 0)
          (fun k => if k = 0 then 1 else 0) none (some 3) fuel = some r) ∧
      r.flood_dist = (init_flood (⟨2, 1, 1, 1, 1, 1⟩ : Grid ℚ) (fun k => if k = 0 then 1 else 0)
        (label_init none (fun k => if k = 0 then 1 else 0)
          (⟨2, 1, 1, 1, 1, 1⟩ : Grid ℚ).nr_voxels).1).flood_dist ∧
      r.flood_step = (init_flood (⟨2, 1, 1, 1, 1, 1⟩ : Grid ℚ) (fun k => if k = 0 then 1 else 0)
        (label_init none (fun k => if k = 0 then 1 else 0)
          (⟨2, 1, 1, 1, 1, 1⟩ : Grid ℚ).nr_voxels).1).flood_step :=
  empty_domain_noop (fun x : ℚ => (x + 1) / 2) ⟨2, 1, 1, 1, 1, 1⟩ (fun _ => 0)
    (fun k => if k = 0 then 1 else 0) none (some 3) (fun _ _ => le_rfl)

/-- A sweep over a state without an active voxel of the index set changes
only the two counters. -/
theorem sweep_idle (sq : α → α) (G : Grid α) (dom : Nat → Int) (voi : List Nat) (s : Flood α)
    (h : ∀ i ∈ voi, s.flood_step i ≠ s.grow_step) :
    sweep sq G dom voi s = { s with voxel_counter := 0, grow_step := s.grow_step + 1 } := by
  unfold sweep
  rw [foldl_visit_idle sq G dom voi { s with voxel_counter := 0 } h]

/-- C15: when the init field contains no seed voxel, the loop ends (after at
most one sweep, for every domain mask and cutoff) and the final distance
field and the final generation field are zero at every voxel. -/
theorem no_seeds_no_growth (sq : α → α) (G : Grid α) (dom raw : Nat → Int)
    (mode_init_val : Option Int) (max_dist : Option α)
    (hseed : ∀ i, i < G.nr_voxels →
      ¬ ((mode_init_val = none ∧ raw i ≠ 0) ∨ (∃ L, mode_init_val = some L ∧ raw i = L))) :
    ∃ r, (∀ fuel, 1 ≤ fuel → geodistance sq G dom raw mode_init_val max_dist fuel = some r) ∧
      ∀ i, i < G.nr_voxels → r.flood_dist i = 0 ∧ r.flood_step i = 0 := by
  have h0 : ∀ i, i < G.nr_voxels → (label_init mode_init_val raw G.nr_voxels).1 i = 0 := by
    intro i hi
    by_contra hne
    exact hseed i hi ((label_init_ne_zero_iff mode_init_val raw G.nr_voxels i hi).mp hne)
  have hd : ∀ i, i < G.nr_voxels →
      (init_flood G raw (label_init mode_init_val raw G.nr_voxels).1 : Flood α).flood_dist i
        = 0 := by
    intro i hi
    rw [init_flood_dist G raw _ i hi, if_neg (by simpa using h0 i hi)]
  have hs : ∀ i, i < G.nr_voxels →
      (init_flood G raw (label_init mode_init_val raw G.nr_voxels).1 : Flood α).flood_step i
        = 0 := by
    intro i hi
    rw [init_flood_step G raw _ i hi, if_neg (by simpa using h0 i hi)]
  have hidle : ∀ i ∈ voi_id dom G.nr_voxels,
      (init_flood G raw (label_init mode_init_val raw G.nr_voxels).1 : Flood α).flood_step i
        ≠ (init_flood G raw (label_init mode_init_val raw G.nr_voxels).1 : Flood α).grow_step := by
    intro i hi
    rw [hs i ((mem_voi_id dom G.nr_voxels i).mp hi).1]
    show (0 : Int) ≠ 1
    decide
  have hsw := sweep_idle sq G dom (voi_id dom G.nr_voxels) _ hidle
  refine ⟨(if continues max_dist (init_flood G raw (label_init mode_init_val raw G.nr_voxels).1)
      then sweep sq G dom (voi_id dom G.nr_voxels)
        (init_flood G raw (label_init mode_init_val raw G.nr_voxels).1)
      else init_flood G raw (label_init mode_init_val raw G.nr_voxels).1),
    fun fuel hf => flood_loop_one sq G dom _ max_dist _ (by rw [hsw]) fuel hf, ?_⟩
  intro i hi
  split
  · rw [hsw]; exact ⟨hd i hi, hs i hi⟩
  · exact ⟨hd i hi, hs i hi⟩

theorem no_seeds_no_growth_witness :
    ∃ r : Flood ℚ, (∀ fuel, 1 ≤ fuel →
        geodistance (fun x : ℚ => (x + 1) / 2) ⟨2, 2, 1, 1, 1, 1⟩ (fun _ => 1)
          (fun _ => 3) (some 2) none fuel = some r) ∧
      ∀ i, i < (⟨2, 2, 1, 1, 1, 1⟩ : Grid ℚ).nr_voxels → r.flood_dist i = 0 ∧ r.flood_step i = 0 :=
  no_seeds_no_growth (fun x : ℚ => (x + 1) / 2) ⟨2, 2, 1, 1, 1, 1⟩ (fun _ => 1)
    (fun _ => 3) (some 2) none (fun i _ => by simp)

end DegenerateProofs

section DegenerateAmended
variable {α : Type} [LinearOrderedField α]

theorem flood_loop_done (sq : α → α) (G : Grid α) (dom : Nat → Int) (voi : List Nat)
    (max_dist : Option α) (s : Flood α) (h : continues max_dist s = false) (fuel : Nat) :
    flood_loop sq G dom voi max_dist fuel s = some s := by
  cases fuel <;> simp [flood_loop, h]

end DegenerateAmended

section HalfProofs
variable {α : Type} [LinearOrderedField α]

/-- After a relaxation every distance is the old one or the candidate. -/
theorem relax_dist_cases (dom : Nat → Int) (i j : Nat) (w : α) (s : Flood α) (v : Nat) :
    (relax dom i j w s).flood_dist v = s.flood_dist v ∨
    (v = j ∧ dom j > 0 ∧ (s.flood_dist i + w < s.flood_dist j ∨ s.flood_dist j = 0) ∧
      (relax dom i j w s).flood_dist v = s.flood_dist i + w) := by
  by_cases hv : v = j
  · subst hv
    by_cases hd : dom v > 0
    · by_cases hc : s.flood_dist i + w < s.flood_dist v ∨ s.flood_dist v = 0
      · right
        refine ⟨rfl, hd, hc, ?_⟩
        rw [relax_of_accept dom i v w s hd hc]
        simp
      · left; rw [relax_of_reject dom i v w s hc]
    · left; rw [relax_of_outside dom i v w s hd]
  · left; exact (relax_frame dom i j w s v hv).1

theorem run_half (sq : α → α) (G : Grid α) (dom raw init : Nat → Int) (hG : G.Pos)
    (hsq : SqrtPos sq) (t : Flood α) (h : Run sq G dom (init_flood G raw init) t) :
    ∀ v, v < G.nr_voxels → t.flood_dist v = 0 ∨ G.dist_to_axes ≤ t.flood_dist v := by
  induction h with
  | start =>
    intro v hv
    rw [init_flood_dist G raw init v hv]
    split
    · exact Or.inr le_rfl
    · exact Or.inl rfl
  | relax s i e hr hi hdi hs he hg ih =>
    intro v hv
    have hI := run_inv sq G dom raw init hG hsq s hr
    obtain ⟨h1, _⟩ := hI.active_pos hG hsq i hi hs
    have hw : 0 < e.w :=
      lt_of_lt_of_le (w_min_pos sq G hG hsq) (nbr_weight_bounds sq G e he).1
    rcases relax_dist_cases dom i (nbr_index G i e) e.w s v with h2 | ⟨_, _, _, h2⟩
    · rw [h2]; exact ih v hv
    · rw [h2]; exact Or.inr (by linarith)
  | counter s c _ ih => exact ih
  | tmax s t _ ih => exact ih
  | grow s _ ih => exact ih

end HalfProofs

section NonnegProofs
variable {α : Type} [LinearOrderedField α]

theorem run_nonneg (sq : α → α) (G : Grid α) (dom raw init : Nat → Int) (hG : G.Pos)
    (hsq : SqrtPos sq) (t : Flood α) (h : Run sq G dom (init_flood G raw init) t)
    (v : Nat) (hv : v < G.nr_voxels) : 0 ≤ t.flood_dist v := by
  rcases run_half sq G dom raw init hG hsq t h v hv with h0 | h0
  · rw [h0]
  · exact le_trans (dist_to_axes_pos G hG).le h0

end NonnegProofs

section SweepCount
variable {α : Type} [LinearOrderedField α]

/-- Every in-domain voxel of generation `g >= 1` comes with `g` distinct
in-domain voxels (the voxels along which its distance was handed on), none of
them farther from the seeds than the voxel itself. -/
theorem run_chain (sq : α → α) (G : Grid α) (dom raw init : Nat → Int) (hG : G.Pos)
    (hsq : SqrtPos sq) (t : Flood α) (h : Run sq G dom (init_flood G raw init) t) :
    ∀ x, x < G.nr_voxels → dom x > 0 → t.flood_step x ≠ 0 →
      ∃ p : List Nat, p.Nodup ∧
        (∀ y ∈ p, y < G.nr_voxels ∧ dom y > 0 ∧ t.flood_dist y ≠ 0 ∧
          t.flood_dist y ≤ t.flood_dist x) ∧
        ((p.length : Nat) : Int) = t.flood_step x := by
  induction h with
  | start =>
    intro x hx hdx hne
    have hs := @init_flood_step α _ G raw init x hx
    have hd := @init_flood_dist α _ G raw init x hx
    have h0 : init x ≠ 0 := by
      intro h0
      rw [hs, if_neg (by simpa using h0)] at hne
      exact hne rfl
    rw [if_pos h0] at hs hd
    refine ⟨[x], List.nodup_singleton x, ?_, by rw [hs]; rfl⟩
    intro y hy
    rw [List.mem_singleton.mp hy]
    exact ⟨hx, hdx, by rw [hd]; exact ne_of_gt (dist_to_axes_pos G hG), le_rfl⟩
  | relax s i e hr hi hdi hs he hg ih =>
    intro x hx hdx hne
    have hI := run_inv sq G dom raw init hG hsq s hr
    obtain ⟨_, hipos⟩ := hI.active_pos hG hsq i hi hs
    have hw : 0 < e.w :=
      lt_of_lt_of_le (w_min_pos sq G hG hsq) (nbr_weight_bounds sq G e he).1
    obtain ⟨hadj, _⟩ := nbr_sound sq G i hi e he hg
    have hpos : 0 < s.flood_dist i + e.w := by linarith
    by_cases hd : dom (nbr_index G i e) > 0
    swap
    · rw [relax_of_outside dom i _ e.w s hd] at hne ⊢
      exact ih x hx hdx hne
    by_cases hc : s.flood_dist i + e.w < s.flood_dist (nbr_index G i e) ∨
        s.flood_dist (nbr_index G i e) = 0
    swap
    · rw [relax_of_reject dom i _ e.w s hc] at hne ⊢
      exact ih x hx hdx hne
    -- an accepted update of `j = nbr_index G i e`
    have hval : (relax dom i (nbr_index G i e) e.w s).flood_dist (nbr_index G i e)
        = s.flood_dist i + e.w := by
      rw [relax_of_accept dom i _ e.w s hd hc]; simp
    have hstep : (relax dom i (nbr_index G i e) e.w s).flood_step (nbr_index G i e)
        = s.grow_step + 1 := by
      rw [relax_of_accept dom i _ e.w s hd hc]; simp
    have hold : ∀ y, s.flood_dist y ≠ 0 →
        (relax dom i (nbr_index G i e) e.w s).flood_dist y ≠ 0 ∧
        (relax dom i (nbr_index G i e) e.w s).flood_dist y ≤ s.flood_dist y :=
      fun y hy => relax_dist_le dom i _ e.w s hpos y hy
    by_cases hxj : x = nbr_index G i e
    · -- the chain of `i`, extended by `j`
      subst hxj
      have hsi : s.flood_step i ≠ 0 := by
        rw [hs]; have := hI.grow_pos; omega
      obtain ⟨p, hnd, hp, hlen⟩ := ih i hi hdi hsi
      have hnot : nbr_index G i e ∉ p := by
        intro hmem
        obtain ⟨_, _, a, b⟩ := hp _ hmem
        rcases hc with hc | hc
        · linarith
        · exact a hc
      refine ⟨nbr_index G i e :: p, List.nodup_cons.mpr ⟨hnot, hnd⟩, ?_, ?_⟩
      · intro y hy
        rcases List.mem_cons.mp hy with rfl | hy
        · exact ⟨hx, hdx, by rw [hval]; exact ne_of_gt hpos, le_rfl⟩
        · obtain ⟨a, b, c, d⟩ := hp y hy
          have hyj : y ≠ nbr_index G i e := fun h => hnot (h ▸ hy)
          rw [(relax_frame dom i _ e.w s y hyj).1, hval]
          exact ⟨a, b, c, by linarith⟩
      · rw [hstep, List.length_cons, ← hs, ← hlen]
        push_cast
        ring
    · -- another voxel keeps its chain
      obtain ⟨e1, e2⟩ := relax_frame dom i _ e.w s x hxj
      rw [e2] at hne
      obtain ⟨p, hnd, hp, hlen⟩ := ih x hx hdx hne
      refine ⟨p, hnd, ?_, by rw [e2]; exact hlen⟩
      intro y hy
      obtain ⟨a, b, c, d⟩ := hp y hy
      obtain ⟨c', d'⟩ := hold y c
      rw [e1]
      exact ⟨a, b, c', le_trans d' d⟩
  | counter s c _ ih => exact ih
  | tmax s t _ ih => exact ih
  | grow s _ ih => exact ih

/-- No generation of an in-domain voxel exceeds the number of domain
voxels. -/
theorem run_step_le (sq : α → α) (G : Grid α) (dom raw init : Nat → Int) (hG : G.Pos)
    (hsq : SqrtPos sq) (t : Flood α) (h : Run sq G dom (init_flood G raw init) t)
    (x : Nat) (hx : x < G.nr_voxels) (hdx : dom x > 0) :
    t.flood_step x ≤ ((count_voi dom G.nr_voxels : Nat) : Int) := by
  by_cases hne : t.flood_step x = 0
  · rw [hne]; exact Int.ofNat_nonneg _
  · obtain ⟨p, hnd, hp, hlen⟩ := run_chain sq G dom raw init hG hsq t h x hx hdx hne
    have hsub : p ⊆ voi_id dom G.nr_voxels := by
      intro y hy
      obtain ⟨a, b, _, _⟩ := hp y hy
      exact (mem_voi_id dom G.nr_voxels y).mpr ⟨a, b⟩
    have hle := (List.subperm_of_subset hnd hsub).length_le
    have hvl : (voi_id dom G.nr_voxels).length = count_voi dom G.nr_voxels := by
      rw [voi_id_eq_filter, count_voi_eq_length]
    rw [hvl] at hle
    rw [← hlen]
    exact_mod_cast hle

end SweepCount

section SweepBound
variable {α : Type} [LinearOrderedField α]

theorem iterate_grow_step (sq : α → α) (G : Grid α) (dom : Nat → Int) (voi : List Nat)
    (s : Flood α) (k : Nat) :
    ((sweep sq G dom voi)^[k] s).grow_step = s.grow_step + (k : Int) := by
  induction k with
  | zero => simp
  | succ k ih =>
    rw [Function.iterate_succ_apply', sweep_grow_step, ih]
    push_cast
    ring

/-- A sweep whose number exceeds the number of domain voxels expands no
voxel. -/
theorem sweep_overdue (sq : α → α) (G : Grid α) (dom raw init : Nat → Int) (hG : G.Pos)
    (hsq : SqrtPos sq) (s : Flood α) (h : Run sq G dom (init_flood G raw init) s)
    (hg : ((count_voi dom G.nr_voxels : Nat) : Int) < s.grow_step) :
    (sweep sq G dom (voi_id dom G.nr_voxels) s).voxel_counter = 0 := by
  rw [sweep_idle sq G dom _ s]
  intro i hi
  obtain ⟨hi1, hi2⟩ := (mem_voi_id dom G.nr_voxels i).mp hi
  have := run_step_le sq G dom raw init hG hsq s h i hi1 hi2
  omega

theorem flood_loop_bounded (sq : α → α) (G : Grid α) (dom raw init : Nat → Int) (hG : G.Pos)
    (hsq : SqrtPos sq) (max_dist : Option α) (fuel : Nat) :
    ∀ s : Flood α, Run sq G dom (init_flood G raw init) s →
      (s.voxel_counter ≠ 0 → s.grow_step ≤ ((count_voi dom G.nr_voxels : Nat) : Int) + 1) →
      s.grow_step ≤ ((count_voi dom G.nr_voxels : Nat) : Int) + 2 →
      (∀ r, flood_loop sq G dom (voi_id dom G.nr_voxels) max_dist fuel s = some r →
        r.grow_step ≤ ((count_voi dom G.nr_voxels : Nat) : Int) + 2) ∧
      (((count_voi dom G.nr_voxels : Nat) : Int) + 2 ≤ s.grow_step + (fuel : Int) →
        ∃ r, flood_loop sq G dom (voi_id dom G.nr_voxels) max_dist fuel s = some r) := by
  induction fuel with
  | zero =>
    intro s _ hq hb
    constructor
    · intro r hr
      unfold flood_loop at hr
      split at hr
      · exact absurd hr (by simp)
      · rw [← Option.some.inj hr]; exact hb
    · intro hf
      have hc : s.voxel_counter = 0 := by
        by_contra hne
        have := hq hne
        simp only [Nat.cast_zero, add_zero] at hf
        omega
      exact ⟨s, by unfold flood_loop; simp [continues, hc]⟩
  | succ fuel ih =>
    intro s hr hq hb
    have hstep : continues max_dist s = true →
        Run sq G dom (init_flood G raw init) (sweep sq G dom (voi_id dom G.nr_voxels) s) ∧
        ((sweep sq G dom (voi_id dom G.nr_voxels) s).voxel_counter ≠ 0 →
          (sweep sq G dom (voi_id dom G.nr_voxels) s).grow_step
            ≤ ((count_voi dom G.nr_voxels : Nat) : Int) + 1) ∧
        (sweep sq G dom (voi_id dom G.nr_voxels) s).grow_step
          ≤ ((count_voi dom G.nr_voxels : Nat) : Int) + 2 := by
      intro hc
      have hne : s.voxel_counter ≠ 0 := by
        simp only [continues, Bool.and_eq_true, decide_eq_true_eq] at hc
        exact hc.1
      have hg := hq hne
      refine ⟨run_sweep sq G dom _ s hr, ?_, by rw [sweep_grow_step]; omega⟩
      intro hcnt
      rw [sweep_grow_step]
      by_contra hlt
      exact hcnt (sweep_overdue sq G dom raw init hG hsq s hr (by omega))
    constructor
    · intro r hrun
      rw [flood_loop] at hrun
      split at hrun
      · next hc =>
        obtain ⟨a, b, c⟩ := hstep hc
        exact (ih _ a b c).1 r hrun
      · rw [← Option.some.inj hrun]; exact hb
    · intro hf
      rw [flood_loop]
      split
      · next hc =>
        obtain ⟨a, b, c⟩ := hstep hc
        apply (ih _ a b c).2
        rw [sweep_grow_step]
        push_cast at hf ⊢
        omega
      · exact ⟨s, rfl⟩

end SweepBound

theorem list_two_step (P : List String → Prop) (h0 : P []) (h1 : ∀ t, P [t])
    (h2 : ∀ t v rest, P rest → P (v :: rest) → P (t :: v :: rest)) : ∀ l, P l := by
  have key : ∀ l, P l ∧ ∀ t, P (t :: l) := by
    intro l
    induction l with
    | nil => exact ⟨h0, h1⟩
    | cons v rest ih => exact ⟨ih.2 v, fun t => h2 t v rest ih.1 (ih.2 v)⟩
  exact fun l => (key l).1

/-- The two mode flags after an option loop that runs to its end. -/
theorem parse_loop_modes : ∀ (args : List String) (o o2 : Options),
    parse_loop args o = Outcome.proceed o2 →
      o2.mode_max_dist = (o.mode_max_dist || decide ("-max_dist" ∈ option_tokens args)) ∧
      o2.mode_smooth = (o.mode_smooth && !decide ("-no_smooth" ∈ option_tokens args)) := by
  intro args
  induction args using list_two_step with
  | h0 =>
    intro o o2 h
    simp only [parse_loop, Outcome.proceed.injEq] at h
    subst h
    simp [option_tokens]
  | h1 t =>
    intro o o2 h
    simp only [parse_loop] at h
    split_ifs at h with a1 a2 a3 a4 a5 a6 a7
    simp only [Outcome.proceed.injEq] at h
    subst h
    subst a7
    simp [option_tokens]
  | h2 t v rest ih1 ih2 =>
    intro o o2 h
    simp only [parse_loop] at h
    split_ifs at h with a1 a2 a3 a4 a5 a6 a7
    · obtain ⟨b1, b2⟩ := ih1 _ _ h
      subst a2
      simp [option_tokens, takes_value, b1, b2]
    · obtain ⟨b1, b2⟩ := ih1 _ _ h
      subst a3
      simp [option_tokens, takes_value, b1, b2]
    · obtain ⟨b1, b2⟩ := ih1 _ _ h
      subst a4
      simp [option_tokens, takes_value, b1, b2]
    · obtain ⟨b1, b2⟩ := ih1 _ _ h
      subst a5
      simp [option_tokens, takes_value, b1, b2]
    · obtain ⟨b1, b2⟩ := ih1 _ _ h
      subst a6
      simp [option_tokens, takes_value, b1, b2]
    · obtain ⟨b1, b2⟩ := ih2 _ _ h
      subst a7
      simp [option_tokens, takes_value, b1, b2]

theorem process_options_proceed (args : List String) (o : Options)
    (h : process_options args = Outcome.proceed o) :
    parse_loop args Options.initial = Outcome.proceed o ∧ o.fin1.isNone = false ∧
    o.fin2.isNone = false := by
  unfold process_options at h
  split_ifs at h
  split at h
  · exact absurd h (by simp)
  · next o2 heq =>
    split_ifs at h with a b
    simp only [Outcome.proceed.injEq] at h
    subst h
    exact ⟨heq, Bool.eq_false_iff.mpr a, Bool.eq_false_iff.mpr b⟩

/-- C17: for every accepted command line the smoothing pass (3 iterations
over the domain mask) is run iff neither `-max_dist` nor `-no_smooth` was
supplied; with `-max_dist` it is skipped whatever else was given; and when it
is skipped the saved field is the distance field of the propagator. -/
theorem smoothing_decision {α : Type}
    (iterative_smoothing : (Nat → α) → Nat → (Nat → Int) → Int → Nat → α)
    (args : List String) (o : Options) (nii_domain : Nat → Int) (flood_dist : Nat → α)
    (h : process_options args = Outcome.proceed o) :
    (smooth_decision o = true ↔
      "-max_dist" ∉ option_tokens args ∧ "-no_smooth" ∉ option_tokens args) ∧
    ("-max_dist" ∈ option_tokens args → smooth_decision o = false) ∧
    (smooth_decision o = true →
      saved_field iterative_smoothing o nii_domain flood_dist
        = iterative_smoothing flood_dist 3 nii_domain 1) ∧
    (smooth_decision o = false →
      saved_field iterative_smoothing o nii_domain flood_dist = flood_dist) := by
  obtain ⟨hp, _, _⟩ := process_options_proceed args o h
  obtain ⟨h1, h2⟩ := parse_loop_modes args _ o hp
  have e1 : o.mode_max_dist = decide ("-max_dist" ∈ option_tokens args) := by
    rw [h1]; simp [Options.initial]
  have e2 : o.mode_smooth = !decide ("-no_smooth" ∈ option_tokens args) := by
    rw [h2]; simp [Options.initial]
  refine ⟨?_, ?_, ?_, ?_⟩
  · unfold smooth_decision
    rw [e1, e2]
    by_cases a : "-max_dist" ∈ option_tokens args <;>
      by_cases b : "-no_smooth" ∈ option_tokens args <;> simp [a, b]
  · intro a
    unfold smooth_decision
    rw [e1]
    simp [a]
  · intro a
    unfold saved_field
    rw [if_pos a]
  · intro a
    unfold saved_field
    rw [a]
    rfl

theorem smoothing_decision_witness :
    (smooth_decision
      { fin1 := some "init.nii", fin2 := some "dom.nii", fout := some "init.nii",
        use_outpath := false, mode_smooth := true, mode_init_val := false,
        mode_max_dist := true, max_dist_text := some "3.0", init_val_text := none } = true ↔
      "-max_dist" ∉ option_tokens ["-init", "init.nii", "-domain", "dom.nii", "-max_dist", "3.0"] ∧
      "-no_smooth" ∉ option_tokens ["-init", "init.nii", "-domain", "dom.nii", "-max_dist", "3.0"]) ∧
    saved_field (fun (_ : Nat → ℚ) _ _ _ _ => 0)
      { fin1 := some "init.nii", fin2 := some "dom.nii", fout := some "init.nii",
        use_outpath := false, mode_smooth := true, mode_init_val := false,
        mode_max_dist := true, max_dist_text := some "3.0", init_val_text := none }
      (fun _ => 1) (fun _ => (5 : ℚ)) = fun _ => (5 : ℚ) :=
  ⟨(smoothing_decision (fun (_ : Nat → ℚ) _ _ _ _ => 0)
      ["-init", "init.nii", "-domain", "dom.nii", "-max_dist", "3.0"] _ (fun _ => 1)
      (fun _ => (5 : ℚ)) (by decide)).1,
   (smoothing_decision (fun (_ : Nat → ℚ) _ _ _ _ => 0)
      ["-init", "init.nii", "-domain", "dom.nii", "-max_dist", "3.0"] _ (fun _ => 1)
      (fun _ => (5 : ℚ)) (by decide)).2.2.2 (by decide)⟩

/-- The option loop on a command line without a token that begins with `-h`:
it returns 1 at an unknown option or at a value-taking option without a
value, and otherwise runs to its end, having recorded `-init` and
`-domain`. -/
theorem parse_loop_usage : ∀ (args : List String),
    (∀ t ∈ args, starts_help t = false) → ∀ o : Options,
    (parse_loop args o = Outcome.exit 1 ∧
      ((∃ t ∈ option_tokens args, known_option t = false) ∨ dangling args = true)) ∨
    (∃ o2, parse_loop args o = Outcome.proceed o2 ∧
      (∀ t ∈ option_tokens args, known_option t = true) ∧ dangling args = false ∧
      o2.fin1.isNone = (o.fin1.isNone && !decide ("-init" ∈ option_tokens args)) ∧
      o2.fin2.isNone = (o.fin2.isNone && !decide ("-domain" ∈ option_tokens args))) := by
  intro args
  induction args using list_two_step with
  | h0 =>
    intro _ o
    right
    exact ⟨o, rfl, by simp [option_tokens], rfl, by simp [option_tokens],
      by simp [option_tokens]⟩
  | h1 t =>
    intro hh o
    have hth : starts_help t = false := hh t (List.mem_singleton.mpr rfl)
    simp only [parse_loop, hth, Bool.false_eq_true, if_false]
    split_ifs with a2 a3 a4 a5 a6 a7
    · left; subst a2; exact ⟨rfl, Or.inr (by decide)⟩
    · left; subst a3; exact ⟨rfl, Or.inr (by decide)⟩
    · left; subst a4; exact ⟨rfl, Or.inr (by decide)⟩
    · left; subst a5; exact ⟨rfl, Or.inr (by decide)⟩
    · left; subst a6; exact ⟨rfl, Or.inr (by decide)⟩
    · right
      subst a7
      exact ⟨_, rfl, by simp [option_tokens, known_option], by decide,
        by simp [option_tokens], by simp [option_tokens]⟩
    · left
      refine ⟨rfl, Or.inl ⟨t, by simp [option_tokens], ?_⟩⟩
      simp [known_option, takes_value, a2, a3, a4, a5, a6, a7]
  | h2 t v rest ih1 ih2 =>
    intro hh o
    have hth : starts_help t = false := hh t (List.mem_cons_self _ _)
    have hrest : ∀ x ∈ rest, starts_help x = false :=
      fun x hx => hh x (List.mem_cons_of_mem _ (List.mem_cons_of_mem _ hx))
    have hvrest : ∀ x ∈ v :: rest, starts_help x = false :=
      fun x hx => hh x (List.mem_cons_of_mem _ hx)
    simp only [parse_loop, hth, Bool.false_eq_true, if_false]
    split_ifs with a2 a3 a4 a5 a6 a7
    · subst a2
      rcases ih1 hrest { o with fin1 := some v, fout := some v } with
        ⟨b1, b2⟩ | ⟨o2, b1, b2, b3, b4, b5⟩
      · left
        refine ⟨b1, ?_⟩
        rcases b2 with ⟨x, hx, hk⟩ | b2
        · exact Or.inl ⟨x, by simp [option_tokens, takes_value, hx], hk⟩
        · exact Or.inr (by simpa [dangling, takes_value] using b2)
      · right
        refine ⟨o2, b1, ?_, by simpa [dangling, takes_value] using b3, ?_, ?_⟩
        · intro x hx
          simp only [option_tokens, takes_value, decide_True, Bool.true_or, Bool.or_true,
            decide_False, Bool.false_or, Bool.or_false, String.reduceEq, if_true,
            List.mem_cons] at hx
          rcases hx with rfl | hx
          · decide
          · exact b2 x hx
        · rw [b4]; simp [option_tokens, takes_value]
        · rw [b5]; simp [option_tokens, takes_value]
    · subst a3
      rcases ih1 hrest { o with fin2 := some v } with
        ⟨b1, b2⟩ | ⟨o2, b1, b2, b3, b4, b5⟩
      · left
        refine ⟨b1, ?_⟩
        rcases b2 with ⟨x, hx, hk⟩ | b2
        · exact Or.inl ⟨x, by simp [option_tokens, takes_value, hx], hk⟩
        · exact Or.inr (by simpa [dangling, takes_value] using b2)
      · right
        refine ⟨o2, b1, ?_, by simpa [dangling, takes_value] using b3, ?_, ?_⟩
        · intro x hx
          simp only [option_tokens, takes_value, decide_True, Bool.true_or, Bool.or_true,
            decide_False, Bool.false_or, Bool.or_false, String.reduceEq, if_true,
            List.mem_cons] at hx
          rcases hx with rfl | hx
          · decide
          · exact b2 x hx
        · rw [b4]; simp [option_tokens, takes_value]
        · rw [b5]; simp [option_tokens, takes_value]
    · subst a4
      rcases ih1 hrest { o with mode_max_dist := true, max_dist_text := some v } with
        ⟨b1, b2⟩ | ⟨o2, b1, b2, b3, b4, b5⟩
      · left
        refine ⟨b1, ?_⟩
        rcases b2 with ⟨x, hx, hk⟩ | b2
        · exact Or.inl ⟨x, by simp [option_tokens, takes_value, hx], hk⟩
        · exact Or.inr (by simpa [dangling, takes_value] using b2)
      · right
        refine ⟨o2, b1, ?_, by simpa [dangling, takes_value] using b3, ?_, ?_⟩
        · intro x hx
          simp only [option_tokens, takes_value, decide_True, Bool.true_or, Bool.or_true,
            decide_False, Bool.false_or, Bool.or_false, String.reduceEq, if_true,
            List.mem_cons] at hx
          rcases hx with rfl | hx
          · decide
          · exact b2 x hx
        · rw [b4]; simp [option_tokens, takes_value]
        · rw [b5]; simp [option_tokens, takes_value]
    · subst a5
      rcases ih1 hrest { o with mode_init_val := true, init_val_text := some v } with
        ⟨b1, b2⟩ | ⟨o2, b1, b2, b3, b4, b5⟩
      · left
        refine ⟨b1, ?_⟩
        rcases b2 with ⟨x, hx, hk⟩ | b2
        · exact Or.inl ⟨x, by simp [option_tokens, takes_value, hx], hk⟩
        · exact Or.inr (by simpa [dangling, takes_value] using b2)
      · right
        refine ⟨o2, b1, ?_, by simpa [dangling, takes_value] using b3, ?_, ?_⟩
        · intro x hx
          simp only [option_tokens, takes_value, decide_True, Bool.true_or, Bool.or_true,
            decide_False, Bool.false_or, Bool.or_false, String.reduceEq, if_true,
            List.mem_cons] at hx
          rcases hx with rfl | hx
          · decide
          · exact b2 x hx
        · rw [b4]; simp [option_tokens, takes_value]
        · rw [b5]; simp [option_tokens, takes_value]
    · subst a6
      rcases ih1 hrest { o with fout := some v, use_outpath := true } with
        ⟨b1, b2⟩ | ⟨o2, b1, b2, b3, b4, b5⟩
      · left
        refine ⟨b1, ?_⟩
        rcases b2 with ⟨x, hx, hk⟩ | b2
        · exact Or.inl ⟨x, by simp [option_tokens, takes_value, hx], hk⟩
        · exact Or.inr (by simpa [dangling, takes_value] using b2)
      · right
        refine ⟨o2, b1, ?_, by simpa [dangling, takes_value] using b3, ?_, ?_⟩
        · intro x hx
          simp only [option_tokens, takes_value, decide_True, Bool.true_or, Bool.or_true,
            decide_False, Bool.false_or, Bool.or_false, String.reduceEq, if_true,
            List.mem_cons] at hx
          rcases hx with rfl | hx
          · decide
          · exact b2 x hx
        · rw [b4]; simp [option_tokens, takes_value]
        · rw [b5]; simp [option_tokens, takes_value]
    · subst a7
      rcases ih2 hvrest { o with mode_smooth := false } with
        ⟨b1, b2⟩ | ⟨o2, b1, b2, b3, b4, b5⟩
      · left
        refine ⟨b1, ?_⟩
        rcases b2 with ⟨x, hx, hk⟩ | b2
        · exact Or.inl ⟨x, by simp [option_tokens, takes_value, hx], hk⟩
        · exact Or.inr (by simpa [dangling, takes_value] using b2)
      · right
        refine ⟨o2, b1, ?_, by simpa [dangling, takes_value] using b3, ?_, ?_⟩
        · intro x hx
          simp only [option_tokens, takes_value, decide_True, Bool.true_or, Bool.or_true,
            decide_False, Bool.false_or, Bool.or_false, String.reduceEq, if_false,
            Bool.false_eq_true, List.mem_cons] at hx
          rcases hx with rfl | hx
          · decide
          · exact b2 x hx
        · rw [b4]; simp [option_tokens, takes_value]
        · rw [b5]; simp [option_tokens, takes_value]
    · left
      refine ⟨rfl, Or.inl ⟨t, ?_, ?_⟩⟩
      · simp only [option_tokens]
        split <;> exact List.mem_cons_self _ _
      · simp [known_option, takes_value, a2, a3, a4, a5, a6, a7]

theorem process_options_of_exit (args : List String) (hne : args ≠ []) (code : Nat)
    (h : parse_loop args Options.initial = Outcome.exit code) :
    process_options args = Outcome.exit code := by
  have hlen : ¬ args.length + 1 < 2 := by
    cases args with
    | nil => exact absurd rfl hne
    | cons t rest => simp
  unfold process_options
  rw [if_neg hlen, h]

theorem process_options_of_proceed (args : List String) (hne : args ≠ []) (o2 : Options)
    (h : parse_loop args Options.initial = Outcome.proceed o2) :
    process_options args =
      if o2.fin1.isNone = true then Outcome.exit 1
      else if o2.fin2.isNone = true then Outcome.exit 1 else Outcome.proceed o2 := by
  have hlen : ¬ args.length + 1 < 2 := by
    cases args with
    | nil => exact absurd rfl hne
    | cons t rest => simp
  unfold process_options
  rw [if_neg hlen, h]

/-- C19: for a non-empty argument list without a token that begins with `-h`,
option processing returns the exit code 1 iff, scanning left to right, some
token in option position is none of `-init`, `-domain`, `-max_dist`,
`-init_val`, `-output`, `-no_smooth`, or a value-taking option is the last
token, or `-init` was never supplied, or `-domain` was never supplied;
otherwise it succeeds, with both input file names set, and the program goes on
to load the inputs. -/
theorem usage_errors (args : List String) (hne : args ≠ [])
    (hh : ∀ t ∈ args, starts_help t = false) :
    (process_options args = Outcome.exit 1 ↔
      ((∃ t ∈ option_tokens args, known_option t = false) ∨ dangling args = true ∨
        "-init" ∉ option_tokens args ∨ "-domain" ∉ option_tokens args)) ∧
    (process_options args ≠ Outcome.exit 1 →
      ∃ o, process_options args = Outcome.proceed o ∧ o.fin1.isSome = true ∧
        o.fin2.isSome = true) := by
  rcases parse_loop_usage args hh Options.initial with ⟨b1, b2⟩ | ⟨o2, b1, b2, b3, b4, b5⟩
  · rw [process_options_of_exit args hne 1 b1]
    refine ⟨⟨fun _ => ?_, fun _ => rfl⟩, fun h => absurd rfl h⟩
    rcases b2 with b2 | b2
    · exact Or.inl b2
    · exact Or.inr (Or.inl b2)
  · rw [process_options_of_proceed args hne o2 b1]
    simp only [Options.initial, Option.isNone_none, Bool.true_and] at b4 b5
    have hbad : ¬ ∃ t ∈ option_tokens args, known_option t = false := by
      rintro ⟨t, ht, hk⟩
      rw [b2 t ht] at hk
      exact absurd hk (by simp)
    have hdang : ¬ dangling args = true := by rw [b3]; simp
    have m1 : o2.fin1.isNone = true ↔ "-init" ∉ option_tokens args := by
      rw [b4]; simp
    have m2 : o2.fin2.isNone = true ↔ "-domain" ∉ option_tokens args := by
      rw [b5]; simp
    by_cases c1 : o2.fin1.isNone = true
    · rw [if_pos c1]
      exact ⟨⟨fun _ => Or.inr (Or.inr (Or.inl (m1.mp c1))), fun _ => rfl⟩,
        fun h => absurd rfl h⟩
    · rw [if_neg c1]
      by_cases c2 : o2.fin2.isNone = true
      · rw [if_pos c2]
        exact ⟨⟨fun _ => Or.inr (Or.inr (Or.inr (m2.mp c2))), fun _ => rfl⟩,
          fun h => absurd rfl h⟩
      · rw [if_neg c2]
        refine ⟨⟨fun h => absurd h (by simp), ?_⟩, fun _ => ⟨o2, rfl, ?_, ?_⟩⟩
        · rintro (h | h | h | h)
          · exact absurd h hbad
          · exact absurd h hdang
          · exact absurd (m1.mpr h) c1
          · exact absurd (m2.mpr h) c2
        · cases hf : o2.fin1 with
          | none => rw [hf] at c1; exact absurd rfl c1
          | some x => rfl
        · cases hf : o2.fin2 with
          | none => rw [hf] at c2; exact absurd rfl c2
          | some x => rfl

theorem usage_errors_witness :
    (process_options ["-init", "a.nii", "-no_smooth", "-domain"] = Outcome.exit 1 ↔
      ((∃ t ∈ option_tokens ["-init", "a.nii", "-no_smooth", "-domain"], known_option t = false) ∨
        dangling ["-init", "a.nii", "-no_smooth", "-domain"] = true ∨
        "-init" ∉ option_tokens ["-init", "a.nii", "-no_smooth", "-domain"] ∨
        "-domain" ∉ option_tokens ["-init", "a.nii", "-no_smooth", "-domain"])) ∧
    process_options ["-init", "a.nii", "-no_smooth", "-domain"] = Outcome.exit 1 :=
  ⟨(usage_errors ["-init", "a.nii", "-no_smooth", "-domain"] (by decide) (by decide)).1,
    by decide⟩

/-- C18 fails on the code: for the accepted command line
`-output out -init init.nii -domain dom.nii` the basename handed to
`save_output_nifti` is `init.nii`, not `out`, with `use_outpath` set: the
`-init` branch (line 49) overwrites the `fout` that `-output` has set.  With
`-output` after `-init` the basename is `out`. -/
theorem output_basename_order :
    process_options ["-output", "out", "-init", "init.nii", "-domain", "dom.nii"]
      = Outcome.proceed
        { fin1 := some "init.nii", fin2 := some "dom.nii", fout := some "init.nii",
          use_outpath := true, mode_smooth := true, mode_init_val := false,
          mode_max_dist := false, max_dist_text := none, init_val_text := none } ∧
    process_options ["-init", "init.nii", "-output", "out", "-domain", "dom.nii"]
      = Outcome.proceed
        { fin1 := some "init.nii", fin2 := some "dom.nii", fout := some "out",
          use_outpath := true, mode_smooth := true, mode_init_val := false,
          mode_max_dist := false, max_dist_text := none, init_val_text := none } := by
  decide

/-- C20 fails on the code: on a line of two voxels whose domain values are 1
and -1, with the seed at the first voxel, the second voxel (non-zero, so part
of the domain by the help text) is not in the domain index set and ends with
distance 0 and generation 0: lines 159 and 171 (and every relaxation block)
test `> 0`. -/
theorem negative_domain_excluded :
    voi_id (fun i => if i = 0 then 1 else -1) (⟨2, 1, 1, 1, 1, 1⟩ : Grid ℚ).nr_voxels = [0] ∧
    (geodistance (fun x : ℚ => (x + 1) / 2) ⟨2, 1, 1, 1, 1, 1⟩
      (fun i => if i = 0 then 1 else -1) (fun i => if i = 0 then 1 else 0) none none 2).map
        (fun r => (r.flood_dist 0, r.flood_dist 1, r.flood_step 1, r.voxel_counter))
      = some (1 / 2, 0, 0, 0) := by
  decide!

/-! ## Scenario 1 with spacing (2,1,1) -/

/-- The line of five voxels with spacing `(2,1,1)`, along z and along x: the
final distances for every `sqrt` that is positive on positive arguments. -/
theorem scenario_one_values (sq : ℚ → ℚ) (hsq : SqrtPos sq) :
    (∃ fuel r, (∀ fuel', fuel ≤ fuel' →
        geodistance sq ⟨1, 1, 5, 2, 1, 1⟩ (fun _ => 1) (fun k => if k = 0 then 1 else 0)
          none none fuel' = some r) ∧
      (List.range 5).map r.flood_dist = [2 / 3, 5 / 3, 8 / 3, 11 / 3, 14 / 3]) ∧
    (∃ fuel r, (∀ fuel', fuel ≤ fuel' →
        geodistance sq ⟨5, 1, 1, 2, 1, 1⟩ (fun _ => 1) (fun k => if k = 0 then 1 else 0)
          none none fuel' = some r) ∧
      (List.range 5).map r.flood_dist = [2 / 3, 8 / 3, 14 / 3, 20 / 3, 26 / 3]) := by
  have e : List.range 5 = [0, 1, 2, 3, 4] := by decide
  constructor
  · obtain ⟨fuel, r, hrun, hval⟩ := line_z sq hsq (⟨1, 1, 5, 2, 1, 1⟩ : Grid ℚ)
      ⟨by norm_num, by norm_num, by norm_num⟩ 5 (fun _ => 1) (fun k => if k = 0 then 1 else 0)
      (fun _ _ => by norm_num) (by decide) (fun k h0 _ => by simp; omega) rfl rfl rfl
    refine ⟨fuel, r, hrun, ?_⟩
    rw [e]
    simp only [List.map_cons, List.map_nil]
    rw [hval 0 (by omega), hval 1 (by omega), hval 2 (by omega), hval 3 (by omega),
      hval 4 (by omega)]
    norm_num [Grid.dist_to_axes]
  · obtain ⟨fuel, r, hrun, hval⟩ := line_x sq hsq (⟨5, 1, 1, 2, 1, 1⟩ : Grid ℚ)
      ⟨by norm_num, by norm_num, by norm_num⟩ 5 (fun _ => 1) (fun k => if k = 0 then 1 else 0)
      (fun _ _ => by norm_num) (by decide) (fun k h0 _ => by simp; omega) rfl rfl rfl
    refine ⟨fuel, r, hrun, ?_⟩
    rw [e]
    simp only [List.map_cons, List.map_nil]
    rw [hval 0 (by omega), hval 1 (by omega), hval 2 (by omega), hval 3 (by omega),
      hval 4 (by omega)]
    norm_num [Grid.dist_to_axes]

/-- C21, as the code has it in exact arithmetic: on the line of five voxels
with spacing `(2,1,1)`, all in the domain, seeded at index 0 and without
cutoff, the loop ends; the final distances are `[2/3, 5/3, 8/3, 11/3, 14/3]`
when the line runs along z (sizes `1, 1, 5`) and
`[2/3, 8/3, 14/3, 20/3, 26/3]` when it runs along x (sizes `5, 1, 1`): half a
voxel is `((2+1+1)/3)/2 = 2/3`.  (The `float` values of the program are the
sums rounded one by one.) -/
theorem scenario_one_amended (sq : ℚ → ℚ) (hsq : SqrtPos sq) :
    (∃ fuel r, (∀ fuel', fuel ≤ fuel' →
        geodistance sq ⟨1, 1, 5, 2, 1, 1⟩ (fun _ => 1) (fun k => if k = 0 then 1 else 0)
          none none fuel' = some r) ∧
      (List.range 5).map r.flood_dist = [2 / 3, 5 / 3, 8 / 3, 11 / 3, 14 / 3]) ∧
    (∃ fuel r, (∀ fuel', fuel ≤ fuel' →
        geodistance sq ⟨5, 1, 1, 2, 1, 1⟩ (fun _ => 1) (fun k => if k = 0 then 1 else 0)
          none none fuel' = some r) ∧
      (List.range 5).map r.flood_dist = [2 / 3, 8 / 3, 14 / 3, 20 / 3, 26 / 3]) :=
  scenario_one_values sq hsq

/-- C21 fails as stated: with spacing `(2,1,1)` the run on the line of five
voxels ends with `[2/3, 5/3, 8/3, 11/3, 14/3]` (line along z) or with
`[2/3, 8/3, 14/3, 20/3, 26/3]` (line along x), not with
`[1/2, 5/2, 9/2, 13/2, 17/2]`. -/
theorem scenario_one_counterexample :
    (geodistance (fun x : ℚ => (x + 1) / 2) ⟨1, 1, 5, 2, 1, 1⟩ (fun _ => 1)
      (fun k => if k = 0 then 1 else 0) none none 6).map
        (fun r => (List.range 5).map r.flood_dist)
      = some [2 / 3, 5 / 3, 8 / 3, 11 / 3, 14 / 3] ∧
    (geodistance (fun x : ℚ => (x + 1) / 2) ⟨5, 1, 1, 2, 1, 1⟩ (fun _ => 1)
      (fun k => if k = 0 then 1 else 0) none none 6).map
        (fun r => (List.range 5).map r.flood_dist)
      = some [2 / 3, 8 / 3, 14 / 3, 20 / 3, 26 / 3] ∧
    ([2 / 3, 5 / 3, 8 / 3, 11 / 3, 14 / 3] : List ℚ) ≠ [1 / 2, 5 / 2, 9 / 2, 13 / 2, 17 / 2] ∧
    ([2 / 3, 8 / 3, 14 / 3, 20 / 3, 26 / 3] : List ℚ) ≠ [1 / 2, 5 / 2, 9 / 2, 13 / 2, 17 / 2] := by
  decide!

theorem scenario_one_amended_witness :
    ∃ fuel, ∃ r : Flood ℚ, (∀ fuel', fuel ≤ fuel' →
        geodistance (fun x : ℚ => (x + 1) / 2) ⟨1, 1, 5, 2, 1, 1⟩ (fun _ => 1)
          (fun k => if k = 0 then 1 else 0) none none fuel' = some r) ∧
      (List.range 5).map r.flood_dist = [2 / 3, 5 / 3, 8 / 3, 11 / 3, 14 / 3] :=
  (scenario_one_amended (fun x : ℚ => (x + 1) / 2) (fun x hx => by positivity)).1

section SensitivityFacts

variable {α : Type} [LinearOrderedField α]

theorem sum_sq_eq_sum (data : Nat → α) (n T i : Nat) :
    sum_sq data n T i = ∑ t in Finset.range T, max (data (i + n * t)) 0 ^ 2 := by
  induction T with
  | zero => simp [sum_sq]
  | succ T ih =>
    have e : sum_sq data n (T + 1) i = sum_sq data n T i +
        (if data (i + n * T) < 0 then 0 else data (i + n * T)) *
        (if data (i + n * T) < 0 then 0 else data (i + n * T)) := by
      simp [sum_sq, List.range_succ, List.foldl_append]
    rw [e, ih, Finset.sum_range_succ]
    congr 1
    by_cases h : data (i + n * T) < 0
    · rw [if_pos h, max_eq_right h.le]; ring
    · rw [if_neg h, max_eq_left (not_lt.mp h)]; ring

theorem sensitivity_apply (sq : α → α) (data : Nat → α) (n T i : Nat) (hi : i < n) :
    sensitivity sq data n T i = sq (sum_sq data n T i) := by
  have key : ∀ m (out : Nat → α), i < m →
      (List.range m).foldl
        (fun out i => Function.update out i (sq (sum_sq data n T i))) out i
        = sq (sum_sq data n T i) := by
    intro m
    induction m with
    | zero => intro out h; omega
    | succ m ih =>
      intro out h
      rw [List.range_succ, List.foldl_append]
      simp only [List.foldl_cons, List.foldl_nil]
      by_cases e : i = m
      · subst e; simp
      · rw [Function.update_noteq e]
        exact ih out (by omega)
  exact key n _ hi

theorem sum_sq_nonneg (data : Nat → α) (n T i : Nat) : 0 ≤ sum_sq data n T i := by
  rw [sum_sq_eq_sum]
  exact Finset.sum_nonneg (fun t _ => sq_nonneg _)

theorem sum_sq_eq_zero_iff (data : Nat → α) (n T i : Nat) :
    sum_sq data n T i = 0 ↔ ∀ t, t < T → data (i + n * t) ≤ 0 := by
  rw [sum_sq_eq_sum, Finset.sum_eq_zero_iff_of_nonneg (fun t _ => sq_nonneg _)]
  constructor
  · intro h t ht
    have := h t (Finset.mem_range.mpr ht)
    have h0 : max (data (i + n * t)) 0 = 0 := by simpa using this
    exact max_eq_right_iff.mp h0
  · intro h t ht
    rw [max_eq_right (h t (Finset.mem_range.mp ht))]
    norm_num

theorem sum_sq_congr (data data2 : Nat → α) (n T i : Nat)
    (h : ∀ t, t < T → data2 (i + n * t) = data (i + n * t) ∨
      (data (i + n * t) ≤ 0 ∧ data2 (i + n * t) ≤ 0)) :
    sum_sq data2 n T i = sum_sq data n T i := by
  rw [sum_sq_eq_sum, sum_sq_eq_sum]
  refine Finset.sum_congr rfl (fun t ht => ?_)
  rcases h t (Finset.mem_range.mp ht) with e | ⟨h1, h2⟩
  · rw [e]
  · rw [max_eq_right h1, max_eq_right h2]

theorem sum_sq_negate (data : Nat → α) (n T i t0 : Nat) (hi : i < n) (ht : t0 < T)
    (hneg : data (i + n * t0) < 0) :
    sum_sq (Function.update data (i + n * t0) (-data (i + n * t0))) n T i
      = sum_sq data n T i + data (i + n * t0) ^ 2 := by
  rw [sum_sq_eq_sum, sum_sq_eq_sum]
  have hinj : ∀ t, i + n * t = i + n * t0 → t = t0 := by
    intro t h
    have h2 : n * t = n * t0 := by omega
    exact Nat.eq_of_mul_eq_mul_left (by omega) h2
  have hm : t0 ∈ Finset.range T := Finset.mem_range.mpr ht
  rw [← Finset.add_sum_erase _ _ hm, ← Finset.add_sum_erase (Finset.range T) _ hm]
  have e1 : ∀ t ∈ (Finset.range T).erase t0,
      max (Function.update data (i + n * t0) (-data (i + n * t0)) (i + n * t)) 0 ^ 2
        = max (data (i + n * t)) 0 ^ 2 := by
    intro t ht
    have hne : t ≠ t0 := (Finset.mem_erase.mp ht).1
    rw [Function.update_noteq (fun h => hne (hinj t h))]
  rw [Finset.sum_congr rfl e1, Function.update_same, max_eq_right hneg.le,
    max_eq_left (by linarith : (0 : α) ≤ -data (i + n * t0))]
  ring

theorem sensitivity_spec (sq : α → α) (data : Nat → α) (n T i : Nat) (hi : i < n)
    (hsq : 0 ≤ sq (sum_sq data n T i) ∧
      sq (sum_sq data n T i) * sq (sum_sq data n T i) = sum_sq data n T i) :
    0 ≤ sensitivity sq data n T i ∧
    sensitivity sq data n T i ^ 2 = ∑ t in Finset.range T, max (data (i + n * t)) 0 ^ 2 ∧
    (sensitivity sq data n T i = 0 ↔ ∀ t, t < T → data (i + n * t) ≤ 0) := by
  rw [sensitivity_apply sq data n T i hi]
  refine ⟨hsq.1, ?_, ?_⟩
  · rw [pow_two, hsq.2, sum_sq_eq_sum]
  · rw [← sum_sq_eq_zero_iff]
    constructor
    · intro h
      rw [← hsq.2, h, mul_zero]
    · intro h
      exact mul_self_eq_zero.mp (hsq.2.trans h)

end SensitivityFacts

theorem shift_axis_int (o : Int) (i n : Nat) (ho : o = -1 ∨ o = 0 ∨ o = 1) (hi : i < n) :
    (guard_axis o i (n - 1) ↔ 0 ≤ (i : Int) + o ∧ (i : Int) + o < (n : Int)) ∧
    (guard_axis o i (n - 1) → ((shift_axis o i : Nat) : Int) = (i : Int) + o) := by
  rcases ho with rfl | rfl | rfl <;> simp [shift_axis, guard_axis] <;> omega

theorem shift_axis_inj (o1 o2 : Int) (i n : Nat) (h1 : o1 = -1 ∨ o1 = 0 ∨ o1 = 1)
    (h2 : o2 = -1 ∨ o2 = 0 ∨ o2 = 1) (hi : i < n) (g1 : guard_axis o1 i (n - 1))
    (g2 : guard_axis o2 i (n - 1)) (h : shift_axis o1 i = shift_axis o2 i) : o1 = o2 := by
  have e1 := (shift_axis_int o1 i n h1 hi).2 g1
  have e2 := (shift_axis_int o2 i n h2 hi).2 g2
  rw [h] at e1
  omega

section TableLoop

variable {α : Type} [LinearOrderedField α]

/-- The coordinates of the voxel a block addresses. -/
theorem nbr_coord (sq : α → α) (G : Grid α) (i : Nat) (hi : i < G.nr_voxels) (e : Nbr α)
    (he : e ∈ nbr_table sq G) (hg : nbr_guard G i e) :
    nbr_index G i e < G.nr_voxels ∧
    ind2sub_3D (nbr_index G i e) G.size_x G.size_y =
      (shift_axis e.a (ind2sub_3D i G.size_x G.size_y).1,
       shift_axis e.b (ind2sub_3D i G.size_x G.size_y).2.1,
       shift_axis e.c (ind2sub_3D i G.size_x G.size_y).2.2) := by
  obtain ⟨ha, hb, hc, _, _⟩ := nbr_table_spec sq G e he
  obtain ⟨hx, hy, hz⟩ := ind2sub_lt i G.size_x G.size_y G.size_z hi
  obtain ⟨gx, gy, gz⟩ := hg
  obtain ⟨x1, _, _⟩ := shift_axis_spec e.a _ _ ha hx gx
  obtain ⟨y1, _, _⟩ := shift_axis_spec e.b _ _ hb hy gy
  obtain ⟨z1, _, _⟩ := shift_axis_spec e.c _ _ hc hz gz
  exact ⟨sub2ind_lt _ _ _ _ _ _ x1 y1 z1,
    ind2sub_sub2ind _ _ (shift_axis e.c (ind2sub_3D i G.size_x G.size_y).2.2) _ _ x1 y1⟩

/-- Two blocks whose bounds tests pass address different voxels. -/
theorem nbr_index_inj (sq : α → α) (G : Grid α) (i : Nat) (hi : i < G.nr_voxels)
    (e1 e2 : Nbr α) (h1 : e1 ∈ nbr_table sq G) (h2 : e2 ∈ nbr_table sq G)
    (g1 : nbr_guard G i e1) (g2 : nbr_guard G i e2)
    (h : nbr_index G i e1 = nbr_index G i e2) : e1 = e2 := by
  obtain ⟨a1, b1, c1, _, w1⟩ := nbr_table_spec sq G e1 h1
  obtain ⟨a2, b2, c2, _, w2⟩ := nbr_table_spec sq G e2 h2
  obtain ⟨hx, hy, hz⟩ := ind2sub_lt i G.size_x G.size_y G.size_z hi
  have k1 := (nbr_coord sq G i hi e1 h1 g1).2
  have k2 := (nbr_coord sq G i hi e2 h2 g2).2
  rw [h, k2] at k1
  have ea := shift_axis_inj e1.a e2.a _ _ a1 a2 hx g1.1 g2.1 (congrArg Prod.fst k1).symm
  have eb := shift_axis_inj e1.b e2.b _ _ b1 b2 hy g1.2.1 g2.2.1
    (congrArg (fun p => p.2.1) k1).symm
  have ec := shift_axis_inj e1.c e2.c _ _ c1 c2 hz g1.2.2 g2.2.2
    (congrArg (fun p => p.2.2) k1).symm
  have ew : e1.w = e2.w := by rw [w1, w2, ea, eb, ec]
  cases e1; cases e2
  simp only [Nbr.mk.injEq]
  exact ⟨ea, eb, ec, ew⟩

/-- Relaxations of two different neighbours from the same voxel commute. -/
theorem relax_comm (dom : Nat → Int) (i j1 j2 : Nat) (w1 w2 : α) (s : Flood α)
    (h1 : j1 ≠ i) (h2 : j2 ≠ i) (h12 : j1 ≠ j2) :
    relax dom i j2 w2 (relax dom i j1 w1 s) = relax dom i j1 w1 (relax dom i j2 w2 s) := by
  have h21 : j2 ≠ j1 := fun h => h12 h.symm
  have hi1 : i ≠ j1 := fun h => h1 h.symm
  have hi2 : i ≠ j2 := fun h => h2 h.symm
  by_cases d1 : dom j1 > 0
  · by_cases d2 : dom j2 > 0
    · by_cases c1 : s.flood_dist i + w1 < s.flood_dist j1 ∨ s.flood_dist j1 = 0
      · by_cases c2 : s.flood_dist i + w2 < s.flood_dist j2 ∨ s.flood_dist j2 = 0
        · rw [relax_of_accept dom i j1 w1 s d1 c1, relax_of_accept dom i j2 w2 s d2 c2,
            relax_of_accept dom i j2 w2 _ d2
              (by simpa [Function.update_noteq h21, Function.update_noteq hi1] using c2),
            relax_of_accept dom i j1 w1 _ d1
              (by simpa [Function.update_noteq h12, Function.update_noteq hi2] using c1)]
          simp only [Function.update_noteq hi1, Function.update_noteq hi2]
          rw [Function.update_comm h12, Function.update_comm h12]
        · rw [relax_of_accept dom i j1 w1 s d1 c1, relax_of_reject dom i j2 w2 s c2,
            relax_of_reject dom i j2 w2 _
              (by simpa [Function.update_noteq h21, Function.update_noteq hi1] using c2),
            relax_of_accept dom i j1 w1 s d1 c1]
      · by_cases c2 : s.flood_dist i + w2 < s.flood_dist j2 ∨ s.flood_dist j2 = 0
        · rw [relax_of_reject dom i j1 w1 s c1, relax_of_accept dom i j2 w2 s d2 c2,
            relax_of_reject dom i j1 w1 _
              (by simpa [Function.update_noteq h12, Function.update_noteq hi2] using c1)]
        · rw [relax_of_reject dom i j1 w1 s c1, relax_of_reject dom i j2 w2 s c2,
            relax_of_reject dom i j1 w1 s c1]
    · rw [relax_of_outside dom i j2 w2 _ d2, relax_of_outside dom i j2 w2 _ d2]
  · rw [relax_of_outside dom i j1 w1 _ d1, relax_of_outside dom i j1 w1 _ d1]

/-- Two blocks of the table commute at a voxel of the grid. -/
theorem relax_nbr_comm (sq : α → α) (G : Grid α) (dom : Nat → Int) (i : Nat)
    (hi : i < G.nr_voxels) (e1 e2 : Nbr α) (h1 : e1 ∈ nbr_table sq G)
    (h2 : e2 ∈ nbr_table sq G) (s : Flood α) :
    relax_nbr G dom i (relax_nbr G dom i s e1) e2
      = relax_nbr G dom i (relax_nbr G dom i s e2) e1 := by
  by_cases e : e1 = e2
  · rw [e]
  unfold relax_nbr
  by_cases g1 : nbr_guard G i e1
  · by_cases g2 : nbr_guard G i e2
    · rw [if_pos g1, if_pos g2, if_pos g1, if_pos g2]
      have n1 := (nbr_sound sq G i hi e1 h1 g1).1.2.2.1
      have n2 := (nbr_sound sq G i hi e2 h2 g2).1.2.2.1
      exact relax_comm dom i _ _ _ _ s (fun h => n1 h.symm) (fun h => n2 h.symm)
        (fun h => e (nbr_index_inj sq G i hi e1 e2 h1 h2 g1 g2 h))
    · rw [if_neg g2, if_neg g2]
  · rw [if_neg g1, if_neg g1]

/-- The blocks may be run in any order. -/
theorem expand_perm (sq : α → α) (G : Grid α) (dom : Nat → Int) (i : Nat)
    (hi : i < G.nr_voxels) (s : Flood α) (l : List (Nbr α)) (hl : l.Perm (nbr_table sq G)) :
    expand sq G dom i s = update_max i (l.foldl (relax_nbr G dom i)
      { s with voxel_counter := s.voxel_counter + 1 }) := by
  rw [expand_eq_table, expand_table]
  congr 1
  refine (List.Perm.foldl_eq' hl ?_ _).symm
  intro x hx y hy z
  exact relax_nbr_comm sq G dom i hi x y (hl.subset hx) (hl.subset hy) z

/-- The weight of a block is `sqrt((a dX)^2 + (b dY)^2 + (c dZ)^2)` when `sqrt`
returns the spacing for the square of a spacing. -/
theorem nbr_weight_sqrt (sq : α → α) (G : Grid α)
    (hsq : sq (G.dX * G.dX) = G.dX ∧ sq (G.dY * G.dY) = G.dY ∧ sq (G.dZ * G.dZ) = G.dZ) :
    ∀ e ∈ nbr_table sq G,
      e.w = sq (((e.a : Int) * G.dX) ^ 2 + ((e.b : Int) * G.dY) ^ 2 + ((e.c : Int) * G.dZ) ^ 2) := by
  obtain ⟨hx, hy, hz⟩ := hsq
  intro e he
  simp only [nbr_table, List.mem_cons, List.mem_singleton, List.not_mem_nil, or_false] at he
  rcases he with rfl | rfl | rfl | rfl | rfl | rfl | rfl | rfl | rfl | rfl | rfl | rfl | rfl |
    rfl | rfl | rfl | rfl | rfl | rfl | rfl | rfl | rfl | rfl | rfl | rfl | rfl <;>
  simp only [Grid.dia_xy, Grid.dia_xz, Grid.dia_yz, Grid.dia_xyz] <;>
  first
  | (refine congrArg sq ?_; push_cast; ring)
  | (refine hx.symm.trans (congrArg sq ?_); push_cast; ring)
  | (refine hy.symm.trans (congrArg sq ?_); push_cast; ring)
  | (refine hz.symm.trans (congrArg sq ?_); push_cast; ring)

/-- The offsets of the blocks, in source order. -/
theorem nbr_table_offsets (sq : α → α) (G : Grid α) :
    (nbr_table sq G).map (fun e => (e.a, e.b, e.c)) =
      [(-1, 0, 0), (1, 0, 0), (0, -1, 0), (0, 1, 0), (0, 0, -1), (0, 0, 1),
       (-1, -1, 0), (-1, 1, 0), (1, -1, 0), (1, 1, 0),
       (0, -1, -1), (0, -1, 1), (0, 1, -1), (0, 1, 1),
       (-1, 0, -1), (1, 0, -1), (-1, 0, 1), (1, 0, 1),
       (-1, -1, -1), (-1, -1, 1), (-1, 1, -1), (1, -1, -1), (-1, 1, 1), (1, -1, 1),
       (1, 1, -1), (1, 1, 1)] := rfl

end TableLoop
section TableClaim

variable {α : Type} [LinearOrderedField α]

theorem nbr_table_offsets_mem (sq : α → α) (G : Grid α) (a b c : Int) :
    (a, b, c) ∈ (nbr_table sq G).map (fun e => (e.a, e.b, e.c)) ↔
      (a = -1 ∨ a = 0 ∨ a = 1) ∧ (b = -1 ∨ b = 0 ∨ b = 1) ∧ (c = -1 ∨ c = 0 ∨ c = 1) ∧
      ¬ (a = 0 ∧ b = 0 ∧ c = 0) := by
  constructor
  · intro h
    obtain ⟨e, he, hq⟩ := List.mem_map.mp h
    obtain ⟨ha, hb, hc, hne, _⟩ := nbr_table_spec sq G e he
    simp only [Prod.mk.injEq] at hq
    obtain ⟨rfl, rfl, rfl⟩ := hq
    exact ⟨ha, hb, hc, hne⟩
  · rintro ⟨ha, hb, hc, hne⟩
    exact List.mem_map.mpr ⟨_, mem_nbr_table sq G a b c ha hb hc hne, rfl⟩

theorem nbr_target (sq : α → α) (G : Grid α) (i : Nat) (hi : i < G.nr_voxels) (e : Nbr α)
    (he : e ∈ nbr_table sq G) :
    (nbr_guard G i e ↔
      (0 ≤ ((ind2sub_3D i G.size_x G.size_y).1 : Int) + e.a ∧
        ((ind2sub_3D i G.size_x G.size_y).1 : Int) + e.a < G.size_x) ∧
      (0 ≤ ((ind2sub_3D i G.size_x G.size_y).2.1 : Int) + e.b ∧
        ((ind2sub_3D i G.size_x G.size_y).2.1 : Int) + e.b < G.size_y) ∧
      (0 ≤ ((ind2sub_3D i G.size_x G.size_y).2.2 : Int) + e.c ∧
        ((ind2sub_3D i G.size_x G.size_y).2.2 : Int) + e.c < G.size_z)) ∧
    (nbr_guard G i e →
      nbr_index G i e < G.nr_voxels ∧ nbr_index G i e ≠ i ∧
      ((ind2sub_3D (nbr_index G i e) G.size_x G.size_y).1 : Int)
        = ((ind2sub_3D i G.size_x G.size_y).1 : Int) + e.a ∧
      ((ind2sub_3D (nbr_index G i e) G.size_x G.size_y).2.1 : Int)
        = ((ind2sub_3D i G.size_x G.size_y).2.1 : Int) + e.b ∧
      ((ind2sub_3D (nbr_index G i e) G.size_x G.size_y).2.2 : Int)
        = ((ind2sub_3D i G.size_x G.size_y).2.2 : Int) + e.c) := by
  obtain ⟨ha, hb, hc, _, _⟩ := nbr_table_spec sq G e he
  obtain ⟨hx, hy, hz⟩ := ind2sub_lt i G.size_x G.size_y G.size_z hi
  obtain ⟨ax, sx⟩ := shift_axis_int e.a _ _ ha hx
  obtain ⟨ay, sy⟩ := shift_axis_int e.b _ _ hb hy
  obtain ⟨az, sz⟩ := shift_axis_int e.c _ _ hc hz
  constructor
  · unfold nbr_guard Grid.end_x Grid.end_y Grid.end_z
    rw [ax, ay, az]
  · intro hg
    obtain ⟨k1, k2⟩ := nbr_coord sq G i hi e he hg
    refine ⟨k1, fun h => (nbr_sound sq G i hi e he hg).1.2.2.1 h.symm, ?_, ?_, ?_⟩
    · rw [k2]; exact sx hg.1
    · rw [k2]; exact sy hg.2.1
    · rw [k2]; exact sz hg.2.2

/-- C23: at a voxel `i` of the grid, the 26 blocks carry each offset of
`{-1,0,1}^3` except `(0,0,0)` exactly once (6 face, 12 edge, 8 corner
offsets); the bounds test of a block passes exactly when the target
`(ix+a, iy+b, iz+c)` lies inside the grid on every axis, the block then
addresses that voxel, and different blocks address different voxels; the
weight of a block is `sqrt((a dX)^2 + (b dY)^2 + (c dZ)^2)` (for a `sqrt` that
returns a spacing for the square of the spacing); and the expansion of `i` is
the loop over the table of blocks taken in any order. -/
theorem neighbour_table_loop (sq : α → α) (G : Grid α) (dom : Nat → Int) (i : Nat)
    (s : Flood α) (hi : i < G.nr_voxels)
    (hsq : sq (G.dX * G.dX) = G.dX ∧ sq (G.dY * G.dY) = G.dY ∧ sq (G.dZ * G.dZ) = G.dZ) :
    ((nbr_table sq G).map (fun e => (e.a, e.b, e.c))).Nodup ∧
    (nbr_table sq G).length = 26 ∧
    (∀ a b c : Int, (a, b, c) ∈ (nbr_table sq G).map (fun e => (e.a, e.b, e.c)) ↔
      (a = -1 ∨ a = 0 ∨ a = 1) ∧ (b = -1 ∨ b = 0 ∨ b = 1) ∧ (c = -1 ∨ c = 0 ∨ c = 1) ∧
      ¬ (a = 0 ∧ b = 0 ∧ c = 0)) ∧
    ((nbr_table sq G).countP
        (fun e => decide (e.a.natAbs + e.b.natAbs + e.c.natAbs = 1)) = 6 ∧
      (nbr_table sq G).countP
        (fun e => decide (e.a.natAbs + e.b.natAbs + e.c.natAbs = 2)) = 12 ∧
      (nbr_table sq G).countP
        (fun e => decide (e.a.natAbs + e.b.natAbs + e.c.natAbs = 3)) = 8) ∧
    (∀ e ∈ nbr_table sq G,
      e.w = sq (((e.a : Int) * G.dX) ^ 2 + ((e.b : Int) * G.dY) ^ 2
        + ((e.c : Int) * G.dZ) ^ 2)) ∧
    (∀ e ∈ nbr_table sq G,
      (nbr_guard G i e ↔
        (0 ≤ ((ind2sub_3D i G.size_x G.size_y).1 : Int) + e.a ∧
          ((ind2sub_3D i G.size_x G.size_y).1 : Int) + e.a < G.size_x) ∧
        (0 ≤ ((ind2sub_3D i G.size_x G.size_y).2.1 : Int) + e.b ∧
          ((ind2sub_3D i G.size_x G.size_y).2.1 : Int) + e.b < G.size_y) ∧
        (0 ≤ ((ind2sub_3D i G.size_x G.size_y).2.2 : Int) + e.c ∧
          ((ind2sub_3D i G.size_x G.size_y).2.2 : Int) + e.c < G.size_z)) ∧
      (nbr_guard G i e →
        nbr_index G i e < G.nr_voxels ∧ nbr_index G i e ≠ i ∧
        ((ind2sub_3D (nbr_index G i e) G.size_x G.size_y).1 : Int)
          = ((ind2sub_3D i G.size_x G.size_y).1 : Int) + e.a ∧
        ((ind2sub_3D (nbr_index G i e) G.size_x G.size_y).2.1 : Int)
          = ((ind2sub_3D i G.size_x G.size_y).2.1 : Int) + e.b ∧
        ((ind2sub_3D (nbr_index G i e) G.size_x G.size_y).2.2 : Int)
          = ((ind2sub_3D i G.size_x G.size_y).2.2 : Int) + e.c)) ∧
    (∀ e1 ∈ nbr_table sq G, ∀ e2 ∈ nbr_table sq G, nbr_guard G i e1 → nbr_guard G i e2 →
      nbr_index G i e1 = nbr_index G i e2 → e1 = e2) ∧
    (∀ l : List (Nbr α), l.Perm (nbr_table sq G) →
      expand sq G dom i s = update_max i (l.foldl (relax_nbr G dom i)
        { s with voxel_counter := s.voxel_counter + 1 })) := by
  refine ⟨?_, rfl, nbr_table_offsets_mem sq G, ⟨rfl, rfl, rfl⟩, nbr_weight_sqrt sq G hsq,
    fun e he => nbr_target sq G i hi e he,
    fun e1 h1 e2 h2 g1 g2 h => nbr_index_inj sq G i hi e1 e2 h1 h2 g1 g2 h,
    fun l hl => expand_perm sq G dom i hi s l hl⟩
  rw [nbr_table_offsets]
  decide

end TableClaim

theorem neighbour_table_loop_witness :
    (nbr_table (fun x : ℚ => if x = 1 then 1 else if x = 4 then 2 else if x = 9 then 3
        else (x + 1) / 2) ⟨3, 3, 3, 1, 2, 3⟩).length = 26 ∧
    (∀ l : List (Nbr ℚ), l.Perm (nbr_table (fun x : ℚ => if x = 1 then 1 else if x = 4 then 2
        else if x = 9 then 3 else (x + 1) / 2) ⟨3, 3, 3, 1, 2, 3⟩) →
      expand (fun x : ℚ => if x = 1 then 1 else if x = 4 then 2 else if x = 9 then 3
          else (x + 1) / 2) ⟨3, 3, 3, 1, 2, 3⟩ (fun _ => 1) 13
          ⟨fun k => if k = 13 then 1 else 0, fun k => if k = 13 then 1 else 0, 1, 0, 0⟩
        = update_max 13 (l.foldl (relax_nbr ⟨3, 3, 3, 1, 2, 3⟩ (fun _ => 1) 13)
          { (⟨fun k => if k = 13 then 1 else 0, fun k => if k = 13 then 1 else 0, 1, 0, 0⟩ :
              Flood ℚ) with voxel_counter := 0 + 1 })) :=
  have h := neighbour_table_loop (fun x : ℚ => if x = 1 then 1 else if x = 4 then 2
      else if x = 9 then 3 else (x + 1) / 2) ⟨3, 3, 3, 1, 2, 3⟩ (fun _ => 1) 13
      ⟨fun k => if k = 13 then 1 else 0, fun k => if k = 13 then 1 else 0, 1, 0, 0⟩
      (by decide) (by norm_num)
  ⟨h.2.1, h.2.2.2.2.2.2.2⟩

/-! ## Index safety -/

section IndexSafety

variable {α : Type} [LinearOrderedField α]

theorem blocks_checked (sq : α → α) (G : Grid α) (dom : Nat → Int) (i : Nat)
    (hi : i < G.nr_voxels) (l : List (Nbr α)) (hl : ∀ e ∈ l, e ∈ nbr_table sq G) :
    ∀ s : Flood α, l.foldl (relax_nbr_checked G dom i) (some s)
      = some (l.foldl (relax_nbr G dom i) s) := by
  induction l with
  | nil => intro s; rfl
  | cons e l ih =>
    intro s
    have he : e ∈ nbr_table sq G := hl e (List.mem_cons_self _ _)
    have step : relax_nbr_checked G dom i (some s) e = some (relax_nbr G dom i s e) := by
      unfold relax_nbr_checked relax_nbr relax_checked
      by_cases hg : nbr_guard G i e
      · have hj := (nbr_coord sq G i hi e he hg).1
        simp [hg, hi, hj]
      · simp [hg]
    rw [List.foldl_cons, List.foldl_cons, step]
    exact ih (fun x hx => hl x (List.mem_cons_of_mem _ hx)) _

theorem visit_checked_some (sq : α → α) (G : Grid α) (dom : Nat → Int) (s : Flood α) (i : Nat)
    (hi : i < G.nr_voxels) :
    visit_checked sq G dom (some s) i = some (visit sq G dom s i) := by
  unfold visit_checked visit
  by_cases hs : s.flood_step i = s.grow_step
  · simp only [Option.some_bind, if_pos hi, if_pos hs]
    rw [blocks_checked sq G dom i hi _ (fun _ h => h), expand_eq_table, expand_table]
    rfl
  · simp only [Option.some_bind, if_pos hi, if_neg hs]

theorem visits_checked (sq : α → α) (G : Grid α) (dom : Nat → Int) (l : List Nat)
    (hl : ∀ i ∈ l, i < G.nr_voxels) :
    ∀ s : Flood α, l.foldl (visit_checked sq G dom) (some s)
      = some (l.foldl (visit sq G dom) s) := by
  induction l with
  | nil => intro s; rfl
  | cons i l ih =>
    intro s
    rw [List.foldl_cons, List.foldl_cons,
      visit_checked_some sq G dom s i (hl i (List.mem_cons_self _ _))]
    exact ih (fun x hx => hl x (List.mem_cons_of_mem _ hx)) _

theorem sweep_checked_some (sq : α → α) (G : Grid α) (dom : Nat → Int) (s : Flood α) :
    sweep_checked sq G dom (voi_id dom G.nr_voxels) s
      = some (sweep sq G dom (voi_id dom G.nr_voxels) s) := by
  unfold sweep_checked sweep
  rw [visits_checked sq G dom _ (fun i h => ((mem_voi_id dom G.nr_voxels i).mp h).1)]
  rfl

/-- Index safety with the number of voxels taken as the product of the sizes
(no wrap-around at line 119): for an index `i` of the domain index set, `i` is
below `nr_voxels`, the sizes are at least 1 and the decoded coordinates lie
inside the grid; every neighbour index `j` of a block whose bounds test
passes is below `nr_voxels` and differs from `i`, and its coordinates are
those of `i` moved by at most one on each axis; and the sweep over the index
set with every buffer access checked returns the result of the sweep. -/
theorem index_safety_nat (sq : α → α) (G : Grid α) (dom : Nat → Int) (i : Nat)
    (hi : i ∈ voi_id dom G.nr_voxels) :
    (i < G.nr_voxels ∧ 1 ≤ G.size_x ∧ 1 ≤ G.size_y ∧ 1 ≤ G.size_z) ∧
    ((ind2sub_3D i G.size_x G.size_y).1 < G.size_x ∧
      (ind2sub_3D i G.size_x G.size_y).2.1 < G.size_y ∧
      (ind2sub_3D i G.size_x G.size_y).2.2 < G.size_z) ∧
    (∀ e ∈ nbr_table sq G, nbr_guard G i e →
      nbr_index G i e < G.nr_voxels ∧ nbr_index G i e ≠ i ∧
      near (ind2sub_3D i G.size_x G.size_y).1
        (ind2sub_3D (nbr_index G i e) G.size_x G.size_y).1 ∧
      near (ind2sub_3D i G.size_x G.size_y).2.1
        (ind2sub_3D (nbr_index G i e) G.size_x G.size_y).2.1 ∧
      near (ind2sub_3D i G.size_x G.size_y).2.2
        (ind2sub_3D (nbr_index G i e) G.size_x G.size_y).2.2 ∧
      ((ind2sub_3D (nbr_index G i e) G.size_x G.size_y).1 : Int)
        = ((ind2sub_3D i G.size_x G.size_y).1 : Int) + e.a ∧
      ((ind2sub_3D (nbr_index G i e) G.size_x G.size_y).2.1 : Int)
        = ((ind2sub_3D i G.size_x G.size_y).2.1 : Int) + e.b ∧
      ((ind2sub_3D (nbr_index G i e) G.size_x G.size_y).2.2 : Int)
        = ((ind2sub_3D i G.size_x G.size_y).2.2 : Int) + e.c) ∧
    (∀ s : Flood α, sweep_checked sq G dom (voi_id dom G.nr_voxels) s
      = some (sweep sq G dom (voi_id dom G.nr_voxels) s)) := by
  have hlt : i < G.nr_voxels := ((mem_voi_id dom G.nr_voxels i).mp hi).1
  obtain ⟨hx, hy, hz⟩ := ind2sub_lt i G.size_x G.size_y G.size_z hlt
  refine ⟨⟨hlt, by omega, by omega, by omega⟩, ⟨hx, hy, hz⟩, ?_, sweep_checked_some sq G dom⟩
  intro e he hg
  obtain ⟨⟨_, hj, hne, n1, n2, n3⟩, _⟩ := nbr_sound sq G i hlt e he hg
  obtain ⟨_, _, c1, c2, c3⟩ := (nbr_target sq G i hlt e he).2 hg
  exact ⟨hj, fun h => hne h.symm, n1, n2, n3, c1, c2, c3⟩

end IndexSafety

/-! ## A distance, once claimed, only decreases -/

section Improvement

variable {α : Type} [LinearOrderedField α]

/-- The states of a run that arise from a state of the run are states of the
run. -/
theorem Run.append {sq : α → α} {G : Grid α} {dom : Nat → Int} {s0 s t : Flood α}
    (h1 : Run sq G dom s0 s) (h2 : Run sq G dom s t) : Run sq G dom s0 t := by
  induction h2 with
  | start => exact h1
  | relax u i e _ hi hdi hs he hg ih => exact Run.relax u i e ih hi hdi hs he hg
  | counter u c _ ih => exact Run.counter u c ih
  | tmax u t _ ih => exact Run.tmax u t ih
  | grow u _ ih => exact Run.grow u ih

/-- An accepted update of a voxel that is already reached lowers its
distance. -/
theorem relax_improves (dom : Nat → Int) (i j : Nat) (w : α) (s : Flood α) (hd : dom j > 0)
    (hc : s.flood_dist i + w < s.flood_dist j ∨ s.flood_dist j = 0)
    (h0 : s.flood_dist j ≠ 0) :
    (relax dom i j w s).flood_dist j = s.flood_dist i + w ∧
    (relax dom i j w s).flood_dist j < s.flood_dist j := by
  have e : (relax dom i j w s).flood_dist j = s.flood_dist i + w := by
    rw [relax_of_accept dom i j w s hd hc]; simp
  rw [e]
  rcases hc with hc | hc
  · exact ⟨rfl, hc⟩
  · exact (h0 hc).elim

/-- From a state of the run on, a non-zero distance stays non-zero and does
not grow. -/
theorem run_mono (sq : α → α) (G : Grid α) (dom raw init : Nat → Int) (hG : G.Pos)
    (hsq : SqrtPos sq) (s t : Flood α) (hs : Run sq G dom (init_flood G raw init) s)
    (ht : Run sq G dom s t) (v : Nat) (hv : s.flood_dist v ≠ 0) :
    t.flood_dist v ≠ 0 ∧ t.flood_dist v ≤ s.flood_dist v := by
  induction ht with
  | start => exact ⟨hv, le_rfl⟩
  | relax u i e hr hi hdi hu he hg ih =>
    have hI := run_inv sq G dom raw init hG hsq u (hs.append hr)
    obtain ⟨_, h1⟩ := hI.active_pos hG hsq i hi hu
    have hw : 0 < e.w :=
      lt_of_lt_of_le (w_min_pos sq G hG hsq) (nbr_weight_bounds sq G e he).1
    obtain ⟨k1, k2⟩ := relax_dist_le dom i (nbr_index G i e) e.w u (by linarith) v ih.1
    exact ⟨k1, le_trans k2 ih.2⟩
  | counter u c _ ih => exact ih
  | tmax u t _ ih => exact ih
  | grow u _ ih => exact ih

theorem iterate_split {σ : Type} (f : σ → σ) (k m : Nat) (h : k ≤ m) (x : σ) :
    f^[m] x = f^[m - k] (f^[k] x) := by
  rw [← Function.iterate_add_apply, Nat.sub_add_cancel h]

end Improvement

section FixedPoint

variable {α : Type} [LinearOrderedField α]

/-- With positive spacings the loop is left after at most `nr_voi + 1`
sweeps. -/
theorem geodistance_total (sq : α → α) (G : Grid α) (dom raw : Nat → Int)
    (mode_init_val : Option Int) (max_dist : Option α) (hG : G.Pos) (hsq : SqrtPos sq) :
    ∃ k r, k ≤ count_voi dom G.nr_voxels + 1 ∧
      r = (sweep sq G dom (voi_id dom G.nr_voxels))^[k]
        (init_flood G raw (label_init mode_init_val raw G.nr_voxels).1) ∧
      continues max_dist r = false ∧
      ∀ fuel, count_voi dom G.nr_voxels + 1 ≤ fuel →
        geodistance sq G dom raw mode_init_val max_dist fuel = some r := by
  have hg : (init_flood G raw (label_init mode_init_val raw G.nr_voxels).1 : Flood α).grow_step
      = 1 := rfl
  obtain ⟨h1, h2⟩ := flood_loop_bounded sq G dom raw
    (label_init mode_init_val raw G.nr_voxels).1 hG hsq max_dist
    (count_voi dom G.nr_voxels + 1)
    (init_flood G raw (label_init mode_init_val raw G.nr_voxels).1) Run.start
    (by intro _; rw [hg]; omega) (by rw [hg]; omega)
  obtain ⟨r, hr⟩ := h2 (by rw [hg]; push_cast; omega)
  obtain ⟨k, _, e, hc⟩ := flood_loop_some sq G dom _ max_dist _ _ r hr
  have hb := h1 r hr
  rw [e, iterate_grow_step, hg] at hb
  refine ⟨k, r, by omega, e, hc, fun fuel hf => ?_⟩
  exact flood_loop_mono_le sq G dom _ max_dist _ r _ fuel hf hr

/-- A sweep that expands no voxel changes only the two counters, and before
it no voxel of the index set had the generation of the sweep. -/
theorem sweep_empty (sq : α → α) (G : Grid α) (dom : Nat → Int) (voi : List Nat)
    (s : Flood α) (h : (sweep sq G dom voi s).voxel_counter = 0) :
    sweep sq G dom voi s = { s with voxel_counter := 0, grow_step := s.grow_step + 1 } ∧
    ∀ i ∈ voi, s.flood_step i ≠ s.grow_step := by
  obtain ⟨_, h2⟩ := foldl_visit_counter sq G dom voi { s with voxel_counter := 0 }
  obtain ⟨e, hne⟩ := h2 h
  constructor
  · show ({ voi.foldl (visit sq G dom) { s with voxel_counter := 0 } with
        grow_step := (voi.foldl (visit sq G dom) { s with voxel_counter := 0 }).grow_step + 1 }
        : Flood α) = _
    rw [e]
  · exact hne

/-- When the last of `k` sweeps expands no voxel, every in-domain generation
is below the counter of that sweep. -/
theorem last_sweep_empty (sq : α → α) (G : Grid α) (dom raw init : Nat → Int) (hG : G.Pos)
    (hsq : SqrtPos sq) (k : Nat)
    (h : ((sweep sq G dom (voi_id dom G.nr_voxels))^[k] (init_flood G raw init)).voxel_counter
      = 0) (v : Nat) (hv : v < G.nr_voxels) (hd : dom v > 0) :
    ((sweep sq G dom (voi_id dom G.nr_voxels))^[k] (init_flood G raw init)).flood_step v
      < ((sweep sq G dom (voi_id dom G.nr_voxels))^[k] (init_flood G raw init)).grow_step
        - 1 := by
  cases k with
  | zero =>
    have h0 : G.nr_voxels = 0 := h
    omega
  | succ k =>
    rw [Function.iterate_succ_apply'] at h ⊢
    have hB := iterate_binv sq G dom init hG hsq _ (init_binv sq G dom raw init hG hsq) k
    obtain ⟨e, hne⟩ := sweep_empty sq G dom _ _ h
    rw [e]
    have h1 := hB.step_le v hv
    have h2 := hne v ((mem_voi_id dom G.nr_voxels v).mpr ⟨hv, hd⟩)
    show ((sweep sq G dom (voi_id dom G.nr_voxels))^[k] (init_flood G raw init)).flood_step v
      < ((sweep sq G dom (voi_id dom G.nr_voxels))^[k] (init_flood G raw init)).grow_step
        + 1 - 1
    omega

/-- At a state between sweeps in which no in-domain generation is pending,
no block changes anything. -/
theorem settled_fixed (sq : α → α) (G : Grid α) (dom init : Nat → Int) (r : Flood α)
    (h : BInv sq G dom init r) (hc : r.voxel_counter = 0) (i : Nat) (hi : i < G.nr_voxels)
    (hdi : dom i > 0) (h0 : r.flood_dist i ≠ 0) :
    (∀ j, Adj G i j → dom j > 0 →
      r.flood_dist j ≠ 0 ∧ r.flood_dist j ≤ r.flood_dist i + step_weight sq G i j) ∧
    (∀ e ∈ nbr_table sq G, nbr_guard G i e → relax dom i (nbr_index G i e) e.w r = r) := by
  have hS : SettledAt sq G dom r i :=
    h.settled i hi hdi h0 (Or.inl (h.conv hc i hi hdi))
  refine ⟨hS, fun e he hg => ?_⟩
  obtain ⟨hadj, hw⟩ := nbr_sound sq G i hi e he hg
  by_cases hdj : dom (nbr_index G i e) > 0
  · obtain ⟨k1, k2⟩ := hS _ hadj hdj
    apply relax_of_reject
    rintro (hlt | hz)
    · rw [hw] at hlt
      exact absurd hlt (not_lt.mpr k2)
    · exact k1 hz
  · exact relax_of_outside dom i _ e.w r hdj

end FixedPoint

theorem foldl_max_ge {β : Type} [LinearOrder β] (l : List β) :
    ∀ a : β, a ≤ l.foldl max a ∧ (∀ d ∈ l, d ≤ l.foldl max a) ∧
      (l.foldl max a = a ∨ l.foldl max a ∈ l) := by
  induction l with
  | nil => intro a; simp
  | cons x l ih =>
    intro a
    obtain ⟨h1, h2, h3⟩ := ih (max a x)
    rw [List.foldl_cons]
    refine ⟨le_trans (le_max_left a x) h1, ?_, ?_⟩
    · intro d hd
      rcases List.mem_cons.mp hd with rfl | hd
      · exact le_trans (le_max_right a d) h1
      · exact h2 d hd
    · rcases h3 with h3 | h3
      · rcases max_choice a x with e | e
        · left; rw [h3, e]
        · right; rw [h3, e]; exact List.mem_cons_self _ _
      · right; exact List.mem_cons_of_mem _ h3

section RunningMaximum

variable {α : Type} [LinearOrderedField α]

/-- The blocks of a voxel of the grid leave the voxel itself as it is. -/
theorem blocks_keep_self (sq : α → α) (G : Grid α) (dom : Nat → Int) (i : Nat)
    (hi : i < G.nr_voxels) (l : List (Nbr α)) (hl : ∀ e ∈ l, e ∈ nbr_table sq G) :
    ∀ s : Flood α, (l.foldl (relax_nbr G dom i) s).flood_dist i = s.flood_dist i ∧
      (l.foldl (relax_nbr G dom i) s).flood_step i = s.flood_step i ∧
      (l.foldl (relax_nbr G dom i) s).temp_max_dist = s.temp_max_dist ∧
      (l.foldl (relax_nbr G dom i) s).grow_step = s.grow_step := by
  induction l with
  | nil => intro s; exact ⟨rfl, rfl, rfl, rfl⟩
  | cons e l ih =>
    intro s
    have he : e ∈ nbr_table sq G := hl e (List.mem_cons_self _ _)
    obtain ⟨a, b, c, d⟩ := ih (fun x hx => hl x (List.mem_cons_of_mem _ hx))
      (relax_nbr G dom i s e)
    rw [List.foldl_cons, a, b, c, d]
    obtain ⟨c1, _, c3⟩ := relax_nbr_core G dom i s e
    refine ⟨?_, ?_, c3, c1⟩
    · unfold relax_nbr
      split
      · rename_i hg
        exact (relax_frame dom i _ e.w s i (nbr_sound sq G i hi e he hg).1.2.2.1).1
      · rfl
    · unfold relax_nbr
      split
      · rename_i hg
        exact (relax_frame dom i _ e.w s i (nbr_sound sq G i hi e he hg).1.2.2.1).2
      · rfl

/-- The expansion of a voxel of the grid raises the running maximum to the
distance of the voxel, when that is larger. -/
theorem expand_temp_max (sq : α → α) (G : Grid α) (dom : Nat → Int) (i : Nat)
    (hi : i < G.nr_voxels) (s : Flood α) :
    (expand sq G dom i s).temp_max_dist = max s.temp_max_dist (s.flood_dist i) := by
  rw [expand_eq_table, expand_table]
  obtain ⟨a, _, c, _⟩ := blocks_keep_self sq G dom i hi (nbr_table sq G) (fun _ h => h)
    { s with voxel_counter := s.voxel_counter + 1 }
  unfold update_max
  rw [a, c]
  by_cases h : s.flood_dist i > s.temp_max_dist
  · rw [if_pos h]
    exact (max_eq_right h.le).symm
  · rw [if_neg h]
    exact c.trans (max_eq_left (not_lt.mp h)).symm

theorem visits_log_fst (sq : α → α) (G : Grid α) (dom : Nat → Int) (l : List Nat) :
    ∀ p : Flood α × List α,
      (l.foldl (visit_log sq G dom) p).1 = l.foldl (visit sq G dom) p.1 := by
  induction l with
  | nil => intro p; rfl
  | cons i l ih =>
    intro p
    rw [List.foldl_cons, List.foldl_cons, ih]
    congr 1
    unfold visit_log visit
    split <;> rfl

theorem sweep_log_fst (sq : α → α) (G : Grid α) (dom : Nat → Int) (voi : List Nat)
    (p : Flood α × List α) : (sweep_log sq G dom voi p).1 = sweep sq G dom voi p.1 := by
  unfold sweep_log sweep
  simp only [visits_log_fst]

theorem iterate_log_fst (sq : α → α) (G : Grid α) (dom : Nat → Int) (voi : List Nat)
    (k : Nat) : ∀ p : Flood α × List α,
      ((sweep_log sq G dom voi)^[k] p).1 = (sweep sq G dom voi)^[k] p.1 := by
  induction k with
  | zero => intro p; rfl
  | succ k ih =>
    intro p
    rw [Function.iterate_succ_apply, Function.iterate_succ_apply, ih, sweep_log_fst]

/-- Visits keep the running maximum equal to the maximum of the log (and of
the initial 0), and only append to the log. -/
theorem visits_log_max (sq : α → α) (G : Grid α) (dom : Nat → Int) (l : List Nat)
    (hl : ∀ i ∈ l, i < G.nr_voxels) :
    ∀ p : Flood α × List α, p.1.temp_max_dist = p.2.foldl max 0 →
      (l.foldl (visit_log sq G dom) p).1.temp_max_dist
        = (l.foldl (visit_log sq G dom) p).2.foldl max 0 ∧
      ∃ m, (l.foldl (visit_log sq G dom) p).2 = p.2 ++ m := by
  induction l with
  | nil => intro p h; exact ⟨h, [], by simp⟩
  | cons i l ih =>
    intro p h
    have hi := hl i (List.mem_cons_self _ _)
    have step : (visit_log sq G dom p i).1.temp_max_dist
        = (visit_log sq G dom p i).2.foldl max 0 ∧
        ∃ m, (visit_log sq G dom p i).2 = p.2 ++ m := by
      unfold visit_log
      split
      · refine ⟨?_, [p.1.flood_dist i], rfl⟩
        show (expand sq G dom i p.1).temp_max_dist = (p.2 ++ [p.1.flood_dist i]).foldl max 0
        rw [expand_temp_max sq G dom i hi, List.foldl_append, h]
        rfl
      · exact ⟨h, [], by simp⟩
    obtain ⟨a, m1, b⟩ := step
    obtain ⟨c, m2, d⟩ := ih (fun x hx => hl x (List.mem_cons_of_mem _ hx)) _ a
    rw [List.foldl_cons]
    refine ⟨c, m1 ++ m2, ?_⟩
    rw [d, b, List.append_assoc]

theorem sweep_log_max (sq : α → α) (G : Grid α) (dom : Nat → Int) (p : Flood α × List α)
    (h : p.1.temp_max_dist = p.2.foldl max 0) :
    (sweep_log sq G dom (voi_id dom G.nr_voxels) p).1.temp_max_dist
      = (sweep_log sq G dom (voi_id dom G.nr_voxels) p).2.foldl max 0 ∧
    ∃ m, (sweep_log sq G dom (voi_id dom G.nr_voxels) p).2 = p.2 ++ m :=
  visits_log_max sq G dom (voi_id dom G.nr_voxels)
    (fun i hi => ((mem_voi_id dom G.nr_voxels i).mp hi).1)
    ({ p.1 with voxel_counter := 0 }, p.2) h

theorem iterate_log_max (sq : α → α) (G : Grid α) (dom : Nat → Int) (k : Nat) :
    ∀ p : Flood α × List α, p.1.temp_max_dist = p.2.foldl max 0 →
      ((sweep_log sq G dom (voi_id dom G.nr_voxels))^[k] p).1.temp_max_dist
        = ((sweep_log sq G dom (voi_id dom G.nr_voxels))^[k] p).2.foldl max 0 := by
  induction k with
  | zero => intro p h; exact h
  | succ k ih =>
    intro p h
    rw [Function.iterate_succ_apply]
    exact ih _ (sweep_log_max sq G dom p h).1

end RunningMaximum
section RunningMaximumClaim

variable {α : Type} [LinearOrderedField α]

/-- With positive spacings a sweep logs positive distances only. -/
theorem sweep_log_pos (sq : α → α) (G : Grid α) (dom init : Nat → Int) (hG : G.Pos)
    (hsq : SqrtPos sq) (p : Flood α × List α) (h : BInv sq G dom init p.1)
    (hp : ∀ d ∈ p.2, 0 < d) :
    ∀ d ∈ (sweep_log sq G dom (voi_id dom G.nr_voxels) p).2, 0 < d := by
  have key := foldl_induct (visit_log sq G dom)
    (fun (processed : List Nat) (q : Flood α × List α) =>
      (∀ x ∈ processed, x ∈ voi_id dom G.nr_voxels) ∧
      q.1 = processed.foldl (visit sq G dom) { p.1 with voxel_counter := 0 } ∧
      ∀ d ∈ q.2, 0 < d)
    (voi_id dom G.nr_voxels)
    (by
      intro processed i q hi ⟨h1, h2, h3⟩
      obtain ⟨hi1, hi2⟩ := (mem_voi_id dom G.nr_voxels i).mp hi
      refine ⟨?_, ?_, ?_⟩
      · intro x hx
        rcases List.mem_append.mp hx with hx | hx
        · exact h1 x hx
        · rw [List.mem_singleton.mp hx]; exact hi
      · rw [List.foldl_append, ← h2, List.foldl_cons, List.foldl_nil]
        exact visits_log_fst sq G dom [i] q
      · unfold visit_log
        split
        · rename_i hact
          intro d hd
          rcases List.mem_append.mp hd with hd | hd
          · exact h3 d hd
          · rw [List.mem_singleton.mp hd]
            have hI := (mid_sweep sq G dom init hG hsq p.1 h processed h1).1
            rw [← h2] at hI
            exact (hI.active_pos hG hsq i hi1 hact).2
        · exact h3)
    (voi_id dom G.nr_voxels) [] ({ p.1 with voxel_counter := 0 }, p.2) (fun _ hx => hx)
    ⟨by simp, rfl, hp⟩
  exact key.2.2

theorem iterate_log_pos (sq : α → α) (G : Grid α) (dom raw init : Nat → Int) (hG : G.Pos)
    (hsq : SqrtPos sq) (k : Nat) :
    ∀ d ∈ ((sweep_log sq G dom (voi_id dom G.nr_voxels))^[k]
      (init_flood G raw init, ([] : List α))).2, 0 < d := by
  induction k with
  | zero => intro d hd; simp at hd
  | succ k ih =>
    rw [Function.iterate_succ_apply']
    apply sweep_log_pos sq G dom init hG hsq _ _ ih
    rw [iterate_log_fst]
    exact iterate_binv sq G dom init hG hsq _ (init_binv sq G dom raw init hG hsq) k

/-- C27: after `k` completed sweeps the running maximum `temp_max_dist` is
the maximum of 0 and of the distances that the voxels expanded so far, in
any sweep, held when they were expanded: it bounds every logged distance, it
is 0 when no voxel has been expanded, and with positive spacings it is one of
the logged distances as soon as there is one.  A sweep only appends to the
log, and the running maximum does not decrease from sweep to sweep. -/
theorem running_maximum (sq : α → α) (G : Grid α) (dom raw : Nat → Int)
    (mode_init_val : Option Int) (k : Nat) :
    ((sweep_log sq G dom (voi_id dom G.nr_voxels))^[k]
        (init_flood G raw (label_init mode_init_val raw G.nr_voxels).1, ([] : List α))).1
      = (sweep sq G dom (voi_id dom G.nr_voxels))^[k]
        (init_flood G raw (label_init mode_init_val raw G.nr_voxels).1) ∧
    ((sweep sq G dom (voi_id dom G.nr_voxels))^[k]
        (init_flood G raw (label_init mode_init_val raw G.nr_voxels).1)).temp_max_dist
      = ((sweep_log sq G dom (voi_id dom G.nr_voxels))^[k]
        (init_flood G raw (label_init mode_init_val raw G.nr_voxels).1, ([] : List α))).2.foldl
          max 0 ∧
    (∀ d ∈ ((sweep_log sq G dom (voi_id dom G.nr_voxels))^[k]
        (init_flood G raw (label_init mode_init_val raw G.nr_voxels).1, ([] : List α))).2,
      d ≤ ((sweep sq G dom (voi_id dom G.nr_voxels))^[k]
        (init_flood G raw (label_init mode_init_val raw G.nr_voxels).1)).temp_max_dist) ∧
    (((sweep_log sq G dom (voi_id dom G.nr_voxels))^[k]
        (init_flood G raw (label_init mode_init_val raw G.nr_voxels).1, ([] : List α))).2 = [] →
      ((sweep sq G dom (voi_id dom G.nr_voxels))^[k]
        (init_flood G raw (label_init mode_init_val raw G.nr_voxels).1)).temp_max_dist = 0) ∧
    (G.Pos → SqrtPos sq →
      ((sweep_log sq G dom (voi_id dom G.nr_voxels))^[k]
        (init_flood G raw (label_init mode_init_val raw G.nr_voxels).1, ([] : List α))).2 ≠ [] →
      ((sweep sq G dom (voi_id dom G.nr_voxels))^[k]
        (init_flood G raw (label_init mode_init_val raw G.nr_voxels).1)).temp_max_dist ∈
      ((sweep_log sq G dom (voi_id dom G.nr_voxels))^[k]
        (init_flood G raw (label_init mode_init_val raw G.nr_voxels).1, ([] : List α))).2) ∧
    (∃ m, ((sweep_log sq G dom (voi_id dom G.nr_voxels))^[k + 1]
        (init_flood G raw (label_init mode_init_val raw G.nr_voxels).1, ([] : List α))).2
      = ((sweep_log sq G dom (voi_id dom G.nr_voxels))^[k]
        (init_flood G raw (label_init mode_init_val raw G.nr_voxels).1, ([] : List α))).2
        ++ m) ∧
    ((sweep sq G dom (voi_id dom G.nr_voxels))^[k]
        (init_flood G raw (label_init mode_init_val raw G.nr_voxels).1)).temp_max_dist ≤
      ((sweep sq G dom (voi_id dom G.nr_voxels))^[k + 1]
        (init_flood G raw (label_init mode_init_val raw G.nr_voxels).1)).temp_max_dist := by
  have h0 : (init_flood G raw (label_init mode_init_val raw G.nr_voxels).1,
      ([] : List α)).1.temp_max_dist
      = (init_flood G raw (label_init mode_init_val raw G.nr_voxels).1,
        ([] : List α)).2.foldl max 0 := rfl
  have e1 := iterate_log_fst sq G dom (voi_id dom G.nr_voxels) k
    (init_flood G raw (label_init mode_init_val raw G.nr_voxels).1, ([] : List α))
  have e2 := iterate_log_max sq G dom k _ h0
  have e3 := iterate_log_max sq G dom (k + 1) _ h0
  have e4 := iterate_log_fst sq G dom (voi_id dom G.nr_voxels) (k + 1)
    (init_flood G raw (label_init mode_init_val raw G.nr_voxels).1, ([] : List α))
  rw [e1] at e2
  rw [e4] at e3
  obtain ⟨_, m, hm⟩ := sweep_log_max sq G dom
    ((sweep_log sq G dom (voi_id dom G.nr_voxels))^[k]
      (init_flood G raw (label_init mode_init_val raw G.nr_voxels).1, ([] : List α)))
    (iterate_log_max sq G dom k _ h0)
  rw [← Function.iterate_succ_apply' (sweep_log sq G dom (voi_id dom G.nr_voxels)) k] at hm
  obtain ⟨g1, g2, g3⟩ := foldl_max_ge
    ((sweep_log sq G dom (voi_id dom G.nr_voxels))^[k]
      (init_flood G raw (label_init mode_init_val raw G.nr_voxels).1, ([] : List α))).2
    (0 : α)
  refine ⟨e1, e2, ?_, ?_, ?_, ⟨m, hm⟩, ?_⟩
  · intro d hd
    rw [e2]
    exact g2 d hd
  · intro hnil
    rw [e2, hnil]
    rfl
  · intro hG hsq hne
    rw [e2]
    rcases g3 with g3 | g3
    · obtain ⟨d, hd⟩ := List.exists_mem_of_ne_nil _ hne
      have hpos := iterate_log_pos sq G dom raw _ hG hsq k d hd
      have hle := g2 d hd
      rw [g3] at hle
      exact absurd hpos (not_lt.mpr hle)
    · exact g3
  · rw [e2, e3, hm, List.foldl_append]
    exact (foldl_max_ge m _).1

end RunningMaximumClaim

theorem running_maximum_witness :
    ((sweep (fun x : ℚ => (x + 1) / 2) ⟨3, 1, 1, 1, 2, 3⟩ (fun _ => 1)
        (voi_id (fun _ => 1) (⟨3, 1, 1, 1, 2, 3⟩ : Grid ℚ).nr_voxels))^[2]
        (init_flood ⟨3, 1, 1, 1, 2, 3⟩ (fun k => if k = 0 then 1 else 0)
          (label_init none (fun k => if k = 0 then 1 else 0)
            (⟨3, 1, 1, 1, 2, 3⟩ : Grid ℚ).nr_voxels).1)).temp_max_dist ∈
      ((sweep_log (fun x : ℚ => (x + 1) / 2) ⟨3, 1, 1, 1, 2, 3⟩ (fun _ => 1)
        (voi_id (fun _ => 1) (⟨3, 1, 1, 1, 2, 3⟩ : Grid ℚ).nr_voxels))^[2]
        (init_flood ⟨3, 1, 1, 1, 2, 3⟩ (fun k => if k = 0 then 1 else 0)
          (label_init none (fun k => if k = 0 then 1 else 0)
            (⟨3, 1, 1, 1, 2, 3⟩ : Grid ℚ).nr_voxels).1, ([] : List ℚ))).2 ∧
    ((sweep_log (fun x : ℚ => (x + 1) / 2) ⟨3, 1, 1, 1, 2, 3⟩ (fun _ => 1)
        (voi_id (fun _ => 1) (⟨3, 1, 1, 1, 2, 3⟩ : Grid ℚ).nr_voxels))^[2]
        (init_flood ⟨3, 1, 1, 1, 2, 3⟩ (fun k => if k = 0 then 1 else 0)
          (label_init none (fun k => if k = 0 then 1 else 0)
            (⟨3, 1, 1, 1, 2, 3⟩ : Grid ℚ).nr_voxels).1, ([] : List ℚ))).2 = [1, 2] :=
  ⟨(running_maximum (fun x : ℚ => (x + 1) / 2) ⟨3, 1, 1, 1, 2, 3⟩ (fun _ => 1)
    (fun k => if k = 0 then 1 else 0) none 2).2.2.2.2.1 ⟨by norm_num, by norm_num, by norm_num⟩
    (fun x hx => by positivity) (by decide!), by decide!⟩

/-! ## The overshoot of the cutoff -/

section Overshoot

variable {α : Type} [LinearOrderedField α]

theorem relax_cut (G : Grid α) (W M T0 c : α) (g : Int) (dom : Nat → Int) (i j : Nat) (w : α)
    (s : Flood α) (h : CutInv G W M T0 c g s) (hw : w ≤ W) (hc : s.flood_dist i = c)
    (hcM : c < M + W) : CutInv G W M T0 c g (relax dom i j w s) := by
  by_cases hd : dom j > 0
  · by_cases ha : s.flood_dist i + w < s.flood_dist j ∨ s.flood_dist j = 0
    · rw [relax_of_accept dom i j w s hd ha]
      refine ⟨h.grow, h.tmax, ?_, ?_, ?_, ?_⟩
      · intro v hv
        show Function.update s.flood_step j (s.grow_step + 1) v ≤ g + 1
        by_cases e : v = j
        · rw [e, Function.update_same, h.grow]
        · rw [Function.update_noteq e]; exact h.step_le v hv
      · intro v hv hs
        change Function.update s.flood_step j (s.grow_step + 1) v = g at hs
        show Function.update s.flood_dist j (s.flood_dist i + w) v ≤ T0 + W
        by_cases e : v = j
        · rw [e, Function.update_same, h.grow] at hs
          omega
        · rw [Function.update_noteq e] at hs ⊢
          exact h.cur v hv hs
      · intro v hv hs
        change Function.update s.flood_step j (s.grow_step + 1) v = g + 1 at hs
        show Function.update s.flood_dist j (s.flood_dist i + w) v
          ≤ max s.temp_max_dist c + W
        by_cases e : v = j
        · rw [e, Function.update_same, hc]
          have := le_max_right s.temp_max_dist c
          linarith
        · rw [Function.update_noteq e] at hs ⊢
          exact h.next v hv hs
      · intro v hv
        show Function.update s.flood_dist j (s.flood_dist i + w) v < M + 2 * W
        by_cases e : v = j
        · rw [e, Function.update_same, hc]
          linarith
        · rw [Function.update_noteq e]
          exact h.all v hv
    · rw [relax_of_reject dom i j w s ha]; exact h
  · rw [relax_of_outside dom i j w s hd]; exact h

theorem blocks_cut (sq : α → α) (G : Grid α) (W M T0 c : α) (g : Int) (dom : Nat → Int)
    (i : Nat) (hi : i < G.nr_voxels) (hW : ∀ e ∈ nbr_table sq G, e.w ≤ W) (hcM : c < M + W)
    (l : List (Nbr α)) (hl : ∀ e ∈ l, e ∈ nbr_table sq G) :
    ∀ s : Flood α, CutInv G W M T0 c g s → s.flood_dist i = c →
      CutInv G W M T0 c g (l.foldl (relax_nbr G dom i) s) := by
  induction l with
  | nil => intro s h _; exact h
  | cons e l ih =>
    intro s h hc
    have he : e ∈ nbr_table sq G := hl e (List.mem_cons_self _ _)
    rw [List.foldl_cons]
    refine ih (fun x hx => hl x (List.mem_cons_of_mem _ hx)) _ ?_ ?_
    · unfold relax_nbr
      split
      · exact relax_cut G W M T0 c g dom i _ e.w s h (hW e he) hc hcM
      · exact h
    · have := (blocks_keep_self sq G dom i hi [e]
        (fun x hx => by rw [List.mem_singleton.mp hx]; exact he) s).1
      rw [List.foldl_cons, List.foldl_nil] at this
      rw [this, hc]

theorem expand_cut (sq : α → α) (G : Grid α) (W M T0 : α) (g : Int) (dom : Nat → Int)
    (i : Nat) (hi : i < G.nr_voxels) (hW : ∀ e ∈ nbr_table sq G, e.w ≤ W) (hT : T0 < M)
    (s : Flood α) (h : CutInv G W M T0 T0 g s) (hs : s.flood_step i = g) :
    CutInv G W M T0 T0 g (expand sq G dom i s) ∧ s.flood_dist i < M + W := by
  have hcur := h.cur i hi hs
  have hcM : s.flood_dist i < M + W := by linarith
  refine ⟨?_, hcM⟩
  have h1 : CutInv G W M T0 (s.flood_dist i) g
      { s with voxel_counter := s.voxel_counter + 1 } := by
    refine ⟨h.grow, h.tmax, h.step_le, h.cur, ?_, h.all⟩
    intro v hv hv2
    have := h.next v hv hv2
    have e1 : max s.temp_max_dist T0 = s.temp_max_dist := max_eq_left h.tmax
    rw [e1] at this
    have := le_max_left s.temp_max_dist (s.flood_dist i)
    show s.flood_dist v ≤ max s.temp_max_dist (s.flood_dist i) + W
    linarith
  have h2 := blocks_cut sq G W M T0 (s.flood_dist i) g dom i hi hW hcM (nbr_table sq G)
    (fun _ hx => hx) _ h1 rfl
  have hmax := expand_temp_max sq G dom i hi s
  rw [expand_eq_table] at hmax ⊢
  obtain ⟨u1, u2, u3, _⟩ := update_max_core i ((nbr_table sq G).foldl (relax_nbr G dom i)
    { s with voxel_counter := s.voxel_counter + 1 })
  obtain ⟨k1, _, k3, _⟩ := blocks_keep_self sq G dom i hi (nbr_table sq G) (fun _ hx => hx)
    { s with voxel_counter := s.voxel_counter + 1 }
  unfold expand_table at hmax ⊢
  have hle : s.temp_max_dist ≤ max s.temp_max_dist (s.flood_dist i) := le_max_left _ _
  refine ⟨?_, ?_, ?_, ?_, ?_, ?_⟩
  · rw [u3]; exact h2.grow
  · rw [hmax]; exact le_trans h.tmax hle
  · intro v hv; rw [u2]; exact h2.step_le v hv
  · intro v hv hv2; rw [u2] at hv2; rw [u1]; exact h2.cur v hv hv2
  · intro v hv hv2
    rw [u2] at hv2
    rw [u1, hmax]
    have := h2.next v hv hv2
    rw [k3] at this
    have e1 : max (max s.temp_max_dist (s.flood_dist i)) T0
        = max s.temp_max_dist (s.flood_dist i) := max_eq_left (le_trans h.tmax hle)
    rw [e1]
    exact this
  · intro v hv; rw [u1]; exact h2.all v hv

/-- One sweep that the loop condition lets in keeps the bounds. -/
theorem sweep_log_cut (sq : α → α) (G : Grid α) (W M : α) (dom : Nat → Int)
    (hW : ∀ e ∈ nbr_table sq G, e.w ≤ W) (p : Flood α × List α) (h : CutBound G W M p)
    (hT : p.1.temp_max_dist < M) :
    CutBound G W M (sweep_log sq G dom (voi_id dom G.nr_voxels) p) := by
  have key : ∀ (l : List Nat), (∀ i ∈ l, i < G.nr_voxels) → ∀ q : Flood α × List α,
      CutInv G W M p.1.temp_max_dist p.1.temp_max_dist p.1.grow_step q.1 →
      (∀ d ∈ q.2, d < M + W) →
      CutInv G W M p.1.temp_max_dist p.1.temp_max_dist p.1.grow_step
        (l.foldl (visit_log sq G dom) q).1 ∧
      ∀ d ∈ (l.foldl (visit_log sq G dom) q).2, d < M + W := by
    intro l
    induction l with
    | nil => intro _ q h1 h2; exact ⟨h1, h2⟩
    | cons i l ih =>
      intro hl q h1 h2
      have hi := hl i (List.mem_cons_self _ _)
      rw [List.foldl_cons]
      apply ih (fun x hx => hl x (List.mem_cons_of_mem _ hx))
      · unfold visit_log
        split
        · rename_i hact
          exact (expand_cut sq G W M _ _ dom i hi hW hT q.1 h1 (hact.trans h1.grow)).1
        · exact h1
      · unfold visit_log
        split
        · rename_i hact
          intro d hd
          rcases List.mem_append.mp hd with hd | hd
          · exact h2 d hd
          · rw [List.mem_singleton.mp hd]
            exact (expand_cut sq G W M _ _ dom i hi hW hT q.1 h1 (hact.trans h1.grow)).2
        · exact h2
  have h0 : CutInv G W M p.1.temp_max_dist p.1.temp_max_dist p.1.grow_step
      ({ p.1 with voxel_counter := 0 }, p.2).1 := by
    refine ⟨rfl, le_rfl, ?_, h.cur, ?_, h.all⟩
    · intro v hv
      have := h.step_le v hv
      show p.1.flood_step v ≤ p.1.grow_step + 1
      omega
    · intro v hv hv2
      have := h.step_le v hv
      change p.1.flood_step v = p.1.grow_step + 1 at hv2
      omega
  obtain ⟨a, b⟩ := key (voi_id dom G.nr_voxels)
    (fun i hi => ((mem_voi_id dom G.nr_voxels i).mp hi).1) _ h0 h.logged
  unfold sweep_log
  refine ⟨?_, ?_, ?_, b⟩
  · intro v hv
    have := a.step_le v hv
    show ((voi_id dom G.nr_voxels).foldl (visit_log sq G dom)
      ({ p.1 with voxel_counter := 0 }, p.2)).1.flood_step v
      ≤ ((voi_id dom G.nr_voxels).foldl (visit_log sq G dom)
      ({ p.1 with voxel_counter := 0 }, p.2)).1.grow_step + 1
    rw [a.grow]
    exact this
  · intro v hv hv2
    change ((voi_id dom G.nr_voxels).foldl (visit_log sq G dom)
      ({ p.1 with voxel_counter := 0 }, p.2)).1.flood_step v
      = ((voi_id dom G.nr_voxels).foldl (visit_log sq G dom)
      ({ p.1 with voxel_counter := 0 }, p.2)).1.grow_step + 1 at hv2
    rw [a.grow] at hv2
    have := a.next v hv hv2
    rw [max_eq_left a.tmax] at this
    exact this
  · exact a.all

end Overshoot
section OvershootClaim

variable {α : Type} [LinearOrderedField α]

/-- The sweeps that the loop ran were all let in by the loop condition. -/
theorem flood_loop_entered (sq : α → α) (G : Grid α) (dom : Nat → Int) (voi : List Nat)
    (max_dist : Option α) (fuel : Nat) :
    ∀ (s r : Flood α), flood_loop sq G dom voi max_dist fuel s = some r →
      ∃ k, r = (sweep sq G dom voi)^[k] s ∧ continues max_dist r = false ∧
        ∀ j, j < k → continues max_dist ((sweep sq G dom voi)^[j] s) = true := by
  induction fuel with
  | zero =>
    intro s r h
    unfold flood_loop at h
    split at h
    · exact absurd h (by simp)
    · next hc =>
      have : s = r := by simpa using h
      subst this
      exact ⟨0, rfl, by simpa using hc, fun j hj => by omega⟩
  | succ fuel ih =>
    intro s r h
    unfold flood_loop at h
    split at h
    · next hc =>
      obtain ⟨k, e, hf, hj⟩ := ih _ _ h
      refine ⟨k + 1, by rw [e]; rfl, hf, fun j hj2 => ?_⟩
      cases j with
      | zero => exact hc
      | succ j => exact hj j (by omega)
    · next hc =>
      have : s = r := by simpa using h
      subst this
      exact ⟨0, rfl, by simpa using hc, fun j hj => by omega⟩

theorem spacing_le_w_max (sq : α → α) (G : Grid α) :
    G.dX ≤ w_max sq G ∧ G.dY ≤ w_max sq G ∧ G.dZ ≤ w_max sq G ∧
    G.dia_xyz sq ≤ w_max sq G := by
  have h1 := (class_weight_bounds sq G true false false (by simp)).2
  have h2 := (class_weight_bounds sq G false true false (by simp)).2
  have h3 := (class_weight_bounds sq G false false true (by simp)).2
  have h4 := (class_weight_bounds sq G true true true (by simp)).2
  exact ⟨h1, h2, h3, h4⟩

/-- For a monotone `sqrt` that returns a spacing for the square of the
spacing, the largest neighbour weight is the long diagonal. -/
theorem w_max_eq_dia (sq : α → α) (G : Grid α) (hG : G.Pos)
    (hmono : ∀ x y, 0 ≤ x → x ≤ y → sq x ≤ sq y)
    (hsq : sq (G.dX * G.dX) = G.dX ∧ sq (G.dY * G.dY) = G.dY ∧ sq (G.dZ * G.dZ) = G.dZ) :
    w_max sq G = G.dia_xyz sq := by
  obtain ⟨hx, hy, hz⟩ := hG
  obtain ⟨sx, sy, sz⟩ := hsq
  have xx := mul_pos hx hx
  have yy := mul_pos hy hy
  have zz := mul_pos hz hz
  apply le_antisymm _ (spacing_le_w_max sq G).2.2.2
  have a1 : G.dX ≤ G.dia_xyz sq := by
    rw [← sx]; exact hmono _ _ xx.le (by linarith)
  have a2 : G.dY ≤ G.dia_xyz sq := by
    rw [← sy]; exact hmono _ _ yy.le (by linarith)
  have a3 : G.dZ ≤ G.dia_xyz sq := by
    rw [← sz]; exact hmono _ _ zz.le (by linarith)
  have a4 : G.dia_xy sq ≤ G.dia_xyz sq := hmono _ _ (by linarith) (by linarith)
  have a5 : G.dia_xz sq ≤ G.dia_xyz sq := hmono _ _ (by linarith) (by linarith)
  have a6 : G.dia_yz sq ≤ G.dia_xyz sq := hmono _ _ (by linarith) (by linarith)
  unfold w_max
  simp only [max_le_iff]
  exact ⟨a1, a2, a3, a4, a5, a6, le_rfl⟩

/-- The bounds hold on entry to the loop. -/
theorem init_cut (sq : α → α) (G : Grid α) (raw init : Nat → Int) (M : α) (hG : G.Pos)
    (hM : 0 ≤ M) :
    CutBound G (w_max sq G) M (init_flood G raw init, ([] : List α)) := by
  obtain ⟨wx, wy, wz, _⟩ := spacing_le_w_max sq G
  have hpos := dist_to_axes_pos G hG
  obtain ⟨hx, hy, hz⟩ := hG
  have hW : 0 < w_max sq G := lt_of_lt_of_le hx wx
  have hhalf : G.dist_to_axes ≤ w_max sq G := by
    unfold Grid.dist_to_axes
    linarith
  refine ⟨?_, ?_, ?_, ?_⟩
  · intro v hv
    show (init_flood G raw init).flood_step v ≤ 1
    rw [init_flood_step G raw init v hv]
    split <;> omega
  · intro v hv _
    show (init_flood G raw init).flood_dist v ≤ 0 + w_max sq G
    rw [init_flood_dist G raw init v hv]
    split <;> linarith
  · intro v hv
    show (init_flood G raw init).flood_dist v < M + 2 * w_max sq G
    rw [init_flood_dist G raw init v hv]
    split <;> linarith
  · intro d hd
    simp at hd

theorem iterate_cut (sq : α → α) (G : Grid α) (dom raw init : Nat → Int) (M : α) (hG : G.Pos)
    (hM : 0 ≤ M) (k : Nat)
    (hent : ∀ j, j < k → continues (some M)
      ((sweep sq G dom (voi_id dom G.nr_voxels))^[j] (init_flood G raw init)) = true) :
    CutBound G (w_max sq G) M
      ((sweep_log sq G dom (voi_id dom G.nr_voxels))^[k]
        (init_flood G raw init, ([] : List α))) := by
  induction k with
  | zero => exact init_cut sq G raw init M hG hM
  | succ k ih =>
    rw [Function.iterate_succ_apply']
    apply sweep_log_cut sq G _ M dom (fun e he => (nbr_weight_bounds sq G e he).2) _
      (ih (fun j hj => hent j (by omega)))
    rw [iterate_log_fst]
    have hc := hent k (by omega)
    unfold continues below_cutoff at hc
    simp only [Bool.and_eq_true, decide_eq_true_eq] at hc
    exact hc.2

/-- C28: with positive spacings and a cutoff `max_dist >= 0` the loop ends,
every distance of the final field is strictly below `max_dist + 2 W`, and
every voxel expanded in a sweep of the run held a distance strictly below
`max_dist + W` when it was expanded; `W` is the largest of the neighbour
weights, which is the long diagonal `sqrt(dX^2 + dY^2 + dZ^2)` when `sqrt` is
monotone and returns a spacing for the square of the spacing. -/
theorem cutoff_overshoot (sq : α → α) (G : Grid α) (dom raw : Nat → Int)
    (mode_init_val : Option Int) (max_dist : α) (hG : G.Pos) (hsq : SqrtPos sq)
    (hM : 0 ≤ max_dist) :
    (∃ K r, (∀ fuel, count_voi dom G.nr_voxels + 1 ≤ fuel →
          geodistance sq G dom raw mode_init_val (some max_dist) fuel = some r) ∧
        r = ((sweep_log sq G dom (voi_id dom G.nr_voxels))^[K]
          (init_flood G raw (label_init mode_init_val raw G.nr_voxels).1, ([] : List α))).1 ∧
        (∀ v, v < G.nr_voxels → r.flood_dist v < max_dist + 2 * w_max sq G) ∧
        (∀ d ∈ ((sweep_log sq G dom (voi_id dom G.nr_voxels))^[K]
          (init_flood G raw (label_init mode_init_val raw G.nr_voxels).1, ([] : List α))).2,
          d < max_dist + w_max sq G)) ∧
    ((∀ x y, 0 ≤ x → x ≤ y → sq x ≤ sq y) →
      (sq (G.dX * G.dX) = G.dX ∧ sq (G.dY * G.dY) = G.dY ∧ sq (G.dZ * G.dZ) = G.dZ) →
      w_max sq G = G.dia_xyz sq) := by
  refine ⟨?_, fun hmono hs => w_max_eq_dia sq G hG hmono hs⟩
  obtain ⟨_, r, _, _, _, hrun⟩ :=
    geodistance_total sq G dom raw mode_init_val (some max_dist) hG hsq
  obtain ⟨K, e, _, hent⟩ := flood_loop_entered sq G dom _ (some max_dist) _ _ r
    (hrun _ le_rfl)
  have hB := iterate_cut sq G dom raw (label_init mode_init_val raw G.nr_voxels).1 max_dist
    hG hM K hent
  have e2 := iterate_log_fst sq G dom (voi_id dom G.nr_voxels) K
    (init_flood G raw (label_init mode_init_val raw G.nr_voxels).1, ([] : List α))
  refine ⟨K, r, hrun, e.trans e2.symm, ?_, hB.logged⟩
  intro v hv
  have := hB.all v hv
  rw [e2, ← e] at this
  exact this

end OvershootClaim

theorem cutoff_overshoot_witness :
    ∃ K, ∃ r : Flood ℚ, (∀ fuel,
          count_voi (fun _ => 1) (⟨5, 1, 1, 1, 1, 1⟩ : Grid ℚ).nr_voxels + 1 ≤ fuel →
          geodistance (fun x : ℚ => (x + 1) / 2) ⟨5, 1, 1, 1, 1, 1⟩ (fun _ => 1)
            (fun k => if k = 0 then 1 else 0) none (some 3) fuel = some r) ∧
        r = ((sweep_log (fun x : ℚ => (x + 1) / 2) ⟨5, 1, 1, 1, 1, 1⟩ (fun _ => 1)
            (voi_id (fun _ => 1) (⟨5, 1, 1, 1, 1, 1⟩ : Grid ℚ).nr_voxels))^[K]
          (init_flood ⟨5, 1, 1, 1, 1, 1⟩ (fun k => if k = 0 then 1 else 0)
            (label_init none (fun k => if k = 0 then 1 else 0)
              (⟨5, 1, 1, 1, 1, 1⟩ : Grid ℚ).nr_voxels).1, ([] : List ℚ))).1 ∧
        (∀ v, v < (⟨5, 1, 1, 1, 1, 1⟩ : Grid ℚ).nr_voxels →
          r.flood_dist v < 3 + 2 * w_max (fun x : ℚ => (x + 1) / 2) ⟨5, 1, 1, 1, 1, 1⟩) ∧
        (∀ d ∈ ((sweep_log (fun x : ℚ => (x + 1) / 2) ⟨5, 1, 1, 1, 1, 1⟩ (fun _ => 1)
            (voi_id (fun _ => 1) (⟨5, 1, 1, 1, 1, 1⟩ : Grid ℚ).nr_voxels))^[K]
          (init_flood ⟨5, 1, 1, 1, 1, 1⟩ (fun k => if k = 0 then 1 else 0)
            (label_init none (fun k => if k = 0 then 1 else 0)
              (⟨5, 1, 1, 1, 1, 1⟩ : Grid ℚ).nr_voxels).1, ([] : List ℚ))).2,
          d < 3 + w_max (fun x : ℚ => (x + 1) / 2) ⟨5, 1, 1, 1, 1, 1⟩) :=
  (cutoff_overshoot (fun x : ℚ => (x + 1) / 2) ⟨5, 1, 1, 1, 1, 1⟩ (fun _ => 1)
    (fun k => if k = 0 then 1 else 0) none 3 ⟨by norm_num, by norm_num, by norm_num⟩
    (fun x hx => by positivity) (by norm_num)).1

/-! ## Init values outside the domain -/

section InitOutside

variable {α : Type} [LinearOrderedField α]

theorem relax_domeq (G : Grid α) (dom : Nat → Int) (i j : Nat) (w : α) (s t : Flood α)
    (h : DomEq G dom s t) (hi : i < G.nr_voxels) (hdi : dom i > 0) (hj : j < G.nr_voxels) :
    DomEq G dom (relax dom i j w s) (relax dom i j w t) := by
  obtain ⟨hg, hc, hm, hv⟩ := h
  by_cases hd : dom j > 0
  · obtain ⟨di, _⟩ := hv i hi hdi
    obtain ⟨dj, _⟩ := hv j hj hd
    by_cases ha : s.flood_dist i + w < s.flood_dist j ∨ s.flood_dist j = 0
    · have hb : t.flood_dist i + w < t.flood_dist j ∨ t.flood_dist j = 0 := by
        rw [← di, ← dj]; exact ha
      rw [relax_of_accept dom i j w s hd ha, relax_of_accept dom i j w t hd hb]
      refine ⟨hg, hc, hm, fun v hv1 hv2 => ?_⟩
      show Function.update s.flood_dist j (s.flood_dist i + w) v
          = Function.update t.flood_dist j (t.flood_dist i + w) v ∧
        Function.update s.flood_step j (s.grow_step + 1) v
          = Function.update t.flood_step j (t.grow_step + 1) v
      by_cases e : v = j
      · rw [e, Function.update_same, Function.update_same, Function.update_same,
          Function.update_same, di, hg]
        exact ⟨rfl, rfl⟩
      · rw [Function.update_noteq e, Function.update_noteq e, Function.update_noteq e,
          Function.update_noteq e]
        exact hv v hv1 hv2
    · have hb : ¬ (t.flood_dist i + w < t.flood_dist j ∨ t.flood_dist j = 0) := by
        rw [← di, ← dj]; exact ha
      rw [relax_of_reject dom i j w s ha, relax_of_reject dom i j w t hb]
      exact ⟨hg, hc, hm, hv⟩
  · rw [relax_of_outside dom i j w s hd, relax_of_outside dom i j w t hd]
    exact ⟨hg, hc, hm, hv⟩

theorem blocks_domeq (sq : α → α) (G : Grid α) (dom : Nat → Int) (i : Nat)
    (hi : i < G.nr_voxels) (hdi : dom i > 0) (l : List (Nbr α))
    (hl : ∀ e ∈ l, e ∈ nbr_table sq G) :
    ∀ s t : Flood α, DomEq G dom s t →
      DomEq G dom (l.foldl (relax_nbr G dom i) s) (l.foldl (relax_nbr G dom i) t) := by
  induction l with
  | nil => intro s t h; exact h
  | cons e l ih =>
    intro s t h
    have he : e ∈ nbr_table sq G := hl e (List.mem_cons_self _ _)
    rw [List.foldl_cons, List.foldl_cons]
    apply ih (fun x hx => hl x (List.mem_cons_of_mem _ hx))
    unfold relax_nbr
    by_cases hg : nbr_guard G i e
    · rw [if_pos hg, if_pos hg]
      exact relax_domeq G dom i _ e.w s t h hi hdi (nbr_coord sq G i hi e he hg).1
    · rw [if_neg hg, if_neg hg]
      exact h

theorem expand_domeq (sq : α → α) (G : Grid α) (dom : Nat → Int) (i : Nat)
    (hi : i < G.nr_voxels) (hdi : dom i > 0) (s t : Flood α) (h : DomEq G dom s t) :
    DomEq G dom (expand sq G dom i s) (expand sq G dom i t) := by
  rw [expand_eq_table, expand_eq_table]
  unfold expand_table
  have h1 : DomEq G dom { s with voxel_counter := s.voxel_counter + 1 }
      { t with voxel_counter := t.voxel_counter + 1 } := by
    obtain ⟨hg, hc, hm, hv⟩ := h
    exact ⟨hg, by show s.voxel_counter + 1 = t.voxel_counter + 1; rw [hc], hm, hv⟩
  obtain ⟨hg, hc, hm, hv⟩ := blocks_domeq sq G dom i hi hdi (nbr_table sq G) (fun _ hx => hx)
    _ _ h1
  obtain ⟨di, _⟩ := hv i hi hdi
  unfold update_max
  rw [di, hm]
  split
  · exact ⟨hg, hc, rfl, hv⟩
  · exact ⟨hg, hc, hm, hv⟩

theorem visits_domeq (sq : α → α) (G : Grid α) (dom : Nat → Int) (l : List Nat)
    (hl : ∀ i ∈ l, i ∈ voi_id dom G.nr_voxels) :
    ∀ s t : Flood α, DomEq G dom s t →
      DomEq G dom (l.foldl (visit sq G dom) s) (l.foldl (visit sq G dom) t) := by
  induction l with
  | nil => intro s t h; exact h
  | cons i l ih =>
    intro s t h
    obtain ⟨hi, hdi⟩ := (mem_voi_id dom G.nr_voxels i).mp (hl i (List.mem_cons_self _ _))
    rw [List.foldl_cons, List.foldl_cons]
    apply ih (fun x hx => hl x (List.mem_cons_of_mem _ hx))
    unfold visit
    obtain ⟨_, si⟩ := h.2.2.2 i hi hdi
    rw [si, h.1]
    split
    · exact expand_domeq sq G dom i hi hdi s t h
    · exact h

theorem sweep_domeq (sq : α → α) (G : Grid α) (dom : Nat → Int) (s t : Flood α)
    (h : DomEq G dom s t) :
    DomEq G dom (sweep sq G dom (voi_id dom G.nr_voxels) s)
      (sweep sq G dom (voi_id dom G.nr_voxels) t) := by
  have h1 : DomEq G dom { s with voxel_counter := 0 } { t with voxel_counter := 0 } :=
    ⟨h.1, rfl, h.2.2.1, h.2.2.2⟩
  obtain ⟨hg, hc, hm, hv⟩ := visits_domeq sq G dom (voi_id dom G.nr_voxels) (fun _ hx => hx)
    _ _ h1
  unfold sweep
  exact ⟨by
    show ((voi_id dom G.nr_voxels).foldl (visit sq G dom) { s with voxel_counter := 0 }).grow_step
      + 1 = ((voi_id dom G.nr_voxels).foldl (visit sq G dom)
        { t with voxel_counter := 0 }).grow_step + 1
    rw [hg], hc, hm, hv⟩

theorem iterate_domeq (sq : α → α) (G : Grid α) (dom : Nat → Int) (k : Nat) :
    ∀ s t : Flood α, DomEq G dom s t →
      DomEq G dom ((sweep sq G dom (voi_id dom G.nr_voxels))^[k] s)
        ((sweep sq G dom (voi_id dom G.nr_voxels))^[k] t) := by
  induction k with
  | zero => intro s t h; exact h
  | succ k ih =>
    intro s t h
    rw [Function.iterate_succ_apply, Function.iterate_succ_apply]
    exact ih _ _ (sweep_domeq sq G dom s t h)

theorem continues_domeq (G : Grid α) (dom : Nat → Int) (max_dist : Option α) (s t : Flood α)
    (h : DomEq G dom s t) : continues max_dist s = continues max_dist t := by
  unfold continues
  rw [h.2.1, h.2.2.1]

theorem flood_loop_domeq (sq : α → α) (G : Grid α) (dom : Nat → Int) (max_dist : Option α)
    (fuel : Nat) :
    ∀ s t r : Flood α, DomEq G dom s t →
      flood_loop sq G dom (voi_id dom G.nr_voxels) max_dist fuel s = some r →
      ∃ r2, flood_loop sq G dom (voi_id dom G.nr_voxels) max_dist fuel t = some r2 ∧
        DomEq G dom r r2 := by
  induction fuel with
  | zero =>
    intro s t r h hr
    unfold flood_loop at hr ⊢
    rw [← continues_domeq G dom max_dist s t h]
    split at hr
    · exact absurd hr (by simp)
    · next hc =>
      have : s = r := by simpa using hr
      subst this
      rw [if_neg hc]
      exact ⟨t, rfl, h⟩
  | succ fuel ih =>
    intro s t r h hr
    unfold flood_loop at hr ⊢
    rw [← continues_domeq G dom max_dist s t h]
    split at hr
    · next hc =>
      rw [if_pos hc]
      exact ih _ _ r (sweep_domeq sq G dom s t h) hr
    · next hc =>
      have : s = r := by simpa using hr
      subst this
      rw [if_neg hc]
      exact ⟨t, rfl, h⟩

theorem init_domeq (G : Grid α) (dom raw raw2 init init2 : Nat → Int)
    (h : ∀ v, v < G.nr_voxels → dom v > 0 → (init v ≠ 0 ↔ init2 v ≠ 0)) :
    DomEq G dom (init_flood G raw init : Flood α) (init_flood G raw2 init2) := by
  refine ⟨rfl, rfl, rfl, fun v hv hd => ?_⟩
  rw [init_flood_dist G raw init v hv, init_flood_dist G raw2 init2 v hv,
    init_flood_step G raw init v hv, init_flood_step G raw2 init2 v hv]
  by_cases e : init v ≠ 0
  · rw [if_pos e, if_pos ((h v hv hd).mp e), if_pos e, if_pos ((h v hv hd).mp e)]
    exact ⟨rfl, rfl⟩
  · rw [if_neg e, if_neg (fun e2 => e ((h v hv hd).mpr e2)), if_neg e,
      if_neg (fun e2 => e ((h v hv hd).mpr e2))]
    exact ⟨rfl, rfl⟩

/-- No step of the run changes a voxel outside the domain. -/
theorem run_outside (sq : α → α) (G : Grid α) (dom : Nat → Int) (s0 t : Flood α)
    (h : Run sq G dom s0 t) (v : Nat) (hv : dom v ≤ 0) :
    t.flood_dist v = s0.flood_dist v ∧ t.flood_step v = s0.flood_step v := by
  induction h with
  | start => exact ⟨rfl, rfl⟩
  | relax s i e _ _ _ _ _ _ ih =>
    obtain ⟨a, b⟩ := relax_outside_frame dom i (nbr_index G i e) e.w s v hv
    exact ⟨a.trans ih.1, b.trans ih.2⟩
  | counter s c _ ih => exact ih
  | tmax s t _ ih => exact ih
  | grow s _ ih => exact ih

end InitOutside
section InitOutsideClaim

variable {α : Type} [LinearOrderedField α]

/-- C29: when two init volumes (each with its own `-init_val` mode) give the
same seed status to every in-domain voxel of the grid, then after any number
of sweeps the two runs agree on the sweep counter, the counter of expanded
voxels, the running maximum and hence the loop condition, and on the
distance and generation of every in-domain voxel; when one run ends within
some number of sweeps so does the other, with the same sweep counter and the
same distance and generation at every in-domain voxel (with positive
spacings both runs do end).  No step of a run changes the distance or the
generation of a voxel outside the domain. -/
theorem init_outside_irrelevant (sq : α → α) (G : Grid α) (dom raw raw2 : Nat → Int)
    (mode_init_val mode_init_val2 : Option Int) (max_dist : Option α)
    (hseed : ∀ v, v < G.nr_voxels → dom v > 0 →
      (((mode_init_val = none ∧ raw v ≠ 0) ∨ (∃ L, mode_init_val = some L ∧ raw v = L)) ↔
        ((mode_init_val2 = none ∧ raw2 v ≠ 0) ∨
          (∃ L, mode_init_val2 = some L ∧ raw2 v = L)))) :
    (∀ k, DomEq G dom
        ((sweep sq G dom (voi_id dom G.nr_voxels))^[k]
          (init_flood G raw (label_init mode_init_val raw G.nr_voxels).1))
        ((sweep sq G dom (voi_id dom G.nr_voxels))^[k]
          (init_flood G raw2 (label_init mode_init_val2 raw2 G.nr_voxels).1)) ∧
      continues max_dist ((sweep sq G dom (voi_id dom G.nr_voxels))^[k]
          (init_flood G raw (label_init mode_init_val raw G.nr_voxels).1))
        = continues max_dist ((sweep sq G dom (voi_id dom G.nr_voxels))^[k]
          (init_flood G raw2 (label_init mode_init_val2 raw2 G.nr_voxels).1))) ∧
    (∀ fuel r, geodistance sq G dom raw mode_init_val max_dist fuel = some r →
      ∃ r2, geodistance sq G dom raw2 mode_init_val2 max_dist fuel = some r2 ∧
        r.grow_step = r2.grow_step ∧
        ∀ v, v < G.nr_voxels → dom v > 0 →
          r.flood_dist v = r2.flood_dist v ∧ r.flood_step v = r2.flood_step v) ∧
    (∀ fuel, (geodistance sq G dom raw mode_init_val max_dist fuel).isSome
      = (geodistance sq G dom raw2 mode_init_val2 max_dist fuel).isSome) ∧
    (G.Pos → SqrtPos sq →
      ∃ r r2, (∀ fuel, count_voi dom G.nr_voxels + 1 ≤ fuel →
          geodistance sq G dom raw mode_init_val max_dist fuel = some r ∧
          geodistance sq G dom raw2 mode_init_val2 max_dist fuel = some r2) ∧
        r.grow_step = r2.grow_step ∧
        ∀ v, v < G.nr_voxels → dom v > 0 →
          r.flood_dist v = r2.flood_dist v ∧ r.flood_step v = r2.flood_step v) ∧
    (∀ t, Run sq G dom (init_flood G raw (label_init mode_init_val raw G.nr_voxels).1) t →
      ∀ v, dom v ≤ 0 →
        t.flood_dist v
          = (init_flood G raw (label_init mode_init_val raw G.nr_voxels).1).flood_dist v ∧
        t.flood_step v
          = (init_flood G raw (label_init mode_init_val raw G.nr_voxels).1).flood_step v) := by
  have h0 : DomEq G dom
      (init_flood G raw (label_init mode_init_val raw G.nr_voxels).1 : Flood α)
      (init_flood G raw2 (label_init mode_init_val2 raw2 G.nr_voxels).1) := by
    apply init_domeq
    intro v hv hd
    rw [label_init_ne_zero_iff mode_init_val raw G.nr_voxels v hv,
      label_init_ne_zero_iff mode_init_val2 raw2 G.nr_voxels v hv]
    exact hseed v hv hd
  have h0s : DomEq G dom
      (init_flood G raw2 (label_init mode_init_val2 raw2 G.nr_voxels).1 : Flood α)
      (init_flood G raw (label_init mode_init_val raw G.nr_voxels).1) :=
    ⟨h0.1.symm, h0.2.1.symm, h0.2.2.1.symm,
      fun v hv hd => ⟨(h0.2.2.2 v hv hd).1.symm, (h0.2.2.2 v hv hd).2.symm⟩⟩
  have hfinal : ∀ fuel r, geodistance sq G dom raw mode_init_val max_dist fuel = some r →
      ∃ r2, geodistance sq G dom raw2 mode_init_val2 max_dist fuel = some r2 ∧
        r.grow_step = r2.grow_step ∧
        ∀ v, v < G.nr_voxels → dom v > 0 →
          r.flood_dist v = r2.flood_dist v ∧ r.flood_step v = r2.flood_step v := by
    intro fuel r hr
    obtain ⟨r2, e, hE⟩ := flood_loop_domeq sq G dom max_dist fuel _ _ r h0 hr
    exact ⟨r2, e, hE.1, hE.2.2.2⟩
  refine ⟨fun k => ?_, hfinal, fun fuel => ?_, fun hG hsq => ?_,
    fun t ht v hv => run_outside sq G dom _ t ht v hv⟩
  · have hk := iterate_domeq sq G dom k _ _ h0
    exact ⟨hk, continues_domeq G dom max_dist _ _ hk⟩
  · cases e1 : geodistance sq G dom raw mode_init_val max_dist fuel with
    | none =>
      cases e2 : geodistance sq G dom raw2 mode_init_val2 max_dist fuel with
      | none => rfl
      | some r2 =>
        obtain ⟨r, e, _⟩ := flood_loop_domeq sq G dom max_dist fuel _ _ r2 h0s e2
        have e3 : geodistance sq G dom raw mode_init_val max_dist fuel = some r := e
        rw [e1] at e3
        exact absurd e3 (by simp)
    | some r =>
      obtain ⟨r2, e, _⟩ := hfinal fuel r e1
      rw [e]
      rfl
  · obtain ⟨_, r, _, _, _, hrun⟩ :=
      geodistance_total sq G dom raw mode_init_val max_dist hG hsq
    obtain ⟨r2, e, hg, hv⟩ := hfinal _ r (hrun _ le_rfl)
    refine ⟨r, r2, fun fuel hf => ⟨hrun fuel hf, ?_⟩, hg, hv⟩
    exact flood_loop_mono_le sq G dom _ max_dist _ r2 _ fuel hf e

end InitOutsideClaim

theorem init_outside_irrelevant_witness :
    DomEq (⟨3, 1, 1, 1, 2, 3⟩ : Grid ℚ) (fun k => if k = 2 then 0 else 1)
      ((sweep (fun x : ℚ => (x + 1) / 2) ⟨3, 1, 1, 1, 2, 3⟩ (fun k => if k = 2 then 0 else 1)
          (voi_id (fun k => if k = 2 then 0 else 1) (⟨3, 1, 1, 1, 2, 3⟩ : Grid ℚ).nr_voxels))^[2]
        (init_flood ⟨3, 1, 1, 1, 2, 3⟩ (fun k => if k = 0 then 1 else 0)
          (label_init none (fun k => if k = 0 then 1 else 0)
            (⟨3, 1, 1, 1, 2, 3⟩ : Grid ℚ).nr_voxels).1))
      ((sweep (fun x : ℚ => (x + 1) / 2) ⟨3, 1, 1, 1, 2, 3⟩ (fun k => if k = 2 then 0 else 1)
          (voi_id (fun k => if k = 2 then 0 else 1) (⟨3, 1, 1, 1, 2, 3⟩ : Grid ℚ).nr_voxels))^[2]
        (init_flood ⟨3, 1, 1, 1, 2, 3⟩ (fun k => if k = 1 then 0 else 7)
          (label_init none (fun k => if k = 1 then 0 else 7)
            (⟨3, 1, 1, 1, 2, 3⟩ : Grid ℚ).nr_voxels).1)) :=
  ((init_outside_irrelevant (fun x : ℚ => (x + 1) / 2) ⟨3, 1, 1, 1, 2, 3⟩
    (fun k => if k = 2 then 0 else 1) (fun k => if k = 0 then 1 else 0)
    (fun k => if k = 1 then 0 else 7) none none none
    (by
      intro v hv hd
      have hv3 : v < 3 := hv
      interval_cases v
      · simp
      · simp
      · simp at hd)).1 2).1

/-! ## Distance and generation -/

section Coupling

variable {α : Type} [LinearOrderedField α]

/-- In every state of the run a voxel of the grid has generation 0 exactly
when its distance is 0. -/
theorem run_coupled (sq : α → α) (G : Grid α) (dom raw init : Nat → Int) (hG : G.Pos)
    (hsq : SqrtPos sq) (t : Flood α) (h : Run sq G dom (init_flood G raw init) t) :
    ∀ v, v < G.nr_voxels → (t.flood_step v = 0 ↔ t.flood_dist v = 0) := by
  induction h with
  | start =>
    intro v hv
    rw [init_flood_dist G raw init v hv, init_flood_step G raw init v hv]
    have hpos := dist_to_axes_pos G hG
    by_cases e : init v ≠ 0
    · rw [if_pos e, if_pos e]
      constructor
      · intro h1; omega
      · intro h1; linarith
    · rw [if_neg e, if_neg e]
      exact ⟨fun _ => rfl, fun _ => rfl⟩
  | relax s i e hr hi hdi hs he hg ih =>
    intro v hv
    have hI := run_inv sq G dom raw init hG hsq s hr
    obtain ⟨_, h1⟩ := hI.active_pos hG hsq i hi hs
    have hw : 0 < e.w :=
      lt_of_lt_of_le (w_min_pos sq G hG hsq) (nbr_weight_bounds sq G e he).1
    have hgp := hI.grow_pos
    by_cases hd : dom (nbr_index G i e) > 0
    · by_cases ha : s.flood_dist i + e.w < s.flood_dist (nbr_index G i e) ∨
          s.flood_dist (nbr_index G i e) = 0
      · rw [relax_of_accept dom i _ e.w s hd ha]
        show Function.update s.flood_step (nbr_index G i e) (s.grow_step + 1) v = 0 ↔
          Function.update s.flood_dist (nbr_index G i e) (s.flood_dist i + e.w) v = 0
        by_cases ev : v = nbr_index G i e
        · rw [ev, Function.update_same, Function.update_same]
          constructor
          · intro h2; omega
          · intro h2; linarith
        · rw [Function.update_noteq ev, Function.update_noteq ev]
          exact ih v hv
      · rw [relax_of_reject dom i _ e.w s ha]; exact ih v hv
    · rw [relax_of_outside dom i _ e.w s hd]; exact ih v hv
  | counter s c _ ih => exact ih
  | tmax s t _ ih => exact ih
  | grow s _ ih => exact ih

end Coupling

section AnyOrder

variable {α : Type} [LinearOrderedField α]

/-- One sweep in any order keeps what holds between two sweeps. -/
theorem sweep_binv_any (sq : α → α) (G : Grid α) (dom init : Nat → Int) (hG : G.Pos)
    (hsq : SqrtPos sq) (voi : List Nat) (hvoi : ∀ i, i ∈ voi ↔ i ∈ voi_id dom G.nr_voxels)
    (s : Flood α) (h : BInv sq G dom init s) :
    BInv sq G dom init (sweep sq G dom voi s) := by
  obtain ⟨tI, tS, tg⟩ := mid_sweep sq G dom init hG hsq s h voi (fun i hi => (hvoi i).mp hi)
  obtain ⟨c1, c2⟩ := foldl_visit_counter sq G dom voi { s with voxel_counter := 0 }
  unfold sweep
  constructor
  · exact tI.next
  · intro u hu hdu hne hprem
    have hmem : u ∈ voi := (hvoi u).mpr ((mem_voi_id dom G.nr_voxels u).mpr ⟨hu, hdu⟩)
    apply tS u hu hdu hne
    rcases hprem with h1 | ⟨_, h2⟩
    · have h1' : (voi.foldl (visit sq G dom) { s with voxel_counter := 0 }).flood_step u
          < (voi.foldl (visit sq G dom) { s with voxel_counter := 0 }).grow_step + 1 := h1
      rcases lt_or_ge ((voi.foldl (visit sq G dom) { s with voxel_counter := 0 }).flood_step u)
          ((voi.foldl (visit sq G dom) { s with voxel_counter := 0 }).grow_step) with h3 | h3
      · exact Or.inl h3
      · exact Or.inr ⟨by omega, hmem⟩
    · exact h2.elim
  · intro v hv
    exact tI.step_le v hv
  · intro hc v hv hdv
    have hc' : (voi.foldl (visit sq G dom) { s with voxel_counter := 0 }).voxel_counter = 0 := hc
    obtain ⟨d1, d2⟩ := c2 hc'
    have hmem : v ∈ voi := (hvoi v).mpr ((mem_voi_id dom G.nr_voxels v).mpr ⟨hv, hdv⟩)
    have h1 := d2 v hmem
    have h2 := h.step_le v hv
    show (voi.foldl (visit sq G dom) { s with voxel_counter := 0 }).flood_step v
      < (voi.foldl (visit sq G dom) { s with voxel_counter := 0 }).grow_step + 1
    rw [d1]
    show s.flood_step v < s.grow_step + 1
    omega

theorem iterate_binv_any (sq : α → α) (G : Grid α) (dom init : Nat → Int) (hG : G.Pos)
    (hsq : SqrtPos sq) (voi : List Nat) (hvoi : ∀ i, i ∈ voi ↔ i ∈ voi_id dom G.nr_voxels)
    (s : Flood α) (h : BInv sq G dom init s) (k : Nat) :
    BInv sq G dom init ((sweep sq G dom voi)^[k] s) := by
  induction k with
  | zero => exact h
  | succ k ih =>
    rw [Function.iterate_succ_apply']
    exact sweep_binv_any sq G dom init hG hsq voi hvoi _ ih

/-- A sweep in any order leads from a state of the run to a state of the
run. -/
theorem run_sweep_any (sq : α → α) (G : Grid α) (dom : Nat → Int) (voi : List Nat)
    (hvoi : ∀ i, i ∈ voi ↔ i ∈ voi_id dom G.nr_voxels) (s0 s : Flood α)
    (hr : Run sq G dom s0 s) : Run sq G dom s0 (sweep sq G dom voi s) := by
  unfold sweep
  exact Run.grow _ (run_visits sq G dom s0 voi (fun i hi => (hvoi i).mp hi) _
    (Run.counter s 0 hr))

theorem sweep_overdue_any (sq : α → α) (G : Grid α) (dom raw init : Nat → Int) (hG : G.Pos)
    (hsq : SqrtPos sq) (voi : List Nat) (hvoi : ∀ i, i ∈ voi ↔ i ∈ voi_id dom G.nr_voxels)
    (s : Flood α) (h : Run sq G dom (init_flood G raw init) s)
    (hg : ((count_voi dom G.nr_voxels : Nat) : Int) < s.grow_step) :
    (sweep sq G dom voi s).voxel_counter = 0 := by
  rw [sweep_idle sq G dom _ s]
  intro i hi
  obtain ⟨hi1, hi2⟩ := (mem_voi_id dom G.nr_voxels i).mp ((hvoi i).mp hi)
  have := run_step_le sq G dom raw init hG hsq s h i hi1 hi2
  omega

/-- In any order the loop is left after at most `nr_voi + 1` sweeps. -/
theorem flood_loop_bounded_any (sq : α → α) (G : Grid α) (dom raw init : Nat → Int)
    (hG : G.Pos) (hsq : SqrtPos sq) (voi : List Nat)
    (hvoi : ∀ i, i ∈ voi ↔ i ∈ voi_id dom G.nr_voxels) (max_dist : Option α) (fuel : Nat) :
    ∀ s : Flood α, Run sq G dom (init_flood G raw init) s →
      (s.voxel_counter ≠ 0 → s.grow_step ≤ ((count_voi dom G.nr_voxels : Nat) : Int) + 1) →
      ((count_voi dom G.nr_voxels : Nat) : Int) + 2 ≤ s.grow_step + (fuel : Int) →
      ∃ r, flood_loop sq G dom voi max_dist fuel s = some r := by
  induction fuel with
  | zero =>
    intro s _ hq hf
    have hc : s.voxel_counter = 0 := by
      by_contra hne
      have := hq hne
      simp only [Nat.cast_zero, add_zero] at hf
      omega
    exact ⟨s, by unfold flood_loop; simp [continues, hc]⟩
  | succ fuel ih =>
    intro s hr hq hf
    rw [flood_loop]
    split
    · next hc =>
      have hne : s.voxel_counter ≠ 0 := by
        simp only [continues, Bool.and_eq_true, decide_eq_true_eq] at hc
        exact hc.1
      have hg := hq hne
      apply ih _ (run_sweep_any sq G dom voi hvoi _ s hr)
      · intro hcnt
        rw [sweep_grow_step]
        by_contra hlt
        exact hcnt (sweep_overdue_any sq G dom raw init hG hsq voi hvoi s hr (by omega))
      · rw [sweep_grow_step]
        push_cast at hf ⊢
        omega
    · exact ⟨s, rfl⟩

/-- The run in any order, without cutoff: it ends, and in the state it ends
with no voxel is pending and the invariant between sweeps holds. -/
theorem converges_any (sq : α → α) (G : Grid α) (dom raw init : Nat → Int) (hG : G.Pos)
    (hsq : SqrtPos sq) (voi : List Nat) (hvoi : ∀ i, i ∈ voi ↔ i ∈ voi_id dom G.nr_voxels) :
    ∃ r, (∀ fuel, count_voi dom G.nr_voxels + 1 ≤ fuel →
        flood_loop sq G dom voi none fuel (init_flood G raw init) = some r) ∧
      r.voxel_counter = 0 ∧ BInv sq G dom init r ∧
      ∀ v, dom v ≤ 0 → r.flood_dist v = (init_flood G raw init : Flood α).flood_dist v := by
  have hg : (init_flood G raw init : Flood α).grow_step = 1 := rfl
  obtain ⟨r, hr⟩ := flood_loop_bounded_any sq G dom raw init hG hsq voi hvoi none
    (count_voi dom G.nr_voxels + 1) (init_flood G raw init) Run.start
    (by intro _; rw [hg]; omega) (by rw [hg]; push_cast; omega)
  obtain ⟨k, _, e, hc⟩ := flood_loop_some sq G dom voi none _ _ r hr
  refine ⟨r, fun fuel hf => flood_loop_mono_le sq G dom voi none _ r _ fuel hf hr, ?_, ?_, ?_⟩
  · rcases (continues_false_iff none r).mp hc with h | ⟨m, h, _⟩
    · exact h
    · exact absurd h (by simp)
  · rw [e]
    exact iterate_binv_any sq G dom init hG hsq voi hvoi _
      (init_binv sq G dom raw init hG hsq) k
  · intro v hv
    rw [e]
    exact (iterate_outside_frame sq G dom voi _ v hv k).1

/-- Two converged states of the same input hold the same distances in the
domain. -/
theorem converged_unique (sq : α → α) (G : Grid α) (dom init : Nat → Int) (hG : G.Pos)
    (r r2 : Flood α) (h : BInv sq G dom init r) (h2 : BInv sq G dom init r2)
    (hc : r.voxel_counter = 0) (hc2 : r2.voxel_counter = 0) (v : Nat) (hv : v < G.nr_voxels)
    (hdv : dom v > 0) : r2.flood_dist v = r.flood_dist v := by
  obtain ⟨a1, b1⟩ := converged_least sq G dom init hG r h hc v hv hdv
  obtain ⟨a2, b2⟩ := converged_least sq G dom init hG r2 h2 hc2 v hv hdv
  by_cases hex : ∃ l, Reach sq G dom init v l
  · have e := (a2 hex).unique (a1 hex)
    linarith
  · rw [b1.mpr hex, b2.mpr hex]

end AnyOrder
section AnyOrderClaim

variable {α : Type} [LinearOrderedField α]

/-- C31: with positive spacings and no cutoff, the loop run over the index
set in ascending order and the loop run over any permutation `voi` of the
index set (the same in every sweep) both end with a last sweep that expands
no voxel, and the two final distance fields are equal at every voxel of the
grid. -/
theorem order_independence (sq : α → α) (G : Grid α) (dom raw : Nat → Int)
    (mode_init_val : Option Int) (hG : G.Pos) (hsq : SqrtPos sq) (voi : List Nat)
    (hperm : voi.Perm (voi_id dom G.nr_voxels)) :
    ∃ r r2, (∀ fuel, count_voi dom G.nr_voxels + 1 ≤ fuel →
        geodistance sq G dom raw mode_init_val none fuel = some r) ∧
      (∀ fuel, count_voi dom G.nr_voxels + 1 ≤ fuel →
        flood_loop sq G dom voi none fuel
          (init_flood G raw (label_init mode_init_val raw G.nr_voxels).1) = some r2) ∧
      r.voxel_counter = 0 ∧ r2.voxel_counter = 0 ∧
      ∀ v, v < G.nr_voxels → r2.flood_dist v = r.flood_dist v := by
  obtain ⟨r, hr, hc, hB, hout⟩ := converges_any sq G dom raw
    (label_init mode_init_val raw G.nr_voxels).1 hG hsq (voi_id dom G.nr_voxels)
    (fun _ => Iff.rfl)
  obtain ⟨r2, hr2, hc2, hB2, hout2⟩ := converges_any sq G dom raw
    (label_init mode_init_val raw G.nr_voxels).1 hG hsq voi (fun _ => hperm.mem_iff)
  refine ⟨r, r2, hr, hr2, hc, hc2, fun v hv => ?_⟩
  by_cases hd : dom v > 0
  · exact converged_unique sq G dom _ hG r r2 hB hB2 hc hc2 v hv hd
  · rw [hout v (not_lt.mp hd), hout2 v (not_lt.mp hd)]

end AnyOrderClaim

theorem order_independence_witness :
    ∃ r r2 : Flood ℚ, (∀ fuel,
        count_voi (fun _ => 1) (⟨3, 2, 1, 1, 2, 3⟩ : Grid ℚ).nr_voxels + 1 ≤ fuel →
        geodistance (fun x : ℚ => (x + 1) / 2) ⟨3, 2, 1, 1, 2, 3⟩ (fun _ => 1)
          (fun k => if k = 4 then 1 else 0) none none fuel = some r) ∧
      (∀ fuel, count_voi (fun _ => 1) (⟨3, 2, 1, 1, 2, 3⟩ : Grid ℚ).nr_voxels + 1 ≤ fuel →
        flood_loop (fun x : ℚ => (x + 1) / 2) ⟨3, 2, 1, 1, 2, 3⟩ (fun _ => 1)
          [5, 3, 1, 4, 2, 0] none fuel
          (init_flood ⟨3, 2, 1, 1, 2, 3⟩ (fun k => if k = 4 then 1 else 0)
            (label_init none (fun k => if k = 4 then 1 else 0)
              (⟨3, 2, 1, 1, 2, 3⟩ : Grid ℚ).nr_voxels).1) = some r2) ∧
      r.voxel_counter = 0 ∧ r2.voxel_counter = 0 ∧
      ∀ v, v < (⟨3, 2, 1, 1, 2, 3⟩ : Grid ℚ).nr_voxels → r2.flood_dist v = r.flood_dist v :=
  order_independence (fun x : ℚ => (x + 1) / 2) ⟨3, 2, 1, 1, 2, 3⟩ (fun _ => 1)
    (fun k => if k = 4 then 1 else 0) none ⟨by norm_num, by norm_num, by norm_num⟩
    (fun x hx => by positivity) [5, 3, 1, 4, 2, 0] (by decide)

/-! ## The diffusion weights of `LN3_NOLAD` -/

section DiffusionWeightFacts

variable {α : Type} [LinearOrderedField α]

theorem copysignf_one_cases (neg : Bool) (x : α) :
    (copysignf_one neg x = 1 ∧ 0 ≤ x) ∨ (copysignf_one neg x = -1 ∧ x ≤ 0) := by
  unfold copysignf_one
  split
  · rename_i h
    right
    rcases h with h | ⟨h, _⟩
    · exact ⟨rfl, h.le⟩
    · exact ⟨rfl, h.le⟩
  · rename_i h
    left
    refine ⟨rfl, ?_⟩
    by_contra hx
    exact h (Or.inl (not_le.mp hx))

theorem abs_copysignf_one (neg : Bool) (x : α) : |copysignf_one neg x| = 1 := by
  rcases copysignf_one_cases neg x with ⟨h, _⟩ | ⟨h, _⟩
  · rw [h, abs_one]
  · rw [h, abs_neg, abs_one]

/-- The three weights for a non-zero sum of the magnitudes. -/
theorem diffusion_weights_of_ne (neg1 neg2 neg3 : Bool) (e1 e2 e3 : α)
    (hS : |e1| + |e2| + |e3| ≠ 0) :
    diffusion_weights neg1 neg2 neg3 e1 e2 e3 =
      ((1 - |e1| / (|e1| + |e2| + |e3|)) / 2 * copysignf_one neg1 e1,
       (1 - |e2| / (|e1| + |e2| + |e3|)) / 2 * copysignf_one neg2 e2,
       (1 - |e3| / (|e1| + |e2| + |e3|)) / 2 * copysignf_one neg3 e3) := by
  have hsum : (1 - |e1| / (|e1| + |e2| + |e3|)) + (1 - |e2| / (|e1| + |e2| + |e3|))
      + (1 - |e3| / (|e1| + |e2| + |e3|)) = 2 := by
    field_simp
    ring
  unfold diffusion_weights
  simp only [if_neg hS, hsum]

theorem diffusion_weights_of_zero (neg1 neg2 neg3 : Bool) (e1 e2 e3 : α)
    (hS : |e1| + |e2| + |e3| = 0) :
    diffusion_weights neg1 neg2 neg3 e1 e2 e3 = (0, 0, 0) := by
  unfold diffusion_weights
  simp only [if_pos hS]

/-- The magnitude and the sign of one weight. -/
theorem weight_shape (neg : Bool) (e S : α) (hS : 0 < S) (he : |e| ≤ S) :
    |(1 - |e| / S) / 2 * copysignf_one neg e| = (1 - |e| / S) / 2 ∧
    0 ≤ (1 - |e| / S) / 2 ∧ (1 - |e| / S) / 2 ≤ 1 / 2 ∧
    ((1 - |e| / S) / 2 * copysignf_one neg e ≠ 0 →
      ((0 < (1 - |e| / S) / 2 * copysignf_one neg e ∧ copysignf_one neg e = 1 ∧ 0 ≤ e) ∨
       ((1 - |e| / S) / 2 * copysignf_one neg e < 0 ∧ copysignf_one neg e = -1 ∧ e ≤ 0))) := by
  have h1 : |e| / S ≤ 1 := (div_le_one hS).mpr he
  have h0 : 0 ≤ |e| / S := div_nonneg (abs_nonneg e) hS.le
  have hn : 0 ≤ (1 - |e| / S) / 2 := by linarith
  refine ⟨?_, hn, by linarith, ?_⟩
  · rw [abs_mul, abs_copysignf_one, mul_one, abs_of_nonneg hn]
  · intro hne
    have hpos : 0 < (1 - |e| / S) / 2 := by
      rcases hn.lt_or_eq with h | h
      · exact h
      · rw [← h, zero_mul] at hne
        exact absurd rfl hne
    rcases copysignf_one_cases neg e with ⟨h, hx⟩ | ⟨h, hx⟩
    · left
      rw [h, mul_one]
      exact ⟨hpos, rfl, hx⟩
    · right
      rw [h]
      exact ⟨by linarith, rfl, hx⟩

end DiffusionWeightFacts
section DiffusionWeightClaim

variable {α : Type} [LinearOrderedField α]

/-- C32: for the eigenvalues `e1, e2, e3` of a voxel and `S = |e1|+|e2|+|e3|`:
when `S = 0` the three weights are 0; otherwise `|wk| = (1 - |ek|/S)/2` and
`|w1| + |w2| + |w3| = 1`.  In both cases every `|wk|` lies in `[0, 1/2]`, a
larger `|ek|` gives a smaller or equal `|wk|`, and a non-zero `wk` has the
sign of `ek`: it is positive exactly when `copysignf(1, ek)` is 1, with
`ek >= 0` then and `ek <= 0` otherwise (for `ek = 0` the sign is the sign bit
of the zero). -/
theorem diffusion_weight_closure (neg1 neg2 neg3 : Bool) (e1 e2 e3 : α) :
    (|e1| + |e2| + |e3| = 0 → diffusion_weights neg1 neg2 neg3 e1 e2 e3 = (0, 0, 0)) ∧
    (|e1| + |e2| + |e3| ≠ 0 →
      |(diffusion_weights neg1 neg2 neg3 e1 e2 e3).1|
        = (1 - |e1| / (|e1| + |e2| + |e3|)) / 2 ∧
      |(diffusion_weights neg1 neg2 neg3 e1 e2 e3).2.1|
        = (1 - |e2| / (|e1| + |e2| + |e3|)) / 2 ∧
      |(diffusion_weights neg1 neg2 neg3 e1 e2 e3).2.2|
        = (1 - |e3| / (|e1| + |e2| + |e3|)) / 2 ∧
      |(diffusion_weights neg1 neg2 neg3 e1 e2 e3).1|
        + |(diffusion_weights neg1 neg2 neg3 e1 e2 e3).2.1|
        + |(diffusion_weights neg1 neg2 neg3 e1 e2 e3).2.2| = 1) ∧
    ((0 ≤ |(diffusion_weights neg1 neg2 neg3 e1 e2 e3).1| ∧
        |(diffusion_weights neg1 neg2 neg3 e1 e2 e3).1| ≤ 1 / 2) ∧
      (0 ≤ |(diffusion_weights neg1 neg2 neg3 e1 e2 e3).2.1| ∧
        |(diffusion_weights neg1 neg2 neg3 e1 e2 e3).2.1| ≤ 1 / 2) ∧
      (0 ≤ |(diffusion_weights neg1 neg2 neg3 e1 e2 e3).2.2| ∧
        |(diffusion_weights neg1 neg2 neg3 e1 e2 e3).2.2| ≤ 1 / 2)) ∧
    ((|e1| ≤ |e2| → |(diffusion_weights neg1 neg2 neg3 e1 e2 e3).2.1|
        ≤ |(diffusion_weights neg1 neg2 neg3 e1 e2 e3).1|) ∧
      (|e2| ≤ |e1| → |(diffusion_weights neg1 neg2 neg3 e1 e2 e3).1|
        ≤ |(diffusion_weights neg1 neg2 neg3 e1 e2 e3).2.1|) ∧
      (|e1| ≤ |e3| → |(diffusion_weights neg1 neg2 neg3 e1 e2 e3).2.2|
        ≤ |(diffusion_weights neg1 neg2 neg3 e1 e2 e3).1|) ∧
      (|e3| ≤ |e1| → |(diffusion_weights neg1 neg2 neg3 e1 e2 e3).1|
        ≤ |(diffusion_weights neg1 neg2 neg3 e1 e2 e3).2.2|) ∧
      (|e2| ≤ |e3| → |(diffusion_weights neg1 neg2 neg3 e1 e2 e3).2.2|
        ≤ |(diffusion_weights neg1 neg2 neg3 e1 e2 e3).2.1|) ∧
      (|e3| ≤ |e2| → |(diffusion_weights neg1 neg2 neg3 e1 e2 e3).2.1|
        ≤ |(diffusion_weights neg1 neg2 neg3 e1 e2 e3).2.2|)) ∧
    (((diffusion_weights neg1 neg2 neg3 e1 e2 e3).1 ≠ 0 →
        (0 < (diffusion_weights neg1 neg2 neg3 e1 e2 e3).1 ∧
          copysignf_one neg1 e1 = 1 ∧ 0 ≤ e1) ∨
        ((diffusion_weights neg1 neg2 neg3 e1 e2 e3).1 < 0 ∧
          copysignf_one neg1 e1 = -1 ∧ e1 ≤ 0)) ∧
      ((diffusion_weights neg1 neg2 neg3 e1 e2 e3).2.1 ≠ 0 →
        (0 < (diffusion_weights neg1 neg2 neg3 e1 e2 e3).2.1 ∧
          copysignf_one neg2 e2 = 1 ∧ 0 ≤ e2) ∨
        ((diffusion_weights neg1 neg2 neg3 e1 e2 e3).2.1 < 0 ∧
          copysignf_one neg2 e2 = -1 ∧ e2 ≤ 0)) ∧
      ((diffusion_weights neg1 neg2 neg3 e1 e2 e3).2.2 ≠ 0 →
        (0 < (diffusion_weights neg1 neg2 neg3 e1 e2 e3).2.2 ∧
          copysignf_one neg3 e3 = 1 ∧ 0 ≤ e3) ∨
        ((diffusion_weights neg1 neg2 neg3 e1 e2 e3).2.2 < 0 ∧
          copysignf_one neg3 e3 = -1 ∧ e3 ≤ 0))) := by
  have a1 := abs_nonneg e1
  have a2 := abs_nonneg e2
  have a3 := abs_nonneg e3
  by_cases hS : |e1| + |e2| + |e3| = 0
  · rw [diffusion_weights_of_zero neg1 neg2 neg3 e1 e2 e3 hS]
    refine ⟨fun _ => rfl, fun h => absurd hS h, ?_, ?_, ?_⟩
    · simp
    · simp
    · simp
  · have hpos : 0 < |e1| + |e2| + |e3| :=
      lt_of_le_of_ne (by linarith) (fun h => hS h.symm)
    rw [diffusion_weights_of_ne neg1 neg2 neg3 e1 e2 e3 hS]
    obtain ⟨x1, x2, x3, x4⟩ := weight_shape neg1 e1 _ hpos (by linarith)
    obtain ⟨y1, y2, y3, y4⟩ := weight_shape neg2 e2 _ hpos (by linarith)
    obtain ⟨z1, z2, z3, z4⟩ := weight_shape neg3 e3 _ hpos (by linarith)
    have mono : ∀ a b : α, a ≤ b →
        (1 - b / (|e1| + |e2| + |e3|)) / 2 ≤ (1 - a / (|e1| + |e2| + |e3|)) / 2 := by
      intro a b hab
      have := div_le_div_of_nonneg_right hab hpos.le
      linarith
    refine ⟨fun h => absurd h hS, fun _ => ⟨x1, y1, z1, ?_⟩,
      ⟨⟨abs_nonneg _, by rw [x1]; exact x3⟩, ⟨abs_nonneg _, by rw [y1]; exact y3⟩,
        ⟨abs_nonneg _, by rw [z1]; exact z3⟩⟩, ?_, ⟨x4, y4, z4⟩⟩
    · show |(1 - |e1| / (|e1| + |e2| + |e3|)) / 2 * copysignf_one neg1 e1|
        + |(1 - |e2| / (|e1| + |e2| + |e3|)) / 2 * copysignf_one neg2 e2|
        + |(1 - |e3| / (|e1| + |e2| + |e3|)) / 2 * copysignf_one neg3 e3| = 1
      rw [x1, y1, z1]
      field_simp
      ring
    · refine ⟨fun h => ?_, fun h => ?_, fun h => ?_, fun h => ?_, fun h => ?_, fun h => ?_⟩
      · show |(1 - |e2| / (|e1| + |e2| + |e3|)) / 2 * copysignf_one neg2 e2|
          ≤ |(1 - |e1| / (|e1| + |e2| + |e3|)) / 2 * copysignf_one neg1 e1|
        rw [x1, y1]; exact mono _ _ h
      · show |(1 - |e1| / (|e1| + |e2| + |e3|)) / 2 * copysignf_one neg1 e1|
          ≤ |(1 - |e2| / (|e1| + |e2| + |e3|)) / 2 * copysignf_one neg2 e2|
        rw [x1, y1]; exact mono _ _ h
      · show |(1 - |e3| / (|e1| + |e2| + |e3|)) / 2 * copysignf_one neg3 e3|
          ≤ |(1 - |e1| / (|e1| + |e2| + |e3|)) / 2 * copysignf_one neg1 e1|
        rw [x1, z1]; exact mono _ _ h
      · show |(1 - |e1| / (|e1| + |e2| + |e3|)) / 2 * copysignf_one neg1 e1|
          ≤ |(1 - |e3| / (|e1| + |e2| + |e3|)) / 2 * copysignf_one neg3 e3|
        rw [x1, z1]; exact mono _ _ h
      · show |(1 - |e3| / (|e1| + |e2| + |e3|)) / 2 * copysignf_one neg3 e3|
          ≤ |(1 - |e2| / (|e1| + |e2| + |e3|)) / 2 * copysignf_one neg2 e2|
        rw [y1, z1]; exact mono _ _ h
      · show |(1 - |e2| / (|e1| + |e2| + |e3|)) / 2 * copysignf_one neg2 e2|
          ≤ |(1 - |e3| / (|e1| + |e2| + |e3|)) / 2 * copysignf_one neg3 e3|
        rw [y1, z1]; exact mono _ _ h

end DiffusionWeightClaim

theorem diffusion_weight_closure_witness :
    diffusion_weights false false false (1 : ℚ) (-2) 1 = (3 / 8, -(1 / 4), 3 / 8) ∧
    |(diffusion_weights false false false (1 : ℚ) (-2) 1).1|
      + |(diffusion_weights false false false (1 : ℚ) (-2) 1).2.1|
      + |(diffusion_weights false false false (1 : ℚ) (-2) 1).2.2| = 1 :=
  ⟨by decide!, ((diffusion_weight_closure false false false (1 : ℚ) (-2) 1).2.1
    (by norm_num [abs_of_nonneg, abs_of_neg])).2.2.2⟩

/-! ## Single precision and the exact model -/

section SinglePrecisionLink

variable {α : Type} [LinearOrderedField α]

/-- Without rounding the `float` expansion is the expansion of the exact
model. -/
theorem expand_fl_id (sq : α → α) (G : Grid α) (dom : Nat → Int) (i : Nat) (s : Flood α) :
    expand_fl id sq G dom i s = expand sq G dom i s := by
  have e0 : ∀ (j : Nat) (w : α) (t : Flood α), relax_fl id dom i j w t = relax dom i j w t :=
    fun _ _ _ => rfl
  have e1 : G.dia_xy_fl id sq = G.dia_xy sq := rfl
  have e2 : G.dia_xz_fl id sq = G.dia_xz sq := rfl
  have e3 : G.dia_yz_fl id sq = G.dia_yz sq := rfl
  have e4 : G.dia_xyz_fl id sq = G.dia_xyz sq := rfl
  simp only [expand_fl, expand, e0, e1, e2, e3, e4]

theorem sweep_fl_id (sq : α → α) (G : Grid α) (dom : Nat → Int) (voi : List Nat)
    (s : Flood α) : sweep_fl id sq G dom voi s = sweep sq G dom voi s := by
  have e : visit_fl id sq G dom = visit sq G dom := by
    funext t i
    unfold visit_fl visit
    rw [expand_fl_id]
  unfold sweep_fl sweep
  rw [e]

theorem flood_loop_fl_id (sq : α → α) (G : Grid α) (dom : Nat → Int) (voi : List Nat)
    (max_dist : Option α) (fuel : Nat) :
    ∀ s : Flood α, flood_loop_fl id sq G dom voi max_dist fuel s
      = flood_loop sq G dom voi max_dist fuel s := by
  induction fuel with
  | zero => intro s; rfl
  | succ fuel ih =>
    intro s
    unfold flood_loop_fl flood_loop
    rw [ih, sweep_fl_id]

/-- Without rounding the `float` program is the exact model. -/
theorem geodistance_fl_id (sq : α → α) (G : Grid α) (dom raw : Nat → Int)
    (mode_init_val : Option Int) (max_dist : Option α) (fuel : Nat) :
    geodistance_fl id sq G dom raw mode_init_val max_dist fuel
      = geodistance sq G dom raw mode_init_val max_dist fuel := by
  unfold geodistance_fl geodistance
  rw [flood_loop_fl_id]
  rfl

end SinglePrecisionLink

/-- Below `2^32` voxels line 119 does not wrap. -/
theorem nr_voxels_u32_eq {α : Type} (G : Grid α) (h : G.size_z * G.size_y * G.size_x < 2 ^ 32) :
    G.nr_voxels_u32 = G.nr_voxels := by
  unfold Grid.nr_voxels_u32 Grid.nr_voxels
  rcases Nat.eq_zero_or_pos G.size_x with h0 | h0
  · rw [h0]; simp
  · have h1 : G.size_z * G.size_y ≤ G.size_z * G.size_y * G.size_x :=
      Nat.le_mul_of_pos_right _ h0
    rw [Nat.mod_eq_of_lt (lt_of_le_of_lt h1 h), Nat.mod_eq_of_lt h]

/-! ## Where the arithmetic of the program decides -/

/-- C5 fails in the `float` arithmetic of the program.  On the line of three
voxels along x with `pixdim = (1e-8, 1, 1)` (the `float` nearest to `1e-8`),
all in the domain and seeded at index 0, the half voxel is
`11184811/33554432` and the sum `half_voxel + dX` rounds back to it: the run
ends with that value at all three voxels, while `half_voxel + 2 dX` is a
different number, evaluated exactly or in `float`.  (The diagonals are not
used on a line.) -/
theorem line_scenario_counterexample :
    0 < round32 (1 / 100000000) ∧
    Grid.dist_to_axes_fl round32 (⟨3, 1, 1, round32 (1 / 100000000), 1, 1⟩ : Grid ℚ)
      = 11184811 / 33554432 ∧
    (geodistance_fl round32 (fun x => (x + 1) / 2) ⟨3, 1, 1, round32 (1 / 100000000), 1, 1⟩
      (fun _ => 1) (fun k => if k = 0 then 1 else 0) none none 4).map
        (fun r => ((List.range 3).map r.flood_dist, r.voxel_counter))
      = some ([11184811 / 33554432, 11184811 / 33554432, 11184811 / 33554432], 0) ∧
    (11184811 / 33554432 : ℚ) ≠ 11184811 / 33554432 + 2 * round32 (1 / 100000000) ∧
    (11184811 / 33554432 : ℚ)
      ≠ round32 (11184811 / 33554432 + round32 (2 * round32 (1 / 100000000))) := by
  decide!

/-- The instance of C5 with spacing `(1,1,1)` and `n = 5` in `float`: every
sum is a `float`, and the run ends with `[0.5, 1.5, 2.5, 3.5, 4.5]`. -/
theorem line_unit_single_precision :
    (geodistance_fl round32 (fun x => (x + 1) / 2) ⟨5, 1, 1, 1, 1, 1⟩ (fun _ => 1)
      (fun k => if k = 0 then 1 else 0) none none 6).map
        (fun r => (List.range 5).map r.flood_dist)
      = some [1 / 2, 3 / 2, 5 / 2, 7 / 2, 9 / 2] := by
  decide!

/-- Scenario 1 with spacing `(2,1,1)` in the `float` arithmetic of the
program: the half voxel is `11184811/16777216`, the `float` nearest to `2/3`,
and the sums are rounded one by one. -/
theorem scenario_one_single_precision :
    (geodistance_fl round32 (fun x => (x + 1) / 2) ⟨1, 1, 5, 2, 1, 1⟩ (fun _ => 1)
      (fun k => if k = 0 then 1 else 0) none none 6).map
        (fun r => (List.range 5).map r.flood_dist)
      = some [11184811 / 16777216, 6990507 / 4194304, 11184811 / 4194304,
        15379115 / 4194304, 4893355 / 1048576] ∧
    (geodistance_fl round32 (fun x => (x + 1) / 2) ⟨5, 1, 1, 2, 1, 1⟩ (fun _ => 1)
      (fun k => if k = 0 then 1 else 0) none none 6).map
        (fun r => (List.range 5).map r.flood_dist)
      = some [11184811 / 16777216, 11184811 / 4194304, 4893355 / 1048576,
        6990507 / 1048576, 9087659 / 1048576] := by
  decide!

/-- C24 fails for grids of `2^32` voxels or more, where line 119 wraps.  On
the grid of sizes `32767 x 32767 x 5` the program computes
`nr_voxels = 1073414149`; the voxel 0 is below it and in the index set of a
domain that holds every voxel; its block for the offset `(0, 0, 1)` passes the
bounds test (`iz = 0 < end_z = 4`) and addresses the index
`32767 * 32767 = 1073676289`, which is not below `nr_voxels`. -/
theorem index_safety_counterexample :
    (1 ≤ (⟨32767, 32767, 5, 1, 1, 1⟩ : Grid ℚ).size_x ∧
      1 ≤ (⟨32767, 32767, 5, 1, 1, 1⟩ : Grid ℚ).size_y ∧
      1 ≤ (⟨32767, 32767, 5, 1, 1, 1⟩ : Grid ℚ).size_z) ∧
    (⟨32767, 32767, 5, 1, 1, 1⟩ : Grid ℚ).nr_voxels_u32 = 1073414149 ∧
    0 ∈ voi_id (fun _ => 1) (⟨32767, 32767, 5, 1, 1, 1⟩ : Grid ℚ).nr_voxels_u32 ∧
    (⟨0, 0, 1, 1⟩ : Nbr ℚ) ∈ nbr_table (fun x : ℚ => (x + 1) / 2) ⟨32767, 32767, 5, 1, 1, 1⟩ ∧
    nbr_guard (⟨32767, 32767, 5, 1, 1, 1⟩ : Grid ℚ) 0 ⟨0, 0, 1, 1⟩ ∧
    nbr_index (⟨32767, 32767, 5, 1, 1, 1⟩ : Grid ℚ) 0 ⟨0, 0, 1, 1⟩ = 1073676289 ∧
    ¬ (nbr_index (⟨32767, 32767, 5, 1, 1, 1⟩ : Grid ℚ) 0 ⟨0, 0, 1, 1⟩
      < (⟨32767, 32767, 5, 1, 1, 1⟩ : Grid ℚ).nr_voxels_u32) := by
  refine ⟨by decide, by decide, ?_, ?_, by decide, by decide, by decide⟩
  · exact (mem_voi_id _ _ 0).mpr ⟨by decide, by decide⟩
  · simp [nbr_table]

/-- C24, as the code has it: on a grid of fewer than `2^32` voxels, for an
index `i` of the domain index set, `i` is below the `nr_voxels` of line 119,
the sizes are at least 1 and the decoded coordinates lie inside the grid;
every neighbour index `j` of a block whose bounds test passes is below
`nr_voxels` and differs from `i`, and its coordinates are those of `i` moved
by at most one on each axis (no wraparound across a grid boundary); and the
sweep over the index set with every buffer access checked never fails: it
returns the result of the sweep. -/
theorem index_safety_amended {α : Type} [LinearOrderedField α] (sq : α → α) (G : Grid α)
    (dom : Nat → Int) (i : Nat) (hsize : G.size_z * G.size_y * G.size_x < 2 ^ 32)
    (hi : i ∈ voi_id dom G.nr_voxels_u32) :
    (i < G.nr_voxels_u32 ∧ 1 ≤ G.size_x ∧ 1 ≤ G.size_y ∧ 1 ≤ G.size_z) ∧
    ((ind2sub_3D i G.size_x G.size_y).1 < G.size_x ∧
      (ind2sub_3D i G.size_x G.size_y).2.1 < G.size_y ∧
      (ind2sub_3D i G.size_x G.size_y).2.2 < G.size_z) ∧
    (∀ e ∈ nbr_table sq G, nbr_guard G i e →
      nbr_index G i e < G.nr_voxels_u32 ∧ nbr_index G i e ≠ i ∧
      near (ind2sub_3D i G.size_x G.size_y).1
        (ind2sub_3D (nbr_index G i e) G.size_x G.size_y).1 ∧
      near (ind2sub_3D i G.size_x G.size_y).2.1
        (ind2sub_3D (nbr_index G i e) G.size_x G.size_y).2.1 ∧
      near (ind2sub_3D i G.size_x G.size_y).2.2
        (ind2sub_3D (nbr_index G i e) G.size_x G.size_y).2.2 ∧
      ((ind2sub_3D (nbr_index G i e) G.size_x G.size_y).1 : Int)
        = ((ind2sub_3D i G.size_x G.size_y).1 : Int) + e.a ∧
      ((ind2sub_3D (nbr_index G i e) G.size_x G.size_y).2.1 : Int)
        = ((ind2sub_3D i G.size_x G.size_y).2.1 : Int) + e.b ∧
      ((ind2sub_3D (nbr_index G i e) G.size_x G.size_y).2.2 : Int)
        = ((ind2sub_3D i G.size_x G.size_y).2.2 : Int) + e.c) ∧
    (∀ s : Flood α, sweep_checked sq G dom (voi_id dom G.nr_voxels_u32) s
      = some (sweep sq G dom (voi_id dom G.nr_voxels_u32) s)) := by
  rw [nr_voxels_u32_eq G hsize] at hi ⊢
  exact index_safety_nat sq G dom i hi

theorem index_safety_amended_witness :
    ((26 : Nat) < (⟨3, 3, 3, 1, 2, 3⟩ : Grid ℚ).nr_voxels_u32 ∧
      1 ≤ (⟨3, 3, 3, 1, 2, 3⟩ : Grid ℚ).size_x ∧ 1 ≤ (⟨3, 3, 3, 1, 2, 3⟩ : Grid ℚ).size_y ∧
      1 ≤ (⟨3, 3, 3, 1, 2, 3⟩ : Grid ℚ).size_z) ∧
    ((ind2sub_3D 26 3 3).1 < 3 ∧ (ind2sub_3D 26 3 3).2.1 < 3 ∧ (ind2sub_3D 26 3 3).2.2 < 3) :=
  have h := index_safety_amended (fun x : ℚ => (x + 1) / 2) ⟨3, 3, 3, 1, 2, 3⟩ (fun _ => 1) 26
    (by decide) (by decide)
  ⟨h.1, h.2.1⟩

end Laynii
